import Mathlib

/-!
Verification of the FortiManager policy-merger engine.

This file gives a shallow embedding, in Lean 4, of the core of the
policy-merger repository: the rule model (`models.py`), the dedup and
similarity engine (`diff_engine.py`), the token-union merge operator
(`merger.py`), the name disambiguator and config generator
(`cli_gen.py`), and the config parser (`fgt_config_parser.py`).
Python strings are Lean `String`s, Python dicts are insertion-ordered
association lists, Python floats arising from Jaccard scores are
rationals, and the two regular expressions of the parser are embedded
as explicit leftmost-match scanners over character lists.

The theorems at the end of the file settle the specification claims
about these functions.
-/

namespace PolicyMerger

/-! ## Python string primitives -/

/-- The whitespace characters recognised by Python `str.split()` /
`str.strip()` (ASCII range, which is all the repository ever feeds in). -/
def isSpaceChar (c : Char) : Bool :=
  c = ' ' || c = '\t' || c = '\n' || c = '\r' || c = '\x0b' || c = '\x0c'

/-- `str.strip()` on a character list. -/
def stripChars (l : List Char) : List Char :=
  ((l.dropWhile isSpaceChar).reverse.dropWhile isSpaceChar).reverse

/-- `str.strip()`. -/
def pyStrip (s : String) : String := String.mk (stripChars s.data)

theorem dropWhile_length_le {α : Type} (p : α → Bool) (l : List α) :
    (l.dropWhile p).length ≤ l.length := by
  induction l with
  | nil => simp
  | cons c t ih =>
    by_cases h : p c
    · simp only [List.dropWhile_cons, h, if_true]
      exact Nat.le_succ_of_le ih
    · simp [List.dropWhile_cons, h]

/-- The accumulator loop of `str.split()`: `acc` holds the reversed
characters of the token currently being read. -/
def wsTokensAux : List Char → List Char → List (List Char)
  | [], acc => if acc = [] then [] else [acc.reverse]
  | c :: t, acc =>
    if isSpaceChar c then
      (if acc = [] then wsTokensAux t [] else acc.reverse :: wsTokensAux t [])
    else wsTokensAux t (c :: acc)

/-- Python `str.split()` (no separator): split on whitespace runs,
dropping empty pieces. -/
def wsTokens (l : List Char) : List (List Char) := wsTokensAux l []

/-- `str.split()` on a `String`. -/
def pySplit (s : String) : List String := (wsTokens s.data).map String.mk

/-- Python `"sep".join(...)` restricted to a single-character separator:
the general shape used by the sources is `" ".join(tokens)` and
`"\n".join(lines)`. -/
def joinSep (sep : String) : List String → String
  | [] => ""
  | [t] => t
  | t :: rest => t ++ sep ++ joinSep sep rest

/-- Python `value.split(sep)` with an explicit one-character separator. -/
def splitOnChar (sep : Char) : List Char → List (List Char)
  | [] => [[]]
  | c :: t =>
    if c = sep then [] :: splitOnChar sep t
    else
      match splitOnChar sep t with
      | h :: r => (c :: h) :: r
      | [] => [[c]]

theorem splitOnChar_ne_nil (sep : Char) (l : List Char) : splitOnChar sep l ≠ [] := by
  cases l with
  | nil => simp [splitOnChar]
  | cons c t =>
    simp only [splitOnChar]
    split
    · simp
    · split <;> simp

/-- Python `str.splitlines()` for text whose only line separator is
`"\n"` (the only separator the generator ever emits): split on `'\n'`
and drop the final empty piece produced by a trailing newline; the
empty string has no lines at all. -/
def pySplitlines (s : String) : List String :=
  if s.data = [] then []
  else
    let parts := splitOnChar '\n' s.data
    let parts := if parts.getLastD [] = [] then parts.dropLast else parts
    parts.map String.mk

/-- Python string comparison (`<` on `str`): lexicographic on code points. -/
def lexLt : List Char → List Char → Bool
  | [], [] => false
  | [], _ :: _ => true
  | _ :: _, [] => false
  | a :: as, b :: bs =>
    if a.toNat < b.toNat then true
    else if b.toNat < a.toNat then false
    else lexLt as bs

def pyStrLe (a b : String) : Bool := !(lexLt b.data a.data)

/-- Stable insertion: place `x` before the first element not below it. -/
def insertLe {α : Type} (le : α → α → Bool) (x : α) : List α → List α
  | [] => [x]
  | y :: t => if le x y then x :: y :: t else y :: insertLe le x t

/-- Stable sort by a boolean comparator — the semantics of Python
`sorted` (a stable sort is unique for a total transitive comparator). -/
def sortLe {α : Type} (le : α → α → Bool) (l : List α) : List α :=
  l.foldr (insertLe le) []

/-- Python `sorted(...)` on strings. -/
def pySorted (l : List String) : List String := sortLe pyStrLe l

/-- Order-preserving de-duplication, keeping the first occurrence —
the `seen`-set loop idiom used throughout the sources. -/
def dedupFirst {α : Type} [DecidableEq α] : List α → List α :=
  go []
where
  go (seen : List α) : List α → List α
    | [] => []
    | x :: t => if x ∈ seen then go seen t else x :: go (x :: seen) t

/-- Python `sorted(set(l))` on strings. -/
def pySortedSet (l : List String) : List String := pySorted (dedupFirst l)

def digitChar (n : Nat) : Char := Char.ofNat (48 + n)

/-- Fuelled decimal-digit loop (`fuel` bounds the number of digits, so
`n + 1` is always enough). -/
def digitsGo : Nat → Nat → List Char
  | 0, _ => []
  | fuel + 1, n => if n < 10 then [digitChar n] else digitChar (n % 10) :: digitsGo fuel (n / 10)

/-- The decimal digit characters of `n`, least significant first. -/
def digitsRev (n : Nat) : List Char := digitsGo (n + 1) n

/-- Python `str(i)` for a natural number. -/
def natStr (n : Nat) : String := String.mk (digitsRev n).reverse

/-- Python slicing `s[:k]` with a possibly negative bound. -/
def pySliceTo (s : String) (k : Int) : String :=
  if k < 0 then String.mk (s.data.take (s.length - (-k).toNat))
  else String.mk (s.data.take k.toNat)

/-! ## Python dicts as insertion-ordered association lists -/

/-- A Python `dict` keyed by strings, in insertion order. -/
abbrev Dict (α : Type) := List (String × α)

/-- `d.get(k)` / `d[k]` lookup. -/
def dlookup {α : Type} : Dict α → String → Option α
  | [], _ => none
  | (k', v) :: t, k => if k' = k then some v else dlookup t k

/-- `d[k] = v`: replace in place if the key exists, else append. -/
def dset {α : Type} : Dict α → String → α → Dict α
  | [], k, v => [(k, v)]
  | (k', v') :: t, k, v => if k' = k then (k, v) :: t else (k', v') :: dset t k v

def dkeys {α : Type} (d : Dict α) : List String := d.map Prod.fst

/-- `d.get(k, default)`. -/
def dgetD {α : Type} (d : Dict α) (k : String) (default : α) : α :=
  (dlookup d k).getD default

/-- Python `==` between dicts with unique keys: same keys bound to the
same values, insertion order ignored. -/
def dictEqB {α : Type} [DecidableEq α] (d₁ d₂ : Dict α) : Bool :=
  d₁.all (fun kv => dlookup d₂ kv.1 = some kv.2) &&
  d₂.all (fun kv => dlookup d₁ kv.1 = some kv.2)

/-- `collections.defaultdict(list)` grouping: append `v` to the bucket
of `k`, creating the bucket at the end on first sight of `k`. -/
def groupAdd {K V : Type} [DecidableEq K] : List (K × List V) → K → V → List (K × List V)
  | [], k, v => [(k, [v])]
  | (k', vs) :: rest, k, v =>
    if k' = k then (k', vs ++ [v]) :: rest else (k', vs) :: groupAdd rest k v

/-- Group a list by a key function, preserving first-seen key order and
within-bucket input order. -/
def groupByKey {K V : Type} [DecidableEq K] (key : V → K) (l : List V) : List (K × List V) :=
  l.foldl (fun g v => groupAdd g (key v) v) []

/-! ## Rule model (`models.py`) -/

/-- `PolicyRule`: a raw field-name → value mapping plus the originating
device tag. -/
structure PolicyRule where
  raw : Dict String
  source_fortigate : String
deriving DecidableEq, Repr, Inhabited

/-- Python `str.lower()` (character-wise case folding). -/
def pyLower (s : String) : String := String.mk (s.data.map Char.toLower)

/-- The `norm` helper inside `PolicyRule.identity_signature`:
whitespace-normalise and lowercase, with `None` ↦ `""`. -/
def sigNorm (v : Option String) : String :=
  match v with
  | none => ""
  | some s => pyLower (joinSep " " (pySplit (pyStrip s)))

def identityKeyFields : List String :=
  ["srcintf", "dstintf", "srcaddr", "dstaddr", "service", "schedule", "action", "nat"]

/-- `PolicyRule.identity_signature`. -/
def identitySignature (r : PolicyRule) : List String :=
  identityKeyFields.map (fun k => sigNorm (dlookup r.raw k))

/-! ## Diff engine (`diff_engine.py`) -/

def FIVE_FIELDS : List String := ["srcaddr", "dstaddr", "srcintf", "dstintf", "service"]

def STABLE_CONTEXT_FIELDS : List String := ["schedule", "action", "nat", "status"]

/-- `_normalize_space`. -/
def normalizeSpace (value : String) : String := joinSep " " (pySplit (pyStrip value))

/-- `_tokenize_multi_value`: normalise, then split the normalised string
on single spaces (empty string ↦ no tokens). -/
def tokenizeMultiValue (value : String) : List String :=
  let normalized := normalizeSpace value
  if normalized = "" then []
  else (splitOnChar ' ' normalized.data).map String.mk

/-- `jaccard_similarity`, with the Python float computed exactly in `ℚ`. -/
def jaccardSimilarity (aTokens bTokens : List String) : ℚ :=
  let aSet := dedupFirst aTokens
  let bSet := dedupFirst bTokens
  if aSet = [] ∧ bSet = [] then 1
  else
    let intersection := (aSet.filter (· ∈ bSet)).length
    let union := (dedupFirst (aSet ++ bSet)).length
    if union ≠ 0 then (intersection : ℚ) / (union : ℚ) else 0

/-- `compare_rules`: the ordered dict of per-field `(a_val, b_val)` diffs. -/
def compareRules (ruleA ruleB : PolicyRule) (fields : List String) :
    Dict (String × String) :=
  fields.foldl
    (fun diffs field =>
      let aVal := dgetD ruleA.raw field ""
      let bVal := dgetD ruleB.raw field ""
      if normalizeSpace aVal ≠ normalizeSpace bVal then dset diffs field (aVal, bVal)
      else diffs)
    []

/-- Python `<` on pairs of strings: lexicographic by component. -/
def pairLt (a b : String × String) : Bool :=
  lexLt a.1.data b.1.data || (a.1 = b.1 && lexLt a.2.data b.2.data)

def pairLe (a b : String × String) : Bool := !(pairLt b a)

/-- The stable key of `group_by_stable_key`: the sorted list of
`(field, normalised value)` pairs over the non-excluded fields. -/
def stableKey (excluded : List String) (r : PolicyRule) : List (String × String) :=
  sortLe pairLe
    (r.raw.filterMap
      (fun kv => if kv.1 ∈ excluded then none else some (kv.1, normalizeSpace kv.2)))

/-- `group_by_stable_key`. -/
def groupByStableKey (rules : List PolicyRule) (excluded : List String) :
    List (List (String × String) × List PolicyRule) :=
  groupByKey (stableKey excluded) rules

/-- `SimilaritySuggestion`. -/
structure SimilaritySuggestion where
  stable_key : List (String × String)
  field_diffs : Dict (String × String)
  similarity_score : ℚ
  rule_a : PolicyRule
  rule_b : PolicyRule
deriving DecidableEq, Repr, Inhabited

/-- `MergeGroupSuggestion`. -/
structure MergeGroupSuggestion where
  varying_field : String
  base_key : List String
  context : List (String × String)
  rules : List PolicyRule
deriving DecidableEq, Repr

/-- The unordered pairs `(i, j)`, `i < j`, of one stable-key bucket, in
the nested-loop order of `find_similar_rules`. -/
def bucketPairs (rs : List PolicyRule) : List (PolicyRule × PolicyRule) :=
  match rs with
  | [] => []
  | a :: rest => rest.map (fun b => (a, b)) ++ bucketPairs rest

/-- The suggestion `find_similar_rules` emits for one pair. -/
def pairSuggestion (key : List (String × String)) (candidateFields : List String)
    (a b : PolicyRule) : SimilaritySuggestion :=
  let diffs := compareRules a b candidateFields
  if diffs = [] then
    { stable_key := key, field_diffs := [], similarity_score := 1, rule_a := a, rule_b := b }
  else
    let scores := diffs.map (fun kv => jaccardSimilarity
      (tokenizeMultiValue kv.2.1) (tokenizeMultiValue kv.2.2))
    let avgScore := if scores.length ≠ 0 then scores.sum / (scores.length : ℚ) else 0
    { stable_key := key, field_diffs := diffs, similarity_score := avgScore,
      rule_a := a, rule_b := b }

/-- The per-bucket body of `find_similar_rules`: buckets with fewer
than two rules are skipped, every pair of larger buckets contributes a
suggestion. -/
def similarStep (candidateFields : List String) (suggestions : List SimilaritySuggestion)
    (g : List (String × String) × List PolicyRule) : List SimilaritySuggestion :=
  if g.2.length < 2 then suggestions
  else suggestions ++ (bucketPairs g.2).map (fun p => pairSuggestion g.1 candidateFields p.1 p.2)

/-- `find_similar_rules`.  Note the source appends a suggestion for every
differing pair: `min_similarity` is received but never consulted. -/
def findSimilarRules (rules : List PolicyRule)
    (candidateFields : List String) (minSimilarity : ℚ) : List SimilaritySuggestion :=
  let _ := minSimilarity
  let excludedFields := candidateFields ++ ["name", "policyid"]
  let groups := groupByStableKey rules excludedFields
  groups.foldl (similarStep candidateFields) []

/-- `deduplicate_identical_rules`: keep the first rule of each identity
signature; return the survivors and the number removed. -/
def deduplicateIdenticalRules (rules : List PolicyRule) : List PolicyRule × Nat :=
  go [] rules
where
  go (seen : List (List String)) : List PolicyRule → List PolicyRule × Nat
    | [] => ([], 0)
    | r :: rest =>
      let sig := identitySignature r
      if sig ∈ seen then
        let (u, n) := go seen rest
        (u, n + 1)
      else
        let (u, n) := go (sig :: seen) rest
        (r :: u, n)

/-- The grouping key of `find_group_merge_suggestions_single_field` for
one choice of varying field: the other four normalised five-field values
followed by the flattened context pairs. -/
def singleFieldGroupKey (contextFields : List String) (varying : String) (r : PolicyRule) :
    List String :=
  let otherValues := (FIVE_FIELDS.filter (· ≠ varying)).map
    (fun f => normalizeSpace (dgetD r.raw f ""))
  let ctx := contextFields.map (fun f => (f, normalizeSpace (dgetD r.raw f "")))
  otherValues ++ ctx.foldr (fun kv acc => kv.1 :: kv.2 :: acc) []

/-- Python `min(...)` over a nonempty list of naturals (the sources only
apply it to nonempty generators). -/
def pyMinNat : List Nat → Nat
  | [] => 0
  | x :: t => t.foldl min x

/-- The body of the per-group filter in
`find_group_merge_suggestions_single_field`: a group survives only if
the union of the varying field token sets is strictly larger than the
smallest member token set. -/
def groupSurvives (varying : String) (rs : List PolicyRule) : Bool :=
  let tokenSets := rs.map (fun x => dedupFirst (tokenizeMultiValue (dgetD x.raw varying "")))
  let unionSet := dedupFirst tokenSets.flatten
  decide (¬ unionSet.length ≤ pyMinNat (tokenSets.map List.length))

/-- One `MergeGroupSuggestion` as built from the first rule of a group. -/
def mkGroupSuggestion (contextFields : List String) (varying : String)
    (rs : List PolicyRule) : MergeGroupSuggestion :=
  let r0 := rs.headI
  let ctx := contextFields.map (fun f => (f, normalizeSpace (dgetD r0.raw f "")))
  let baseKey := (FIVE_FIELDS.filter (· ≠ varying)).map
    (fun f => normalizeSpace (dgetD r0.raw f ""))
  { varying_field := varying, base_key := baseKey, context := ctx, rules := rs }

/-- The per-bucket body of `find_group_merge_suggestions_single_field`. -/
def singleFieldStep (contextFields : List String) (varying : String)
    (acc : List MergeGroupSuggestion) (g : List String × List PolicyRule) :
    List MergeGroupSuggestion :=
  if g.2.length < 2 then acc
  else if groupSurvives varying g.2 then acc ++ [mkGroupSuggestion contextFields varying g.2]
  else acc

/-- The suggestions contributed by one choice of varying field. -/
def singleFieldSuggestions (rules : List PolicyRule) (contextFields : List String)
    (varying : String) : List MergeGroupSuggestion :=
  (groupByKey (singleFieldGroupKey contextFields varying) rules).foldl
    (singleFieldStep contextFields varying) []

/-- `find_group_merge_suggestions_single_field` (the source defaults
`context_fields` to `STABLE_CONTEXT_FIELDS`). -/
def findGroupMergeSuggestionsSingleField (rules : List PolicyRule)
    (contextFields : List String) : List MergeGroupSuggestion :=
  FIVE_FIELDS.foldl
    (fun results varying => results ++ singleFieldSuggestions rules contextFields varying)
    []

/-! ## Merge operator (`merger.py`) -/

/-- `merger._tokenize` (it coincides with `_tokenize_multi_value`). -/
def mergerTokenize (value : String) : List String := tokenizeMultiValue value

/-- `_join_tokens`: order-preserving de-duplicating union, joined with
single spaces. -/
def joinTokens (aTokens bTokens : List String) : String :=
  joinSep " " (dedupFirst (aTokens ++ bTokens))

/-- `merge_fields`: a copy of `rule_a.raw` with each listed field
replaced by the token union of the two rules. -/
def mergeFields (ruleA ruleB : PolicyRule) (fields : List String) : Dict String :=
  fields.foldl
    (fun merged field =>
      let tokensA := mergerTokenize (dgetD ruleA.raw field "")
      let tokensB := mergerTokenize (dgetD ruleB.raw field "")
      dset merged field (joinTokens tokensA tokensB))
    ruleA.raw

/-! ## Config generator (`cli_gen.py`): object catalog -/

structure Address where
  name : String
  subnet : String × String
  comment : Option String
deriving DecidableEq, Repr, Inhabited

structure AddressGroup where
  name : String
  members : List String
  comment : Option String
deriving DecidableEq, Repr, Inhabited

structure Service where
  name : String
  tcp_portrange : Option String
  udp_portrange : Option String
  comment : Option String
deriving DecidableEq, Repr, Inhabited

structure ServiceGroup where
  name : String
  members : List String
  comment : Option String
deriving DecidableEq, Repr, Inhabited

structure Vip where
  name : String
  extip : String
  mappedip : String
  extintf : Option String
  portforward : Bool
  extport : Option String
  mappedport : Option String
  comment : Option String
deriving DecidableEq, Repr, Inhabited

structure IpPool where
  name : String
  startip : String
  endip : String
  pool_type : Option String
  comment : Option String
deriving DecidableEq, Repr, Inhabited

structure ObjectCatalog where
  addresses : Dict Address
  addr_groups : Dict AddressGroup
  services : Dict Service
  service_groups : Dict ServiceGroup
  vips : Dict Vip
  ippools : Dict IpPool
deriving DecidableEq, Repr, Inhabited

/-! ## Config generator: tokenisation helpers -/

/-- `_q`: quote a name, replacing embedded double quotes by single quotes. -/
def qName (name : String) : String :=
  "\"" ++ String.mk (name.data.map (fun c => if c = '"' then '\'' else c)) ++ "\""

def endsWithColon (s : String) : Bool := s.data.getLast? = some ':'

/-- The colon-pairing loop of `_split_values`: a token ending in `:` is
glued to the following token; a trailing lone `:` is stripped. -/
def pairColon : List String → List String
  | [] => []
  | [tok] =>
    if endsWithColon tok then [pySliceTo tok ((tok.length : Int) - 1)] else [tok]
  | tok :: next :: rest =>
    if endsWithColon tok then (tok ++ " " ++ next) :: pairColon rest
    else tok :: pairColon (next :: rest)

/-- `" ".join(s.split())` followed by `split(" ")` with empties dropped:
the raw-token phase shared by `_split_values` and friends. -/
def rawSpaceTokens (s : String) : List String :=
  ((splitOnChar ' ' (joinSep " " (pySplit s)).data).map String.mk).filter (· ≠ "")

/-- `_split_values`. -/
def splitValues (value : Option String) : List String :=
  match value with
  | none => []
  | some v =>
    if v = "" then []
    else
      let s := pyStrip v
      if s = "" then []
      else dedupFirst (pairColon (rawSpaceTokens s))

/-- `" ".join(raw_tokens[i:j])` for the catalog-aware greedy matcher. -/
def spanJoin (toks : List String) (j : Nat) : String := joinSep " " (toks.take j)

/-- Longest `j ≤ bound` such that the join of the first `j` tokens is a
known name (the `for j in range(n, i, -1)` loop). -/
def findLongest (known : List String) (toks : List String) : Nat → Option Nat
  | 0 => none
  | j + 1 => if spanJoin toks (j + 1) ∈ known then some (j + 1) else findLongest known toks j

/-- The scanning loop of `_map_tokens_with_catalog`. -/
def mapTokensGo (known : List String) : List String → List String
  | [] => []
  | tok :: rest =>
    match findLongest known (tok :: rest) (tok :: rest).length with
    | some j => spanJoin (tok :: rest) j :: mapTokensGo known (rest.drop (j - 1))
    | none => tok :: mapTokensGo known rest
termination_by l => l.length
decreasing_by
· simp only [List.length_drop, List.length_cons]
  omega
· exact Nat.lt_succ_of_le (Nat.le_refl _)

/-- `_map_tokens_with_catalog`. -/
def mapTokensWithCatalog (value : Option String) (knownNames : List String) : List String :=
  match value with
  | none => []
  | some v =>
    if v = "" then []
    else
      let s := pyStrip v
      if s = "" ∨ knownNames = [] then splitValues value
      else dedupFirst (mapTokensGo knownNames (rawSpaceTokens s))

/-- `_truthy`. -/
def pyTruthy (value : Option String) : Bool :=
  match value with
  | none => false
  | some s => pyLower (pyStrip s) ∈ ["enable", "enabled", "1", "true", "yes"]

def profileFields : List String :=
  ["av-profile", "webfilter-profile", "dnsfilter-profile", "ips-sensor",
   "application-list", "ssl-ssh-profile"]

/-- `_has_any_profile`. -/
def hasAnyProfile (r : Dict String) : Bool :=
  profileFields.any (fun k => dgetD r k "" ≠ "")

/-- `_map_logtraffic`. -/
def mapLogtraffic (val : Option String) : String :=
  match val with
  | none => "utm"
  | some v =>
    if v = "" then "utm"
    else
      let s := pyLower (pyStrip v)
      if s ∈ ["utm", "all", "disable"] then s
      else if s ∈ ["enabled", "enable", "yes", "true"] then "all"
      else if s ∈ ["no", "false"] then "disable"
      else s

/-- The per-token body of `_map_interface_tokens`. -/
def mapIfaceTok (tok : String) : List String :=
  let t := pyStrip tok
  if t = "" then []
  else
    let t := if pyLower t = "sslvpn_tun_intf" then "ssl.root" else t
    if t.data.head? = some '_' && '.' ∈ t.data && !(t.data.head? = some '"') then
      let zone := String.mk (t.data.takeWhile (· ≠ '.'))
      let iface := String.mk ((t.data.dropWhile (· ≠ '.')).tail)
      (if zone ≠ "" then [zone] else []) ++ (if iface ≠ "" then [iface] else [])
    else [t]

/-- `_map_interface_tokens`. -/
def mapInterfaceTokens (value : Option String) : List String :=
  match value with
  | none => []
  | some v =>
    if v = "" then []
    else
      let s := joinSep " " (pySplit (pyStrip v))
      if s = "" then []
      else
        let rawTokens := ((splitOnChar ' ' s.data).map String.mk).filter (· ≠ "")
        dedupFirst (rawTokens.flatMap mapIfaceTok)

/-! ## Config generator: emitters -/

/-- `_emit_block`. -/
def emitBlock (header : String) (lines : List String) : List String :=
  header :: lines ++ ["end"]

/-- `_emit_edit_block` (a `None`/empty setter is skipped). -/
def emitEditBlock (name : String) (setters : List (Option String)) : List String :=
  ("    edit " ++ qName name) ::
    (setters.filterMap (fun s? =>
      match s? with
      | some s => if s ≠ "" then some ("        " ++ s) else none
      | none => none)) ++ ["    next"]

/-- An optional setter of the form `f"..." if field else None`. -/
def optSetter (o : Option String) (f : String → String) : Option String :=
  match o with
  | some c => if c = "" then none else some (f c)
  | none => none

/-- `generate_addresses`. -/
def generateAddresses (addresses : Dict Address) : List String :=
  if addresses = [] then []
  else
    emitBlock "config firewall address"
      ((pySorted (dkeys addresses)).flatMap (fun name =>
        let a := dgetD addresses name default
        emitEditBlock a.name
          [some ("set subnet " ++ a.subnet.1 ++ " " ++ a.subnet.2),
           optSetter a.comment (fun c => "set comment " ++ qName c)]))

/-- `generate_address_groups`. -/
def generateAddressGroups (groups : Dict AddressGroup) : List String :=
  if groups = [] then []
  else
    emitBlock "config firewall addrgrp"
      ((pySorted (dkeys groups)).flatMap (fun name =>
        let g := dgetD groups name default
        let members : Option String :=
          if g.members ≠ [] then some (joinSep " " ((pySortedSet g.members).map qName)) else none
        emitEditBlock g.name
          [optSetter members (fun m => "set member " ++ m),
           optSetter g.comment (fun c => "set comment " ++ qName c)]))

/-- `generate_services`. -/
def generateServices (services : Dict Service) : List String :=
  if services = [] then []
  else
    emitBlock "config firewall service custom"
      ((pySorted (dkeys services)).flatMap (fun name =>
        let s := dgetD services name default
        emitEditBlock s.name
          [optSetter s.tcp_portrange (fun v => "set tcp-portrange " ++ v),
           optSetter s.udp_portrange (fun v => "set udp-portrange " ++ v),
           optSetter s.comment (fun c => "set comment " ++ qName c)]))

/-- `generate_service_groups`. -/
def generateServiceGroups (groups : Dict ServiceGroup) : List String :=
  if groups = [] then []
  else
    emitBlock "config firewall service group"
      ((pySorted (dkeys groups)).flatMap (fun name =>
        let g := dgetD groups name default
        let members : Option String :=
          if g.members ≠ [] then some (joinSep " " ((pySortedSet g.members).map qName)) else none
        emitEditBlock g.name
          [optSetter members (fun m => "set member " ++ m),
           optSetter g.comment (fun c => "set comment " ++ qName c)]))

/-- `generate_vips`. -/
def generateVips (vips : Dict Vip) : List String :=
  if vips = [] then []
  else
    emitBlock "config firewall vip"
      ((pySorted (dkeys vips)).flatMap (fun name =>
        let v := dgetD vips name default
        emitEditBlock v.name
          [some ("set extip " ++ v.extip),
           some ("set mappedip " ++ qName v.mappedip),
           optSetter v.extintf (fun x => "set extintf " ++ qName x),
           (if v.portforward then some "set portforward enable" else none),
           optSetter v.extport (fun x => "set extport " ++ x),
           optSetter v.mappedport (fun x => "set mappedport " ++ x),
           optSetter v.comment (fun c => "set comment " ++ qName c)]))

/-- `generate_ippools`. -/
def generateIppools (pools : Dict IpPool) : List String :=
  if pools = [] then []
  else
    emitBlock "config firewall ippool"
      ((pySorted (dkeys pools)).flatMap (fun name =>
        let p := dgetD pools name default
        emitEditBlock p.name
          [some ("set startip " ++ p.startip),
           some ("set endip " ++ p.endip),
           optSetter p.pool_type (fun t => "set type " ++ t),
           optSetter p.comment (fun c => "set comment " ++ qName c)]))

def pyUpper (s : String) : String := String.mk (s.data.map Char.toUpper)

/-- The policy-name fallback `r.get('name', r.get('policyid', 'policy'))`. -/
def policyNameFallback (r : Dict String) : String :=
  dgetD r "name" (dgetD r "policyid" "policy")

/-- One policy entry of `generate_policies`. -/
def policyEntryLines (catalog : Option ObjectCatalog) (nameOverrides : Option (List String))
    (idx : Nat) (rule : PolicyRule) : List String :=
  let r := rule.raw
  let srcintf := mapInterfaceTokens (dlookup r "srcintf")
  let dstintf := mapInterfaceTokens (dlookup r "dstintf")
  let srcaddr :=
    match catalog with
    | some cat =>
      mapTokensWithCatalog (dlookup r "srcaddr")
        (dkeys cat.addresses ++ dkeys cat.addr_groups ++ dkeys cat.vips)
    | none => splitValues (dlookup r "srcaddr")
  let dstaddr :=
    match catalog with
    | some cat =>
      mapTokensWithCatalog (dlookup r "dstaddr")
        (dkeys cat.addresses ++ dkeys cat.addr_groups ++ dkeys cat.vips)
    | none => splitValues (dlookup r "dstaddr")
  let services :=
    match catalog with
    | some cat =>
      mapTokensWithCatalog (dlookup r "service")
        (dkeys cat.services ++ dkeys cat.service_groups)
    | none => splitValues (dlookup r "service")
  let srcaddr := if srcaddr.any (fun t => pyLower t = "all" || pyLower t = "any") then ["all"] else srcaddr
  let dstaddr := if dstaddr.any (fun t => pyLower t = "all" || pyLower t = "any") then ["all"] else dstaddr
  let services := if services.any (fun t => pyUpper t = "ALL") then ["ALL"] else services
  let nameValue :=
    match nameOverrides with
    | some ov =>
      match ov.get? idx with
      | some s => if s = "" then policyNameFallback r else s
      | none => policyNameFallback r
    | none => policyNameFallback r
  let setters : List (Option String) :=
    [some ("set name " ++ qName nameValue),
     some (if srcintf ≠ [] then "set srcintf " ++ joinSep " " (srcintf.map qName)
           else "set srcintf \"any\""),
     some (if dstintf ≠ [] then "set dstintf " ++ joinSep " " (dstintf.map qName)
           else "set dstintf \"any\""),
     some (if srcaddr ≠ [] then "set srcaddr " ++ joinSep " " (srcaddr.map qName)
           else "set srcaddr \"all\""),
     some (if dstaddr ≠ [] then "set dstaddr " ++ joinSep " " (dstaddr.map qName)
           else "set dstaddr \"all\""),
     some (if services ≠ [] then "set service " ++ joinSep " " (services.map qName)
           else "set service \"ALL\""),
     some ("set schedule " ++ qName (dgetD r "schedule" "always")),
     some ("set action " ++ dgetD r "action" "accept"),
     (if pyLower (dgetD r "nat" "disable") ∈ ["enable", "1", "true", "yes"]
      then some "set nat enable" else none),
     (if pyTruthy (dlookup r "utm-status") || hasAnyProfile r
      then some "set utm-status enable" else none),
     optSetter (dlookup r "av-profile") (fun v => "set av-profile " ++ qName v),
     optSetter (dlookup r "webfilter-profile") (fun v => "set webfilter-profile " ++ qName v),
     optSetter (dlookup r "dnsfilter-profile") (fun v => "set dnsfilter-profile " ++ qName v),
     optSetter (dlookup r "ips-sensor") (fun v => "set ips-sensor " ++ qName v),
     optSetter (dlookup r "application-list") (fun v => "set application-list " ++ qName v),
     optSetter (dlookup r "ssl-ssh-profile") (fun v => "set ssl-ssh-profile " ++ qName v),
     (match dlookup r "logtraffic" with
      | some v => if v ≠ "" then some ("set logtraffic " ++ mapLogtraffic (some v)) else none
      | none => none)]
  "    edit 0" ::
    (setters.filterMap (fun s? =>
      match s? with
      | some s => if s ≠ "" then some ("        " ++ s) else none
      | none => none)) ++ ["    next"]

/-- `generate_policies`. -/
def generatePolicies (rules : List PolicyRule) (nameOverrides : Option (List String))
    (catalog : Option ObjectCatalog) : List String :=
  if rules = [] then []
  else
    emitBlock "config firewall policy"
      (rules.enum.flatMap (fun p => policyEntryLines catalog nameOverrides p.1 p.2))

/-! ## Name disambiguator (`build_unique_policy_names`) -/

/-- The truthy-`or` chain `a or b` on strings/absent values. -/
def orTruthy (a : Option String) (d : String) : String :=
  match a with
  | some s => if s = "" then d else s
  | none => d

/-- The candidate base name of a rule:
`str(raw.get('name') or raw.get('policyid') or 'policy').strip()`,
with a final `'policy'` fallback when the strip empties it. -/
def baseNameOf (r : PolicyRule) : String :=
  let b := pyStrip (orTruthy (dlookup r.raw "name") (orTruthy (dlookup r.raw "policyid") "policy"))
  if b = "" then "policy" else b

/-- `_truncate_for_suffix` (Python slicing, so a negative bound cuts
from the right). -/
def truncForSuffix (maxLen : Nat) (base suffix : String) : String :=
  if base.length + suffix.length ≤ maxLen then base
  else pySliceTo base ((maxLen : Int) - (suffix.length : Int))

/-- The candidate `_truncate_for_suffix(base, f"-{i}") + f"-{i}"`. -/
def candAt (maxLen : Nat) (base : String) (i : Nat) : String :=
  let suffix := "-" ++ natStr i
  truncForSuffix maxLen base suffix ++ suffix

/-- The `while True` suffix search.  The Python loop always terminates
within `used.length + 1` iterations (`suffixSearch_succeeds` below), so
the fuel never runs out and the default branch is unreachable. -/
def suffixGo (maxLen : Nat) (used : List String) (base : String) : Nat → Nat → String
  | 0, _ => ""
  | fuel + 1, i =>
    let cand := candAt maxLen base i
    if cand ∈ used then suffixGo maxLen used base fuel (i + 1) else cand

def findSuffixed (maxLen : Nat) (used : List String) (base : String) : String :=
  suffixGo maxLen used base (used.length + 1) 1

/-- The first-try candidate name: the base, truncated to `maxLen` when
too long. -/
def candidateOf (maxLen : Nat) (base : String) : String :=
  if base.length ≤ maxLen then base else pySliceTo base (maxLen : Int)

/-- The main loop of `build_unique_policy_names`, carrying the `used`
set. -/
def buildNamesGo (maxLen : Nat) : List PolicyRule → List String →
    List String × List (String × String)
  | [], _ => ([], [])
  | r :: rest, used =>
    let base := baseNameOf r
    let candidate := candidateOf maxLen base
    if candidate ∈ used then
      let cand := findSuffixed maxLen used base
      let (ov, rn) := buildNamesGo maxLen rest (cand :: used)
      (cand :: ov, if cand ≠ base then (base, cand) :: rn else rn)
    else
      let (ov, rn) := buildNamesGo maxLen rest (candidate :: used)
      (candidate :: ov, rn)

/-- `build_unique_policy_names`. -/
def buildUniquePolicyNames (rules : List PolicyRule) (maxLen : Nat) :
    List String × List (String × String) :=
  buildNamesGo maxLen rules []

/-! ## `generate_fgt_cli` -/

def bannerSection : String := "# Generated by Policy Merger\n# Version: 1.0.0\n"

/-- `generate_fgt_cli`. -/
def generateFgtCli (rules : List PolicyRule) (catalog : Option ObjectCatalog)
    (includeObjects : Bool) (nameOverrides : Option (List String)) : String :=
  let (overrides, renames) :=
    match nameOverrides with
    | some ov => (ov, [])
    | none => buildUniquePolicyNames rules 35
  let sections : List String := [bannerSection]
  let sections :=
    if renames ≠ [] then
      sections ++ ["# Renamed policies for uniqueness (max 35):"] ++
        ((renames.take 200).map (fun p => "# " ++ p.1 ++ " -> " ++ p.2)) ++ [""]
    else sections
  let sections :=
    if includeObjects then
      match catalog with
      | some cat =>
        let blocks := [generateAddresses cat.addresses, generateAddressGroups cat.addr_groups,
                       generateServices cat.services, generateServiceGroups cat.service_groups,
                       generateVips cat.vips, generateIppools cat.ippools]
        sections ++ (blocks.filterMap (fun b => if b ≠ [] then some (joinSep "\n" b ++ "\n") else none))
      | none => sections
    else sections
  let policyBlock := generatePolicies rules (some overrides) catalog
  let sections :=
    if policyBlock ≠ [] then sections ++ [joinSep "\n" policyBlock ++ "\n"] else sections
  joinSep "\n" sections

/-! ## Config parser (`fgt_config_parser.py`)

The two regular expressions `\bedit\s+"([^"]+)"` and
`\bset\s+(\S+)\s+(.+)$` are embedded as explicit leftmost-match
scanners.  The parser only ever applies them to single lines (the
output of `splitlines`), which contain no `'\n'`; on such strings the
scanners below compute exactly what `re.search` computes. -/

/-- Python regex `\w` (the ASCII part, which is all the configs use). -/
def isWordChar (c : Char) : Bool := c.isAlphanum || c = '_'

/-- `([^"]+)"`: a nonempty run of non-quote characters closed by a
quote; returns the capture. -/
def captureNonQuote (l : List Char) : Option (List Char) :=
  let cap := l.takeWhile (· ≠ '"')
  match l.dropWhile (· ≠ '"'), cap with
  | '"' :: _, _ :: _ => some cap
  | _, _ => none

/-- `\s+"([^"]+)"` after the literal `edit`. -/
def afterEditWs : List Char → Option (List Char)
  | [] => none
  | c :: rest =>
    if isSpaceChar c then afterEditWs rest
    else if c = '"' then captureNonQuote rest
    else none

/-- Try `edit\s+"([^"]+)"` exactly at the head of `l`. -/
def editAt : List Char → Option (List Char)
  | 'e' :: 'd' :: 'i' :: 't' :: c :: rest =>
    if isSpaceChar c then afterEditWs (c :: rest) else none
  | _ => none

/-- Leftmost search for `\bedit\s+"([^"]+)"`; the `Bool` records whether
a word boundary precedes the current position. -/
def editScan : List Char → Bool → Option (List Char)
  | [], _ => none
  | c :: rest, bOK =>
    match (if bOK then editAt (c :: rest) else none) with
    | some cap => some cap
    | none => editScan rest (!isWordChar c)

/-- `_re_edit.search(s)`, returning the captured name. -/
def reEditSearch (s : String) : Option String :=
  (editScan s.data true).map String.mk

/-- Try `set\s+(\S+)\s+(.+)$` just after the literal `set`: skip the
first whitespace run, take the maximal nonempty non-space run as the
key, then the greedy `\s+(.+)$` tail (when everything after the second
whitespace run is empty, the regex backtracks to leave exactly one
final character for `.+`). -/
def setAfter (rest : List Char) : Option (List Char × List Char) :=
  let ws1 := rest.takeWhile isSpaceChar
  let r1 := rest.dropWhile isSpaceChar
  if ws1 = [] then none
  else
    let key := r1.takeWhile (fun c => !isSpaceChar c)
    let r2 := r1.dropWhile (fun c => !isSpaceChar c)
    if key = [] then none
    else
      let ws2 := r2.takeWhile isSpaceChar
      let r3 := r2.dropWhile isSpaceChar
      if ws2 = [] then none
      else if r3 ≠ [] then some (key, r3)
      else if 2 ≤ ws2.length then some (key, [ws2.getLastD ' '])
      else none

/-- Try `set\s+(\S+)\s+(.+)$` exactly at the head of `l`. -/
def setAt : List Char → Option (List Char × List Char)
  | 's' :: 'e' :: 't' :: rest => setAfter rest
  | _ => none

/-- Leftmost search for `\bset\s+(\S+)\s+(.+)$`. -/
def setScan : List Char → Bool → Option (List Char × List Char)
  | [], _ => none
  | c :: rest, bOK =>
    match (if bOK then setAt (c :: rest) else none) with
    | some kv => some kv
    | none => setScan rest (!isWordChar c)

/-- `_re_set.search(s)`, returning `(key, val)`. -/
def reSetSearch (s : String) : Option (String × String) :=
  (setScan s.data true).map (fun kv => (String.mk kv.1, String.mk kv.2))

/-- The scanning loop of `_extract_blocks`. -/
def extractGo (header : String) :
    List String → Bool → List String → List (List String) → List (List String)
  | [], _, _, blocks => blocks
  | ln :: rest, inSection, sectionLines, blocks =>
    let s := pyStrip ln
    if s = header then extractGo header rest true [] blocks
    else if inSection ∧ s = "end" then extractGo header rest false [] (blocks ++ [sectionLines])
    else if inSection then extractGo header rest true (sectionLines ++ [ln]) blocks
    else extractGo header rest false sectionLines blocks

/-- `_extract_blocks`. -/
def extractBlocks (lines : List String) (header : String) : List (List String) :=
  extractGo header lines false [] []

/-- The scanning loop of `_parse_table`. -/
def parseTableGo : List String → Option String → Dict (Dict String) → Dict (Dict String)
  | [], _, result => result
  | raw :: rest, current, result =>
    let s := pyStrip raw
    match reEditSearch s with
    | some name => parseTableGo rest (some name) (dset result name [])
    | none =>
      let result2 :=
        match current, reSetSearch s with
        | some cur, some kv =>
          dset result cur (dset (dgetD result cur []) (pyStrip kv.1) (pyStrip kv.2))
        | _, _ => result
      let current2 := if s = "next" then none else current
      parseTableGo rest current2 result2

/-- `_parse_table`. -/
def parseTable (block : List String) : Dict (Dict String) :=
  parseTableGo block none []

/-- `_strip_quotes`. -/
def stripQuotesStr (v : String) : String :=
  let s := pyStrip v
  if s.data.head? = some '"' ∧ s.data.getLast? = some '"' ∧ 2 ≤ s.length then
    String.mk (s.data.drop 1).dropLast
  else s

def stripQuotes (val : Option String) : Option String := val.map stripQuotesStr

/-- The scanning state machine behind `re.findall(r'"([^"]+)"', s)`:
`none` means outside quotes; `some acc` means inside a candidate match
with the (reversed) captured characters so far.  An immediately closed
quote pair captures nothing and its second quote re-opens, exactly as
`re.findall` resumes scanning one character after a failed match. -/
def findQuotedAux : List Char → Option (List Char) → List (List Char)
  | [], _ => []
  | c :: rest, none =>
    if c = '"' then findQuotedAux rest (some []) else findQuotedAux rest none
  | c :: rest, some acc =>
    if c = '"' then
      (if acc = [] then findQuotedAux rest (some [])
       else acc.reverse :: findQuotedAux rest none)
    else findQuotedAux rest (some (c :: acc))

/-- `re.findall(r'"([^"]+)"', s)`: all nonempty quoted names, left to
right, non-overlapping. -/
def findQuoted (l : List Char) : List (List Char) := findQuotedAux l none

/-- `_split_members`. -/
def splitMembers (val : Option String) : List String :=
  match val with
  | none => []
  | some v =>
    if v = "" then []
    else (findQuoted (pyStrip v).data).map String.mk

/-- The address-section body of `parse_fgt_config_text`. -/
def parseAddressTable (cat : Dict Address) (tbl : Dict (Dict String)) : Dict Address :=
  tbl.foldl
    (fun c nk =>
      match pySplit (dgetD nk.2 "subnet" "") with
      | ip :: mask :: _ =>
        dset c nk.1
          { name := nk.1, subnet := (ip, mask), comment := stripQuotes (dlookup nk.2 "comment") }
      | _ => c)
    cat

/-- The addrgrp-section body. -/
def parseAddrGroupTable (cat : Dict AddressGroup) (tbl : Dict (Dict String)) :
    Dict AddressGroup :=
  tbl.foldl
    (fun c nk =>
      dset c nk.1
        { name := nk.1, members := splitMembers (dlookup nk.2 "member"),
          comment := stripQuotes (dlookup nk.2 "comment") })
    cat

/-- The service-section body. -/
def parseServiceTable (cat : Dict Service) (tbl : Dict (Dict String)) : Dict Service :=
  tbl.foldl
    (fun c nk =>
      dset c nk.1
        { name := nk.1,
          tcp_portrange := stripQuotes (dlookup nk.2 "tcp-portrange"),
          udp_portrange := stripQuotes (dlookup nk.2 "udp-portrange"),
          comment := stripQuotes (dlookup nk.2 "comment") })
    cat

/-- The service-group-section body. -/
def parseServiceGroupTable (cat : Dict ServiceGroup) (tbl : Dict (Dict String)) :
    Dict ServiceGroup :=
  tbl.foldl
    (fun c nk =>
      dset c nk.1
        { name := nk.1, members := splitMembers (dlookup nk.2 "member"),
          comment := stripQuotes (dlookup nk.2 "comment") })
    cat

/-- The vip-section body. -/
def parseVipTable (cat : Dict Vip) (tbl : Dict (Dict String)) : Dict Vip :=
  tbl.foldl
    (fun c nk =>
      dset c nk.1
        { name := nk.1,
          extip := stripQuotesStr (dgetD nk.2 "extip" ""),
          mappedip := stripQuotesStr (dgetD nk.2 "mappedip" ""),
          extintf := stripQuotes (dlookup nk.2 "extintf"),
          portforward := pyLower (pyStrip (dgetD nk.2 "portforward" "")) = "enable",
          extport := stripQuotes (dlookup nk.2 "extport"),
          mappedport := stripQuotes (dlookup nk.2 "mappedport"),
          comment := stripQuotes (dlookup nk.2 "comment") })
    cat

/-- The ippool-section body. -/
def parseIppoolTable (cat : Dict IpPool) (tbl : Dict (Dict String)) : Dict IpPool :=
  tbl.foldl
    (fun c nk =>
      let poolType :=
        match stripQuotes (dlookup nk.2 "type") with
        | some t => if t = "" then none else some t
        | none => none
      dset c nk.1
        { name := nk.1,
          startip := stripQuotesStr (dgetD nk.2 "startip" ""),
          endip := stripQuotesStr (dgetD nk.2 "endip" ""),
          pool_type := poolType,
          comment := stripQuotes (dlookup nk.2 "comment") })
    cat

/-- `parse_fgt_config_text`, starting from a fresh catalog. -/
def parseFgtConfigText (text : String) : ObjectCatalog :=
  let lines := pySplitlines text
  { addresses :=
      (extractBlocks lines "config firewall address").foldl
        (fun c block => parseAddressTable c (parseTable block)) [],
    addr_groups :=
      (extractBlocks lines "config firewall addrgrp").foldl
        (fun c block => parseAddrGroupTable c (parseTable block)) [],
    services :=
      (extractBlocks lines "config firewall service custom").foldl
        (fun c block => parseServiceTable c (parseTable block)) [],
    service_groups :=
      (extractBlocks lines "config firewall service group").foldl
        (fun c block => parseServiceGroupTable c (parseTable block)) [],
    vips :=
      (extractBlocks lines "config firewall vip").foldl
        (fun c block => parseVipTable c (parseTable block)) [],
    ippools :=
      (extractBlocks lines "config firewall ippool").foldl
        (fun c block => parseIppoolTable c (parseTable block)) [] }

/-- Python `==` on whole catalogs (field-wise dict equality). -/
def catalogEqB (c₁ c₂ : ObjectCatalog) : Bool :=
  dictEqB c₁.addresses c₂.addresses && dictEqB c₁.addr_groups c₂.addr_groups &&
  dictEqB c₁.services c₂.services && dictEqB c₁.service_groups c₂.service_groups &&
  dictEqB c₁.vips c₂.vips && dictEqB c₁.ippools c₂.ippools

/-! ## Lemmas: `dedupFirst` -/

/-- The `seen` set accumulated by one pass of `dedupFirst.go`. -/
def pushSeen {α : Type} [DecidableEq α] (seen : List α) (l : List α) : List α :=
  l.foldl (fun s x => if x ∈ s then s else x :: s) seen

@[simp] theorem pushSeen_nil {α : Type} [DecidableEq α] (seen : List α) :
    pushSeen seen [] = seen := rfl

theorem pushSeen_cons {α : Type} [DecidableEq α] (seen : List α) (x : α) (l : List α) :
    pushSeen seen (x :: l) = pushSeen (if x ∈ seen then seen else x :: seen) l := rfl

theorem mem_pushSeen {α : Type} [DecidableEq α] {y : α} (seen l : List α) :
    y ∈ pushSeen seen l ↔ y ∈ seen ∨ y ∈ l := by
  induction l generalizing seen with
  | nil => simp
  | cons x t ih =>
    rw [pushSeen_cons]
    by_cases hx : x ∈ seen
    · simp only [hx, if_true, ih]
      constructor
      · rintro (h | h)
        · exact Or.inl h
        · exact Or.inr (List.mem_cons_of_mem _ h)
      · rintro (h | h)
        · exact Or.inl h
        · rcases List.mem_cons.mp h with rfl | h
          · exact Or.inl hx
          · exact Or.inr h
    · simp only [hx, if_false, ih, List.mem_cons]
      tauto

theorem mem_dedupFirst_go {α : Type} [DecidableEq α] {y : α} (seen l : List α) :
    y ∈ dedupFirst.go seen l ↔ y ∈ l ∧ y ∉ seen := by
  induction l generalizing seen with
  | nil => simp [dedupFirst.go]
  | cons x t ih =>
    by_cases hx : x ∈ seen
    · simp only [dedupFirst.go, hx, if_true, ih, List.mem_cons]
      constructor
      · rintro ⟨h, hs⟩
        exact ⟨Or.inr h, hs⟩
      · rintro ⟨h | h, hs⟩
        · subst h
          exact absurd hx hs
        · exact ⟨h, hs⟩
    · have hgo : dedupFirst.go seen (x :: t) = x :: dedupFirst.go (x :: seen) t := by
        simp [dedupFirst.go, hx]
      rw [hgo]
      constructor
      · intro hmem
        rcases List.mem_cons.mp hmem with rfl | hmem
        · exact ⟨List.mem_cons_self _ _, hx⟩
        · obtain ⟨h, hs⟩ := (ih _).mp hmem
          exact ⟨List.mem_cons_of_mem _ h, fun hy => hs (List.mem_cons_of_mem _ hy)⟩
      · rintro ⟨hmem, hs⟩
        rcases List.mem_cons.mp hmem with rfl | hmem
        · exact List.mem_cons_self _ _
        · by_cases hyx : y = x
          · exact hyx ▸ List.mem_cons_self _ _
          · refine List.mem_cons_of_mem _ ((ih _).mpr ⟨hmem, fun hy => ?_⟩)
            rcases List.mem_cons.mp hy with h1 | h1
            · exact hyx h1
            · exact hs h1

@[simp] theorem mem_dedupFirst {α : Type} [DecidableEq α] {y : α} (l : List α) :
    y ∈ dedupFirst l ↔ y ∈ l := by
  rw [dedupFirst, mem_dedupFirst_go]
  simp

theorem nodup_dedupFirst_go {α : Type} [DecidableEq α] (seen l : List α) :
    (dedupFirst.go seen l).Nodup := by
  induction l generalizing seen with
  | nil => simp [dedupFirst.go]
  | cons x t ih =>
    by_cases hx : x ∈ seen
    · simpa [dedupFirst.go, hx] using ih seen
    · simp only [dedupFirst.go, hx, if_false]
      refine List.Nodup.cons (fun hmem => ?_) (ih _)
      exact ((mem_dedupFirst_go _ _).mp hmem).2 (List.mem_cons_self _ _)

theorem nodup_dedupFirst {α : Type} [DecidableEq α] (l : List α) :
    (dedupFirst l).Nodup := nodup_dedupFirst_go [] l

theorem dedupFirst_go_eq_nil {α : Type} [DecidableEq α] (seen l : List α)
    (h : ∀ x ∈ l, x ∈ seen) : dedupFirst.go seen l = [] := by
  induction l generalizing seen with
  | nil => simp [dedupFirst.go]
  | cons x t ih =>
    have hx : x ∈ seen := h x (List.mem_cons_self _ _)
    simp only [dedupFirst.go, hx, if_true]
    exact ih seen (fun y hy => h y (List.mem_cons_of_mem _ hy))

theorem dedupFirst_go_of_nodup {α : Type} [DecidableEq α] (seen l : List α)
    (hn : l.Nodup) (h : ∀ x ∈ l, x ∉ seen) : dedupFirst.go seen l = l := by
  induction l generalizing seen with
  | nil => simp [dedupFirst.go]
  | cons x t ih =>
    have hx : x ∉ seen := h x (List.mem_cons_self _ _)
    simp only [dedupFirst.go, hx, if_false, List.cons.injEq, true_and]
    refine ih _ (List.Nodup.of_cons hn) (fun y hy hmem => ?_)
    rcases List.mem_cons.mp hmem with rfl | hmem
    · exact (List.nodup_cons.mp hn).1 hy
    · exact h y (List.mem_cons_of_mem _ hy) hmem

theorem dedupFirst_go_append {α : Type} [DecidableEq α] (seen l₁ l₂ : List α) :
    dedupFirst.go seen (l₁ ++ l₂) = dedupFirst.go seen l₁ ++ dedupFirst.go (pushSeen seen l₁) l₂ := by
  induction l₁ generalizing seen with
  | nil => simp [dedupFirst.go]
  | cons x t ih =>
    by_cases hx : x ∈ seen <;>
      simp [dedupFirst.go, hx, ih, pushSeen_cons]

theorem dedupFirst_of_nodup {α : Type} [DecidableEq α] (l : List α) (hn : l.Nodup) :
    dedupFirst l = l :=
  dedupFirst_go_of_nodup [] l hn (by simp)

theorem dedupFirst_append_self {α : Type} [DecidableEq α] (l : List α) (hn : l.Nodup) :
    dedupFirst (l ++ l) = l := by
  rw [dedupFirst, dedupFirst_go_append]
  rw [show dedupFirst.go [] l = dedupFirst l from rfl, dedupFirst_of_nodup l hn]
  rw [dedupFirst_go_eq_nil _ _ (fun x hx => (mem_pushSeen _ _).mpr (Or.inr hx))]
  simp

/-! ## Lemmas: whitespace tokenisation -/

/-- A "clean" token: nonempty and free of whitespace characters, as
produced by `str.split()`. -/
def CleanTok (t : List Char) : Prop := t ≠ [] ∧ ∀ c ∈ t, isSpaceChar c = false

theorem wsTokensAux_push (t : List Char) (ht : ∀ c ∈ t, isSpaceChar c = false) :
    ∀ rest acc, wsTokensAux (t ++ rest) acc = wsTokensAux rest (t.reverse ++ acc) := by
  induction t with
  | nil => intro rest acc; simp
  | cons c t ih =>
    intro rest acc
    have hc : isSpaceChar c = false := ht c (List.mem_cons_self _ _)
    have hstep : wsTokensAux (c :: (t ++ rest)) acc = wsTokensAux (t ++ rest) (c :: acc) := by
      simp [wsTokensAux, hc]
    rw [List.cons_append, hstep, ih (fun d hd => ht d (List.mem_cons_of_mem _ hd)) rest (c :: acc)]
    simp

theorem wsTokensAux_space (c : Char) (hc : isSpaceChar c = true) (rest acc : List Char) :
    wsTokensAux (c :: rest) acc =
      (if acc = [] then wsTokensAux rest [] else acc.reverse :: wsTokensAux rest []) := by
  simp [wsTokensAux, hc]

theorem joinSep_cons_cons (s a b : String) (r : List String) :
    joinSep s (a :: b :: r) = a ++ s ++ joinSep s (b :: r) := rfl

theorem data_joinSep_space_cons_cons (a b : String) (r : List String) :
    (joinSep " " (a :: b :: r)).data = a.data ++ ' ' :: (joinSep " " (b :: r)).data := by
  rw [joinSep_cons_cons]
  simp [String.data_append]

/-- `" ".join` / `split()` round-trip on clean tokens, stated on the
character level against the `joinSep` shape. -/
theorem wsTokens_join (ts : List (List Char)) (h : ∀ t ∈ ts, CleanTok t) :
    wsTokens ((joinSep " " (ts.map String.mk)).data) = ts := by
  induction ts with
  | nil => simp [joinSep, wsTokens, wsTokensAux]
  | cons t rest ih =>
    have hclean := h t (List.mem_cons_self _ _)
    cases rest with
    | nil =>
      simp only [List.map_cons, List.map_nil, joinSep, wsTokens]
      have hpush := wsTokensAux_push t hclean.2 [] []
      simp only [List.append_nil] at hpush
      rw [hpush]
      simp [wsTokensAux, hclean.1]
    | cons t2 rest2 =>
      have ih2 := ih (fun u hu => h u (List.mem_cons_of_mem _ hu))
      simp only [List.map_cons] at ih2 ⊢
      rw [wsTokens, data_joinSep_space_cons_cons]
      rw [wsTokensAux_push t hclean.2, wsTokensAux_space ' ' (by decide)]
      rw [List.append_nil, if_neg (by simpa using hclean.1), List.reverse_reverse]
      rw [wsTokens] at ih2
      rw [ih2]

theorem strMk_data (s : String) : String.mk s.data = s := by
  cases s
  rfl

theorem wsTokensAux_all_space (sfx : List Char) (h : ∀ c ∈ sfx, isSpaceChar c = true) :
    ∀ acc, wsTokensAux sfx acc = if acc = [] then [] else [acc.reverse] := by
  induction sfx with
  | nil => intro acc; rfl
  | cons c t ih =>
    intro acc
    have hc := h c (List.mem_cons_self _ _)
    have iht := ih (fun d hd => h d (List.mem_cons_of_mem _ hd))
    by_cases hacc : acc = []
    · simp [wsTokensAux, hc, hacc, iht]
    · simp [wsTokensAux, hc, hacc, iht]

theorem wsTokensAux_append_space (m sfx : List Char) (h : ∀ c ∈ sfx, isSpaceChar c = true) :
    ∀ acc, wsTokensAux (m ++ sfx) acc = wsTokensAux m acc := by
  induction m with
  | nil =>
    intro acc
    rw [List.nil_append, wsTokensAux_all_space sfx h acc]
    rfl
  | cons c t ih =>
    intro acc
    by_cases hc : isSpaceChar c
    · by_cases hacc : acc = [] <;> simp [wsTokensAux, hc, hacc, ih]
    · simp [wsTokensAux, hc, ih]

theorem wsTokensAux_dropWhile_space (l : List Char) :
    wsTokensAux (l.dropWhile isSpaceChar) [] = wsTokensAux l [] := by
  induction l with
  | nil => rfl
  | cons c t ih =>
    by_cases hc : isSpaceChar c
    · simp [List.dropWhile_cons, hc, wsTokensAux, ih]
    · simp [List.dropWhile_cons, hc]

theorem wsTokens_stripChars (l : List Char) : wsTokens (stripChars l) = wsTokens l := by
  rw [wsTokens, wsTokens, stripChars]
  have hdecomp : (l.dropWhile isSpaceChar) =
      ((l.dropWhile isSpaceChar).reverse.dropWhile isSpaceChar).reverse ++
        ((l.dropWhile isSpaceChar).reverse.takeWhile isSpaceChar).reverse := by
    have := List.takeWhile_append_dropWhile (p := isSpaceChar)
      (l := (l.dropWhile isSpaceChar).reverse)
    calc l.dropWhile isSpaceChar
        = (l.dropWhile isSpaceChar).reverse.reverse := by rw [List.reverse_reverse]
      _ = ((l.dropWhile isSpaceChar).reverse.takeWhile isSpaceChar ++
            (l.dropWhile isSpaceChar).reverse.dropWhile isSpaceChar).reverse := by rw [this]
      _ = _ := by rw [List.reverse_append]
  have hsp : ∀ c ∈ ((l.dropWhile isSpaceChar).reverse.takeWhile isSpaceChar).reverse,
      isSpaceChar c = true := by
    intro c hc
    rw [List.mem_reverse] at hc
    exact List.mem_takeWhile_imp hc
  calc wsTokensAux ((l.dropWhile isSpaceChar).reverse.dropWhile isSpaceChar).reverse []
      = wsTokensAux (((l.dropWhile isSpaceChar).reverse.dropWhile isSpaceChar).reverse ++
          ((l.dropWhile isSpaceChar).reverse.takeWhile isSpaceChar).reverse) [] := by
        rw [wsTokensAux_append_space _ _ hsp]
    _ = wsTokensAux (l.dropWhile isSpaceChar) [] := by rw [← hdecomp]
    _ = wsTokensAux l [] := wsTokensAux_dropWhile_space l

/-- Stripping never changes `str.split()`. -/
theorem pySplit_pyStrip (s : String) : pySplit (pyStrip s) = pySplit s := by
  rw [pySplit, pySplit, pyStrip]
  rw [show (String.mk (stripChars s.data)).data = stripChars s.data from rfl]
  rw [wsTokens_stripChars]

theorem wsTokensAux_clean (l : List Char) :
    ∀ acc, (∀ c ∈ acc, isSpaceChar c = false) → ∀ t ∈ wsTokensAux l acc, CleanTok t := by
  induction l with
  | nil =>
    intro acc hacc t ht
    by_cases h : acc = []
    · simp [wsTokensAux, h] at ht
    · simp only [wsTokensAux, h, if_false, List.mem_singleton] at ht
      subst ht
      exact ⟨by simpa using h, fun c hc => hacc c (List.mem_reverse.mp hc)⟩
  | cons c rest ih =>
    intro acc hacc t ht
    by_cases hc : isSpaceChar c
    · rw [wsTokensAux_space c hc] at ht
      by_cases h : acc = []
      · rw [if_pos h] at ht
        exact ih [] (by simp) t ht
      · rw [if_neg h] at ht
        rcases List.mem_cons.mp ht with rfl | ht
        · exact ⟨by simpa using h, fun d hd => hacc d (List.mem_reverse.mp hd)⟩
        · exact ih [] (by simp) t ht
    · have hstep : wsTokensAux (c :: rest) acc = wsTokensAux rest (c :: acc) := by
        simp [wsTokensAux, hc]
      rw [hstep] at ht
      refine ih (c :: acc) ?_ t ht
      intro d hd
      rcases List.mem_cons.mp hd with rfl | hd
      · simpa using hc
      · exact hacc d hd

/-- Every token of `str.split()` is nonempty and whitespace-free. -/
theorem pySplit_clean (s : String) : ∀ t ∈ pySplit s, CleanTok t.data := by
  intro t ht
  rw [pySplit] at ht
  obtain ⟨u, hu, rfl⟩ := List.mem_map.mp ht
  exact wsTokensAux_clean s.data [] (by simp) u hu

theorem splitOnChar_of_not_mem (sep : Char) (t : List Char) (h : sep ∉ t) :
    splitOnChar sep t = [t] := by
  induction t with
  | nil => rfl
  | cons c rest ih =>
    have hc : ¬c = sep := fun hcs => h (hcs ▸ List.mem_cons_self _ _)
    have := ih (fun hmem => h (List.mem_cons_of_mem _ hmem))
    simp [splitOnChar, hc, this]

theorem splitOnChar_append_sep (sep : Char) (t rest : List Char) (h : sep ∉ t) :
    splitOnChar sep (t ++ sep :: rest) = t :: splitOnChar sep rest := by
  induction t with
  | nil => simp [splitOnChar]
  | cons c tr ih =>
    have hc : ¬c = sep := fun hcs => h (hcs ▸ List.mem_cons_self _ _)
    have htr := ih (fun hmem => h (List.mem_cons_of_mem _ hmem))
    simp only [List.cons_append, splitOnChar, hc, if_false, List.append_eq]
    rw [htr]

/-- `split(" ")` undoes `" ".join` on clean tokens. -/
theorem splitOnChar_join (ts : List (List Char)) (h : ∀ t ∈ ts, CleanTok t) :
    (ts ≠ []) → splitOnChar ' ' ((joinSep " " (ts.map String.mk)).data) = ts := by
  induction ts with
  | nil => intro hne; exact absurd rfl hne
  | cons t rest ih =>
    intro _
    have hclean := h t (List.mem_cons_self _ _)
    have hnospace : ' ' ∉ t := fun hmem => by
      have := hclean.2 ' ' hmem
      simp [isSpaceChar] at this
    cases rest with
    | nil =>
      simp only [List.map_cons, List.map_nil, joinSep]
      exact splitOnChar_of_not_mem ' ' t hnospace
    | cons t2 rest2 =>
      simp only [List.map_cons]
      rw [data_joinSep_space_cons_cons]
      rw [splitOnChar_append_sep ' ' _ _ hnospace]
      have ih2 := ih (fun u hu => h u (List.mem_cons_of_mem _ hu)) (by simp)
      simp only [List.map_cons] at ih2
      rw [ih2]

/-- `_tokenize_multi_value` coincides with plain `str.split()`. -/
theorem tokenizeMultiValue_eq_pySplit (s : String) : tokenizeMultiValue s = pySplit s := by
  rw [tokenizeMultiValue, normalizeSpace, pySplit_pyStrip, pySplit]
  by_cases hnil : wsTokens s.data = []
  · rw [hnil]
    simp [joinSep]
  · have hclean : ∀ t ∈ wsTokens s.data, CleanTok t :=
      wsTokensAux_clean s.data [] (by simp)
    have hjoin : joinSep " " ((wsTokens s.data).map String.mk) ≠ "" := by
      intro hempty
      have hsplit := splitOnChar_join (wsTokens s.data) hclean hnil
      rw [hempty] at hsplit
      have h2 : splitOnChar ' ' ("" : String).data = [[]] := rfl
      rw [h2] at hsplit
      cases hw : wsTokens s.data with
      | nil => exact hnil hw
      | cons t0 rest0 =>
        rw [hw] at hsplit
        injection hsplit with h4 h5
        exact (hclean t0 (hw ▸ List.mem_cons_self _ _)).1 h4.symm
    rw [if_neg hjoin, splitOnChar_join (wsTokens s.data) hclean hnil]

theorem dlookup_dset_self {α : Type} (d : Dict α) (k : String) (v : α) :
    dlookup (dset d k v) k = some v := by
  induction d with
  | nil => simp [dset, dlookup]
  | cons kv t ih =>
    by_cases hk : kv.1 = k
    · simp [dset, hk, dlookup]
    · cases kv
      simp_all [dset, hk, dlookup, ih]

theorem dgetD_dset_self {α : Type} (d : Dict α) (k : String) (v : α) (dft : α) :
    dgetD (dset d k v) k dft = v := by
  rw [dgetD, dlookup_dset_self]
  rfl

theorem map_mk_map_data (us : List String) : (us.map String.data).map String.mk = us := by
  rw [List.map_map]
  have : ∀ u ∈ us, (String.mk ∘ String.data) u = id u := fun u _ => strMk_data u
  rw [List.map_congr_left this, List.map_id]

/-- `_tokenize_multi_value` undoes `" ".join` on clean tokens. -/
theorem tokenizeMultiValue_join (us : List String) (h : ∀ u ∈ us, CleanTok u.data) :
    tokenizeMultiValue (joinSep " " us) = us := by
  rw [tokenizeMultiValue_eq_pySplit, pySplit]
  have hts : ∀ t ∈ us.map String.data, CleanTok t := by
    intro t ht
    obtain ⟨u, hu, rfl⟩ := List.mem_map.mp ht
    exact h u hu
  have hjoin := wsTokens_join (us.map String.data) hts
  rw [map_mk_map_data] at hjoin
  rw [hjoin, map_mk_map_data]

theorem mergerTokenize_clean (s : String) : ∀ t ∈ mergerTokenize s, CleanTok t.data := by
  rw [mergerTokenize, tokenizeMultiValue_eq_pySplit]
  exact pySplit_clean s

/-- **C7.** The token-union merge of `merge_fields` is commutative at
the token-set level: merging field `f` of `a` with `b` and of `b` with
`a` yields values whose whitespace token sets coincide. -/
theorem C7_merge_fields_set_commutative (a b : PolicyRule) (f : String) :
    (tokenizeMultiValue (dgetD (mergeFields a b [f]) f "")).toFinset =
      (tokenizeMultiValue (dgetD (mergeFields b a [f]) f "")).toFinset := by
  have hone : ∀ x y : PolicyRule, mergeFields x y [f] =
      dset x.raw f (joinTokens (mergerTokenize (dgetD x.raw f ""))
        (mergerTokenize (dgetD y.raw f ""))) := fun x y => rfl
  rw [hone, hone, dgetD_dset_self, dgetD_dset_self]
  have hclean : ∀ x y : PolicyRule, ∀ u ∈ dedupFirst
      (mergerTokenize (dgetD x.raw f "") ++ mergerTokenize (dgetD y.raw f "")),
      CleanTok u.data := by
    intro x y u hu
    rw [mem_dedupFirst] at hu
    rcases List.mem_append.mp hu with hu | hu
    · exact mergerTokenize_clean _ u hu
    · exact mergerTokenize_clean _ u hu
  rw [joinTokens, joinTokens, tokenizeMultiValue_join _ (hclean a b),
    tokenizeMultiValue_join _ (hclean b a)]
  ext x
  simp only [List.mem_toFinset, mem_dedupFirst, List.mem_append]
  exact ⟨Or.symm, Or.symm⟩

theorem dedupFirst_ne_nil {α : Type} [DecidableEq α] (x : α) (t : List α) :
    dedupFirst (x :: t) ≠ [] := by
  simp [dedupFirst, dedupFirst.go]

/-- **C8.** `jaccard_similarity` is `1.0` on two empty token sequences
and on any pair of equal nonempty token sequences. -/
theorem C8_jaccard_identity :
    jaccardSimilarity [] [] = 1 ∧ ∀ A : List String, A ≠ [] → jaccardSimilarity A A = 1 := by
  constructor
  · rfl
  · intro A hA
    obtain ⟨x, t, rfl⟩ : ∃ x t, A = x :: t := by
      cases A with
      | nil => exact absurd rfl hA
      | cons x t => exact ⟨x, t, rfl⟩
    have hne : dedupFirst (x :: t) ≠ [] := dedupFirst_ne_nil x t
    simp only [jaccardSimilarity]
    rw [if_neg (fun hand => hne hand.1)]
    have hfilter : (dedupFirst (x :: t)).filter (· ∈ dedupFirst (x :: t)) =
        dedupFirst (x :: t) :=
      List.filter_eq_self.mpr (fun y hy => by simpa using hy)
    rw [hfilter, dedupFirst_append_self _ (nodup_dedupFirst _)]
    have hlen : (dedupFirst (x :: t)).length ≠ 0 := by
      simpa [List.length_eq_zero] using hne
    rw [if_pos hlen]
    exact div_self (by exact_mod_cast hlen)

/-- **C8 witness.** -/
theorem C8_jaccard_identity_witness : jaccardSimilarity ["a"] ["a"] = 1 :=
  C8_jaccard_identity.2 ["a"] (by decide)

/-- **C9.** The colon-pairing tokenizer on the documented dstaddr value. -/
theorem C9_colon_pairing :
    splitValues (some "VLAN201: Office VLAN201: WIFI VLAN10: SRV") =
      ["VLAN201: Office", "VLAN201: WIFI", "VLAN10: SRV"] := by decide

/-! ## Lemmas: `deduplicate_identical_rules` -/

theorem dedupGo_spec (l : List PolicyRule) : ∀ (seen : List (List String)),
    ((deduplicateIdenticalRules.go seen l).1.map identitySignature).Nodup ∧
    ∀ s ∈ (deduplicateIdenticalRules.go seen l).1.map identitySignature, s ∉ seen := by
  induction l with
  | nil => intro seen; simp [deduplicateIdenticalRules.go]
  | cons r rest ih =>
    intro seen
    by_cases hsig : identitySignature r ∈ seen
    · rcases hgo : deduplicateIdenticalRules.go seen rest with ⟨u, n⟩
      have hspec := ih seen
      rw [hgo] at hspec
      simp only [deduplicateIdenticalRules.go, hsig, if_true, hgo]
      exact hspec
    · rcases hgo : deduplicateIdenticalRules.go (identitySignature r :: seen) rest with ⟨u, n⟩
      have hspec := ih (identitySignature r :: seen)
      rw [hgo] at hspec
      simp only [deduplicateIdenticalRules.go, hsig, if_false, hgo]
      constructor
      · simp only [List.map_cons, List.nodup_cons]
        exact ⟨fun hmem => hspec.2 _ hmem (List.mem_cons_self _ _), hspec.1⟩
      · intro s hs
        simp only [List.map_cons, List.mem_cons] at hs
        rcases hs with rfl | hs
        · exact hsig
        · exact fun hmem => hspec.2 s hs (List.mem_cons_of_mem _ hmem)

theorem dedupGo_fixed (l : List PolicyRule) : ∀ (seen : List (List String)),
    (l.map identitySignature).Nodup → (∀ r ∈ l, identitySignature r ∉ seen) →
    deduplicateIdenticalRules.go seen l = (l, 0) := by
  induction l with
  | nil => intro seen _ _; rfl
  | cons r rest ih =>
    intro seen hnodup hseen
    have hsig : identitySignature r ∉ seen := hseen r (List.mem_cons_self _ _)
    have hrec : deduplicateIdenticalRules.go (identitySignature r :: seen) rest = (rest, 0) := by
      refine ih _ (by simpa using hnodup.of_cons) (fun x hx => ?_)
      intro hmem
      rcases List.mem_cons.mp hmem with heq | hmem
      · rw [List.map_cons, List.nodup_cons] at hnodup
        exact hnodup.1 (heq ▸ List.mem_map_of_mem identitySignature hx)
      · exact hseen x (List.mem_cons_of_mem _ hx) hmem
    simp only [deduplicateIdenticalRules.go, hsig, if_false, hrec]

/-- **C6.** `deduplicate_identical_rules` is idempotent: re-running it
on its own survivor list removes nothing. -/
theorem C6_dedup_idempotent (rules : List PolicyRule) :
    deduplicateIdenticalRules (deduplicateIdenticalRules rules).1 =
      ((deduplicateIdenticalRules rules).1, 0) := by
  have hspec := dedupGo_spec rules []
  exact dedupGo_fixed _ [] hspec.1 (fun r hr => by simp)

/-! ## Lemmas: `find_similar_rules` (C1) -/

theorem nodup_subset_length {α : Type} [DecidableEq α] (l₁ l₂ : List α)
    (h₁ : l₁.Nodup) (h₂ : ∀ x ∈ l₁, x ∈ l₂) : l₁.length ≤ l₂.length := by
  calc l₁.length = l₁.toFinset.card := (List.toFinset_card_of_nodup h₁).symm
    _ ≤ l₂.toFinset.card := Finset.card_le_card (fun x hx =>
        List.mem_toFinset.mpr (h₂ x (List.mem_toFinset.mp hx)))
    _ ≤ l₂.length := l₂.toFinset_card_le

theorem jaccardSimilarity_le_one (a b : List String) : jaccardSimilarity a b ≤ 1 := by
  simp only [jaccardSimilarity]
  split
  · exact le_refl 1
  · split
    · rename_i hunion
      rw [div_le_one (by positivity)]
      have hsub : ((dedupFirst a).filter (· ∈ dedupFirst b)).length ≤
          (dedupFirst (dedupFirst a ++ dedupFirst b)).length := by
        refine nodup_subset_length _ _ (List.Nodup.filter _ (nodup_dedupFirst a)) ?_
        intro x hx
        rw [mem_dedupFirst, List.mem_append]
        exact Or.inl (List.mem_of_mem_filter hx)
      exact_mod_cast hsub
    · exact zero_le_one

theorem jaccardSimilarity_nonneg (a b : List String) : 0 ≤ jaccardSimilarity a b := by
  simp only [jaccardSimilarity]
  split
  · exact zero_le_one
  · split
    · positivity
    · exact le_refl 0

theorem pairSuggestion_score_le_one (k : List (String × String)) (cf : List String)
    (a b : PolicyRule) : (pairSuggestion k cf a b).similarity_score ≤ 1 := by
  rw [pairSuggestion]
  split
  · exact le_refl 1
  · simp only
    split
    · rename_i hne
      rw [div_le_one (by exact_mod_cast Nat.pos_of_ne_zero (by simpa using hne))]
      have hbound : ∀ q ∈ (compareRules a b cf).map
          (fun kv => jaccardSimilarity (tokenizeMultiValue kv.2.1) (tokenizeMultiValue kv.2.2)),
          q ≤ 1 := by
        intro q hq
        obtain ⟨kv, _, rfl⟩ := List.mem_map.mp hq
        exact jaccardSimilarity_le_one _ _
      calc (List.map _ (compareRules a b cf)).sum
          ≤ (List.map (fun kv => jaccardSimilarity (tokenizeMultiValue kv.2.1)
              (tokenizeMultiValue kv.2.2)) (compareRules a b cf)).length • (1 : ℚ) :=
            List.sum_le_card_nsmul _ 1 hbound
        _ = _ := by rw [nsmul_eq_mul, mul_one]
    · exact zero_le_one

theorem mem_foldl_similarStep (cf : List String) (groups : List (List (String × String) × List PolicyRule))
    (acc : List SimilaritySuggestion) (x : SimilaritySuggestion) :
    x ∈ groups.foldl (similarStep cf) acc ↔
      x ∈ acc ∨ ∃ g ∈ groups, ¬g.2.length < 2 ∧
        ∃ p ∈ bucketPairs g.2, x = pairSuggestion g.1 cf p.1 p.2 := by
  induction groups generalizing acc with
  | nil => simp
  | cons g rest ih =>
    rw [List.foldl_cons, ih]
    by_cases hlen : g.2.length < 2
    · simp only [similarStep, hlen, if_true]
      constructor
      · rintro (h | ⟨g', hg', hp⟩)
        · exact Or.inl h
        · exact Or.inr ⟨g', List.mem_cons_of_mem _ hg', hp⟩
      · rintro (h | ⟨g', hg', hlen', hp⟩)
        · exact Or.inl h
        · rcases List.mem_cons.mp hg' with rfl | hg'
          · exact absurd hlen hlen'
          · exact Or.inr ⟨g', hg', hlen', hp⟩
    · simp only [similarStep, hlen, if_false, List.mem_append, List.mem_map]
      constructor
      · rintro ((h | ⟨p, hp, rfl⟩) | ⟨g', hg', hp⟩)
        · exact Or.inl h
        · exact Or.inr ⟨g, List.mem_cons_self _ _, hlen, p, hp, rfl⟩
        · exact Or.inr ⟨g', List.mem_cons_of_mem _ hg', hp⟩
      · rintro (h | ⟨g', hg', hlen', p, hp, rfl⟩)
        · exact Or.inl (Or.inl h)
        · rcases List.mem_cons.mp hg' with rfl | hg'
          · exact Or.inl (Or.inr ⟨p, hp, rfl⟩)
          · exact Or.inr ⟨g', hg', hlen', p, hp, rfl⟩

theorem findSimilarRules_score_le_one (rules : List PolicyRule) (cf : List String)
    (ms : ℚ) (s : SimilaritySuggestion) (hs : s ∈ findSimilarRules rules cf ms) :
    s.similarity_score ≤ 1 := by
  rw [findSimilarRules, mem_foldl_similarStep] at hs
  rcases hs with h | ⟨g, _, _, p, _, rfl⟩
  · simp at h
  · exact pairSuggestion_score_le_one _ _ _ _

/-- **C1 (amended).** `find_similar_rules` ignores its `min_similarity`
argument: its output is the same for every floor, and every unordered
pair of every stable-key bucket with at least two members contributes
its suggestion to the output, whatever the pair's average Jaccard
score. -/
theorem C1_no_similarity_floor (rules : List PolicyRule) (cf : List String) (s₁ s₂ : ℚ) :
    findSimilarRules rules cf s₁ = findSimilarRules rules cf s₂ ∧
    ∀ g ∈ groupByStableKey rules (cf ++ ["name", "policyid"]), 2 ≤ g.2.length →
      ∀ p ∈ bucketPairs g.2, pairSuggestion g.1 cf p.1 p.2 ∈ findSimilarRules rules cf s₁ := by
  refine ⟨rfl, fun g hg hlen p hp => ?_⟩
  rw [findSimilarRules, mem_foldl_similarStep]
  exact Or.inr ⟨g, hg, by omega, p, hp, rfl⟩

/-- **C1 witness.** -/
theorem C1_no_similarity_floor_witness :
    (([], [(⟨[("name", "a"), ("srcaddr", "X")], "F1"⟩ : PolicyRule),
          ⟨[("name", "b"), ("srcaddr", "Y")], "F2"⟩]) ∈
        groupByStableKey [⟨[("name", "a"), ("srcaddr", "X")], "F1"⟩,
          ⟨[("name", "b"), ("srcaddr", "Y")], "F2"⟩]
          (["srcaddr", "dstaddr", "service"] ++ ["name", "policyid"])) ∧
    ((⟨[("name", "a"), ("srcaddr", "X")], "F1"⟩, (⟨[("name", "b"), ("srcaddr", "Y")], "F2"⟩ : PolicyRule)) ∈
        bucketPairs [⟨[("name", "a"), ("srcaddr", "X")], "F1"⟩,
          ⟨[("name", "b"), ("srcaddr", "Y")], "F2"⟩]) ∧
    pairSuggestion [] ["srcaddr", "dstaddr", "service"]
        ⟨[("name", "a"), ("srcaddr", "X")], "F1"⟩ ⟨[("name", "b"), ("srcaddr", "Y")], "F2"⟩ ∈
      findSimilarRules [⟨[("name", "a"), ("srcaddr", "X")], "F1"⟩,
        ⟨[("name", "b"), ("srcaddr", "Y")], "F2"⟩] ["srcaddr", "dstaddr", "service"] (1/5) :=
  ⟨by decide, by decide,
    (C1_no_similarity_floor [⟨[("name", "a"), ("srcaddr", "X")], "F1"⟩,
        ⟨[("name", "b"), ("srcaddr", "Y")], "F2"⟩] ["srcaddr", "dstaddr", "service"] (1/5) (1/5)).2
      ([], [⟨[("name", "a"), ("srcaddr", "X")], "F1"⟩, ⟨[("name", "b"), ("srcaddr", "Y")], "F2"⟩])
      (by decide) (by decide)
      (⟨[("name", "a"), ("srcaddr", "X")], "F1"⟩, ⟨[("name", "b"), ("srcaddr", "Y")], "F2"⟩)
      (by decide)⟩

/-- **C1 counterexample.** With the floor set to `9`, a pair differing
in `srcaddr` still yields its (single) suggestion even though every
similarity score is at most `1 < 9`: suggestions below the floor do
appear in the returned list. -/
theorem C1_floor_counterexample :
    ((findSimilarRules [⟨[("name", "a"), ("srcaddr", "X")], "F1"⟩,
        ⟨[("name", "b"), ("srcaddr", "Y")], "F2"⟩] ["srcaddr", "dstaddr", "service"] 9).map
      SimilaritySuggestion.field_diffs = [[("srcaddr", ("X", "Y"))]]) ∧
    (findSimilarRules [⟨[("name", "a"), ("srcaddr", "X")], "F1"⟩,
        ⟨[("name", "b"), ("srcaddr", "Y")], "F2"⟩] ["srcaddr", "dstaddr", "service"] 9).head!.similarity_score
      < 9 := by
  constructor
  · decide
  · have hne : findSimilarRules [⟨[("name", "a"), ("srcaddr", "X")], "F1"⟩,
        ⟨[("name", "b"), ("srcaddr", "Y")], "F2"⟩] ["srcaddr", "dstaddr", "service"] 9 ≠ [] := by
      intro h
      have := congrArg List.length h
      revert this
      decide
    have hmem := List.head!_mem_self hne
    have hle := findSimilarRules_score_le_one _ _ _ _ hmem
    linarith

/-! ## Lemmas: `find_group_merge_suggestions_single_field` (C3) -/

theorem foldl_min_le (t : List Nat) : ∀ x, t.foldl min x ≤ x := by
  induction t with
  | nil => intro x; exact le_refl x
  | cons y rest ih =>
    intro x
    calc (y :: rest).foldl min x = rest.foldl min (min x y) := rfl
      _ ≤ min x y := ih _
      _ ≤ x := min_le_left _ _

theorem foldl_min_mem (t : List Nat) : ∀ x, t.foldl min x ∈ x :: t := by
  induction t with
  | nil => intro x; exact List.mem_singleton.mpr rfl
  | cons y rest ih =>
    intro x
    have h := ih (min x y)
    rcases List.mem_cons.mp h with heq | hmem
    · rcases Nat.le_total x y with hxy | hyx
      · rw [List.foldl_cons, heq, min_eq_left hxy]
        exact List.mem_cons_self _ _
      · rw [List.foldl_cons, heq, min_eq_right hyx]
        exact List.mem_cons_of_mem _ (List.mem_cons_self _ _)
    · exact List.mem_cons_of_mem _ (List.mem_cons_of_mem _ hmem)

theorem pyMinNat_mem (l : List Nat) (h : l ≠ []) : pyMinNat l ∈ l := by
  cases l with
  | nil => exact absurd rfl h
  | cons x t => exact foldl_min_mem t x

theorem mem_foldl_singleFieldStep (ctx : List String) (varying : String)
    (groups : List (List String × List PolicyRule)) (acc : List MergeGroupSuggestion)
    (x : MergeGroupSuggestion) :
    x ∈ groups.foldl (singleFieldStep ctx varying) acc ↔
      x ∈ acc ∨ ∃ g ∈ groups, ¬g.2.length < 2 ∧ groupSurvives varying g.2 = true ∧
        x = mkGroupSuggestion ctx varying g.2 := by
  induction groups generalizing acc with
  | nil => simp
  | cons g rest ih =>
    rw [List.foldl_cons, ih]
    by_cases hlen : g.2.length < 2
    · simp only [singleFieldStep, hlen, if_true]
      constructor
      · rintro (h | ⟨g', hg', hp⟩)
        · exact Or.inl h
        · exact Or.inr ⟨g', List.mem_cons_of_mem _ hg', hp⟩
      · rintro (h | ⟨g', hg', hlen', hp⟩)
        · exact Or.inl h
        · rcases List.mem_cons.mp hg' with rfl | hg'
          · exact absurd hlen hlen'
          · exact Or.inr ⟨g', hg', hlen', hp⟩
    · by_cases hsurv : groupSurvives varying g.2
      · simp only [singleFieldStep, hlen, if_false, hsurv, if_true, List.mem_append,
          List.mem_singleton]
        constructor
        · rintro ((h | rfl) | ⟨g', hg', hp⟩)
          · exact Or.inl h
          · exact Or.inr ⟨g, List.mem_cons_self _ _, hlen, hsurv, rfl⟩
          · exact Or.inr ⟨g', List.mem_cons_of_mem _ hg', hp⟩
        · rintro (h | ⟨g', hg', hlen', hsurv', rfl⟩)
          · exact Or.inl (Or.inl h)
          · rcases List.mem_cons.mp hg' with rfl | hg'
            · exact Or.inl (Or.inr rfl)
            · exact Or.inr ⟨g', hg', hlen', hsurv', rfl⟩
      · simp only [singleFieldStep, hlen, if_false, hsurv, Bool.false_eq_true]
        constructor
        · rintro (h | ⟨g', hg', hp⟩)
          · exact Or.inl h
          · exact Or.inr ⟨g', List.mem_cons_of_mem _ hg', hp⟩
        · rintro (h | ⟨g', hg', hlen', hsurv', hp⟩)
          · exact Or.inl h
          · rcases List.mem_cons.mp hg' with rfl | hg'
            · exact absurd hsurv' (by simpa using hsurv)
            · exact Or.inr ⟨g', hg', hlen', hsurv', hp⟩

theorem mem_foldl_append_singleField (rules : List PolicyRule) (ctx : List String)
    (fields : List String) (acc : List MergeGroupSuggestion) (x : MergeGroupSuggestion) :
    x ∈ fields.foldl (fun results varying =>
        results ++ singleFieldSuggestions rules ctx varying) acc ↔
      x ∈ acc ∨ ∃ varying ∈ fields, x ∈ singleFieldSuggestions rules ctx varying := by
  induction fields generalizing acc with
  | nil => simp
  | cons f rest ih =>
    rw [List.foldl_cons, ih]
    simp only [List.mem_append, List.mem_cons]
    constructor
    · rintro ((h | h) | ⟨v, hv, hx⟩)
      · exact Or.inl h
      · exact Or.inr ⟨f, Or.inl rfl, h⟩
      · exact Or.inr ⟨v, Or.inr hv, hx⟩
    · rintro (h | ⟨v, rfl | hv, hx⟩)
      · exact Or.inl (Or.inl h)
      · exact Or.inl (Or.inr hx)
      · exact Or.inr ⟨v, hv, hx⟩

/-- The per-rule varying-field token sets of a group suggestion. -/
def suggestionTokenSets (g : MergeGroupSuggestion) : List (List String) :=
  g.rules.map (fun r => dedupFirst (tokenizeMultiValue (dgetD r.raw g.varying_field "")))

/-- The union of the varying-field token sets of a group suggestion. -/
def suggestionUnion (g : MergeGroupSuggestion) : List String :=
  dedupFirst (suggestionTokenSets g).flatten

/-- **C3 (amended).** Every proposed single-field merge group has some
member whose varying-field token set is strictly contained in the union
of the group's token sets (the smallest member always gains tokens); a
group in which every member's token set equals the union is never
proposed.  The source does not guarantee this for *every* member: a
member's token set may already equal the union. -/
theorem C3_group_union_gains (rules : List PolicyRule) (ctx : List String)
    (g : MergeGroupSuggestion) (hg : g ∈ findGroupMergeSuggestionsSingleField rules ctx) :
    ∃ ts ∈ suggestionTokenSets g, ts.toFinset ⊂ (suggestionUnion g).toFinset := by
  rw [findGroupMergeSuggestionsSingleField, mem_foldl_append_singleField] at hg
  rcases hg with h | ⟨varying, _, hx⟩
  · simp at h
  · rw [singleFieldSuggestions, mem_foldl_singleFieldStep] at hx
    rcases hx with h | ⟨grp, _, hlen, hsurv, rfl⟩
    · simp at h
    · have hvary : (mkGroupSuggestion ctx varying grp.2).varying_field = varying := rfl
      have hrules : (mkGroupSuggestion ctx varying grp.2).rules = grp.2 := rfl
      rw [groupSurvives] at hsurv
      simp only [decide_eq_true_eq, not_le] at hsurv
      set tokenSets := grp.2.map
        (fun x => dedupFirst (tokenizeMultiValue (dgetD x.raw varying ""))) with htok
      have hsets : suggestionTokenSets (mkGroupSuggestion ctx varying grp.2) = tokenSets := by
        rw [suggestionTokenSets, hrules, hvary]
      have hunion : suggestionUnion (mkGroupSuggestion ctx varying grp.2) =
          dedupFirst tokenSets.flatten := by
        rw [suggestionUnion, hsets]
      have hne : tokenSets.map List.length ≠ [] := by
        intro hnil
        rw [List.map_eq_nil_iff] at hnil
        rw [hnil] at htok
        have : grp.2.length = 0 := by
          have := congrArg List.length htok.symm
          simpa using this
        omega
      obtain ⟨lmin, hlmin, hval⟩ :
          ∃ lmin ∈ tokenSets.map List.length, pyMinNat (tokenSets.map List.length) = lmin := by
        exact ⟨_, pyMinNat_mem _ hne, rfl⟩
      obtain ⟨ts, hts, hlen_ts⟩ := List.mem_map.mp hlmin
      refine ⟨ts, by rw [hsets]; exact hts, ?_⟩
      rw [hunion]
      have hts_nodup : ts.Nodup := by
        obtain ⟨r, _, rfl⟩ := List.mem_map.mp hts
        exact nodup_dedupFirst _
      have hsubset : ts.toFinset ⊆ (dedupFirst tokenSets.flatten).toFinset := by
        intro a ha
        rw [List.mem_toFinset] at ha ⊢
        rw [mem_dedupFirst]
        exact List.mem_flatten.mpr ⟨ts, hts, ha⟩
      have hcard : ts.toFinset.card < (dedupFirst tokenSets.flatten).toFinset.card := by
        rw [List.toFinset_card_of_nodup hts_nodup,
          List.toFinset_card_of_nodup (nodup_dedupFirst _)]
        rw [hval] at hsurv
        omega
      exact lt_of_le_of_ne hsubset (fun heq => by rw [heq] at hcard; exact lt_irrefl _ hcard)

/-- **C3 witness.** -/
theorem C3_group_union_gains_witness :
    (mkGroupSuggestion STABLE_CONTEXT_FIELDS "srcaddr"
        [⟨[("srcaddr", "a b")], "F1"⟩, ⟨[("srcaddr", "a")], "F2"⟩] ∈
      findGroupMergeSuggestionsSingleField
        [⟨[("srcaddr", "a b")], "F1"⟩, ⟨[("srcaddr", "a")], "F2"⟩] STABLE_CONTEXT_FIELDS) ∧
    ∃ ts ∈ suggestionTokenSets (mkGroupSuggestion STABLE_CONTEXT_FIELDS "srcaddr"
        [⟨[("srcaddr", "a b")], "F1"⟩, ⟨[("srcaddr", "a")], "F2"⟩]),
      ts.toFinset ⊂ (suggestionUnion (mkGroupSuggestion STABLE_CONTEXT_FIELDS "srcaddr"
        [⟨[("srcaddr", "a b")], "F1"⟩, ⟨[("srcaddr", "a")], "F2"⟩])).toFinset :=
  ⟨by decide,
    C3_group_union_gains [⟨[("srcaddr", "a b")], "F1"⟩, ⟨[("srcaddr", "a")], "F2"⟩]
      STABLE_CONTEXT_FIELDS _ (by decide)⟩

/-- **C3 counterexample.** A proposed group may contain a member whose
varying-field token set already equals the union: with members
`srcaddr = "a b"` and `srcaddr = "a"`, the group is proposed although
the first member's token set is exactly the union `{a, b}`. -/
theorem C3_member_equal_union_counterexample :
    ∃ g ∈ findGroupMergeSuggestionsSingleField
        [⟨[("srcaddr", "a b")], "F1"⟩, ⟨[("srcaddr", "a")], "F2"⟩] STABLE_CONTEXT_FIELDS,
      ∃ r ∈ g.rules,
        dedupFirst (tokenizeMultiValue (dgetD r.raw g.varying_field "")) = suggestionUnion g := by
  decide


/-! ## Lemmas: the string comparator and stable sort (C10, C2) -/

theorem lexLt_asymm (a b : List Char) (h : lexLt a b = true) : lexLt b a = false := by
  induction a generalizing b with
  | nil =>
    cases b with
    | nil => simp [lexLt] at h
    | cons c t => simp [lexLt]
  | cons c t ih =>
    cases b with
    | nil => simp [lexLt] at h
    | cons d u =>
      by_cases hcd : c.toNat < d.toNat
      · have hdc : ¬d.toNat < c.toNat := by omega
        simp [lexLt, hdc, hcd]
      · by_cases hdc : d.toNat < c.toNat
        · simp [lexLt, hcd, hdc] at h
        · simp only [lexLt, hcd, if_false, hdc] at h ⊢
          exact ih u h

theorem lexLt_connex (a b : List Char) (hab : lexLt a b = false) (hba : lexLt b a = false) :
    a = b := by
  induction a generalizing b with
  | nil =>
    cases b with
    | nil => rfl
    | cons c t => simp [lexLt] at hab
  | cons c t ih =>
    cases b with
    | nil => simp [lexLt] at hba
    | cons d u =>
      by_cases hcd : c.toNat < d.toNat
      · simp [lexLt, hcd] at hab
      · by_cases hdc : d.toNat < c.toNat
        · simp [lexLt, hdc] at hba
        · have hval : c.toNat = d.toNat := by omega
          have hc : c = d := Char.ext (UInt32.ext hval)
          subst hc
          simp only [lexLt, hcd, if_false, hdc] at hab hba
          rw [ih u hab hba]

theorem lexLt_trans (a b c : List Char) (hab : lexLt a b = true) (hbc : lexLt b c = true) :
    lexLt a c = true := by
  induction a generalizing b c with
  | nil =>
    cases b with
    | nil => simp [lexLt] at hab
    | cons d u =>
      cases c with
      | nil => simp [lexLt] at hbc
      | cons e v => simp [lexLt]
  | cons x t ih =>
    cases b with
    | nil => simp [lexLt] at hab
    | cons d u =>
      cases c with
      | nil => simp [lexLt] at hbc
      | cons e v =>
        by_cases hxd : x.toNat < d.toNat
        · by_cases hde : d.toNat < e.toNat
          · have hxe : x.toNat < e.toNat := by omega
            simp [lexLt, hxe]
          · by_cases hed : e.toNat < d.toNat
            · simp [lexLt, hde, hed] at hbc
            · have hxe : x.toNat < e.toNat := by omega
              simp [lexLt, hxe]
        · by_cases hdx : d.toNat < x.toNat
          · simp [lexLt, hxd, hdx] at hab
          · have hval : x.toNat = d.toNat := by omega
            have hxd2 : x = d := Char.ext (UInt32.ext hval)
            subst hxd2
            simp only [lexLt, hxd, if_false, hdx] at hab
            by_cases hxe : x.toNat < e.toNat
            · simp [lexLt, hxe]
            · by_cases hex : e.toNat < x.toNat
              · simp [lexLt, hxe, hex] at hbc
              · simp only [lexLt, hxe, if_false, hex] at hbc ⊢
                exact ih u v hab hbc

theorem pyStrLe_total (a b : String) : pyStrLe a b = true ∨ pyStrLe b a = true := by
  rw [pyStrLe, pyStrLe]
  by_cases h : lexLt b.data a.data = true
  · right
    rw [lexLt_asymm _ _ h]
    rfl
  · left
    rw [Bool.not_eq_true] at h
    rw [h]
    rfl

theorem pyStrLe_trans (a b c : String) (hab : pyStrLe a b = true) (hbc : pyStrLe b c = true) :
    pyStrLe a c = true := by
  rw [pyStrLe, Bool.not_eq_true'] at hab hbc ⊢
  by_contra hac
  rw [Bool.not_eq_false] at hac
  by_cases h1 : lexLt b.data c.data = true
  · have h2 : lexLt b.data a.data = true := lexLt_trans _ _ _ h1 hac
    rw [h2] at hab
    cases hab
  · rw [Bool.not_eq_true] at h1
    have hbceq : b.data = c.data := lexLt_connex _ _ h1 hbc
    rw [← hbceq] at hac
    rw [hac] at hab
    cases hab

theorem pyStrLe_antisymm (a b : String) (hab : pyStrLe a b = true) (hba : pyStrLe b a = true) :
    a = b := by
  rw [pyStrLe, Bool.not_eq_true'] at hab hba
  exact String.ext (lexLt_connex _ _ hba hab)

theorem insertLe_perm {α : Type} (le : α → α → Bool) (x : α) (l : List α) :
    (insertLe le x l).Perm (x :: l) := by
  induction l with
  | nil => exact List.Perm.refl _
  | cons y t ih =>
    by_cases h : le x y
    · rw [insertLe, if_pos h]
    · rw [insertLe, if_neg h]
      exact (ih.cons y).trans (List.Perm.swap x y t)

theorem sortLe_perm {α : Type} (le : α → α → Bool) (l : List α) : (sortLe le l).Perm l := by
  induction l with
  | nil => exact List.Perm.refl _
  | cons x t ih => exact (insertLe_perm le x (sortLe le t)).trans (ih.cons x)

theorem insertLe_pairwise {α : Type} (le : α → α → Bool)
    (htrans : ∀ a b c, le a b = true → le b c = true → le a c = true)
    (htot : ∀ a b, le a b = true ∨ le b a = true) (x : α) (l : List α)
    (hl : l.Pairwise (fun a b => le a b = true)) :
    (insertLe le x l).Pairwise (fun a b => le a b = true) := by
  induction l with
  | nil => simp [insertLe]
  | cons y t ih =>
    rcases List.pairwise_cons.mp hl with ⟨hy, ht⟩
    by_cases h : le x y
    · rw [insertLe, if_pos h]
      refine List.pairwise_cons.mpr ⟨?_, hl⟩
      intro z hz
      rcases List.mem_cons.mp hz with rfl | hz
      · exact h
      · exact htrans x y z h (hy z hz)
    · rw [insertLe, if_neg h]
      refine List.pairwise_cons.mpr ⟨?_, ih ht⟩
      intro z hz
      have hz2 := (insertLe_perm le x t).mem_iff.mp hz
      rcases List.mem_cons.mp hz2 with rfl | hz2
      · rcases htot y z with hok | hbad
        · exact hok
        · exact absurd hbad (by simpa using h)
      · exact hy z hz2

theorem sortLe_pairwise {α : Type} (le : α → α → Bool)
    (htrans : ∀ a b c, le a b = true → le b c = true → le a c = true)
    (htot : ∀ a b, le a b = true ∨ le b a = true) (l : List α) :
    (sortLe le l).Pairwise (fun a b => le a b = true) := by
  induction l with
  | nil => simp [sortLe]
  | cons x t ih => exact insertLe_pairwise le htrans htot x (sortLe le t) ih

/-- A sorted duplicate-free string list is determined by its member set. -/
theorem sorted_nodup_eq (l₁ l₂ : List String) (hperm : l₁.Perm l₂)
    (hs₁ : l₁.Pairwise (fun a b => pyStrLe a b = true))
    (hs₂ : l₂.Pairwise (fun a b => pyStrLe a b = true))
    (hn₁ : l₁.Nodup) (hn₂ : l₂.Nodup) : l₁ = l₂ := by
  haveI : IsAntisymm String (fun a b => pyStrLe a b = true ∧ a ≠ b) :=
    ⟨fun a b hab hba => pyStrLe_antisymm a b hab.1 hba.1⟩
  refine List.eq_of_perm_of_sorted (r := fun a b => pyStrLe a b = true ∧ a ≠ b) hperm ?_ ?_
  · exact hs₁.and hn₁
  · exact hs₂.and hn₂

/-- `sorted(set(l))` depends only on the member set of `l`. -/
theorem pySortedSet_of_toFinset_eq (l₁ l₂ : List String) (h : l₁.toFinset = l₂.toFinset) :
    pySortedSet l₁ = pySortedSet l₂ := by
  have hmem : ∀ x, x ∈ dedupFirst l₁ ↔ x ∈ dedupFirst l₂ := by
    intro x
    rw [mem_dedupFirst, mem_dedupFirst, ← List.mem_toFinset, h, List.mem_toFinset]
  have hperm : (dedupFirst l₁).Perm (dedupFirst l₂) := by
    rw [List.perm_ext_iff_of_nodup (nodup_dedupFirst l₁) (nodup_dedupFirst l₂)]
    exact hmem
  refine sorted_nodup_eq _ _ ?_ ?_ ?_ ?_ ?_
  · exact ((sortLe_perm pyStrLe _).trans hperm).trans (sortLe_perm pyStrLe _).symm
  · exact sortLe_pairwise pyStrLe pyStrLe_trans pyStrLe_total _
  · exact sortLe_pairwise pyStrLe pyStrLe_trans pyStrLe_total _
  · exact ((sortLe_perm pyStrLe _).nodup_iff).mpr (nodup_dedupFirst l₁)
  · exact ((sortLe_perm pyStrLe _).nodup_iff).mpr (nodup_dedupFirst l₂)

/-! ## C10: member lists are emitted sorted and de-duplicated -/

theorem flatMap_congr {α β : Type} (l : List α) (f g : α → List β)
    (h : ∀ a ∈ l, f a = g a) : l.flatMap f = l.flatMap g := by
  induction l with
  | nil => rfl
  | cons x t ih =>
    rw [List.flatMap_cons, List.flatMap_cons, h x (List.mem_cons_self _ _),
      ih (fun a ha => h a (List.mem_cons_of_mem _ ha))]

/-- Two dicts related entrywise: equal keys, related values. -/
def DictRel {α β : Type} (R : α → β → Prop) (d₁ : Dict α) (d₂ : Dict β) : Prop :=
  List.Forall₂ (fun a b => a.1 = b.1 ∧ R a.2 b.2) d₁ d₂

theorem DictRel.keys_eq {α β : Type} {R : α → β → Prop} {d₁ : Dict α} {d₂ : Dict β}
    (h : DictRel R d₁ d₂) : dkeys d₁ = dkeys d₂ := by
  induction h with
  | nil => rfl
  | cons hab _ ih =>
    simp only [dkeys, List.map_cons] at ih ⊢
    rw [hab.1, ih]


theorem DictRel.lookup {α β : Type} {R : α → β → Prop} {d₁ : Dict α} {d₂ : Dict β}
    (h : DictRel R d₁ d₂) (k : String) :
    Option.Rel R (dlookup d₁ k) (dlookup d₂ k) := by
  induction d₁ generalizing d₂ with
  | nil =>
    cases h
    exact Option.Rel.none
  | cons a t ih =>
    cases h with
    | cons hab htail =>
      rename_i b l₂
      obtain ⟨hk, hv⟩ := hab
      rcases a with ⟨ka, va⟩
      rcases b with ⟨kb, vb⟩
      simp only at hk
      subst hk
      by_cases hka : ka = k
      · simp only [dlookup, hka, if_true]
        exact Option.Rel.some hv
      · simp only [dlookup, hka, if_false]
        exact ih htail

/-- The value relation under which group emission is invariant: same
name and comment, same member *set*. -/
def GroupSetEq (g₁ g₂ : AddressGroup) : Prop :=
  g₁.name = g₂.name ∧ g₁.comment = g₂.comment ∧ g₁.members.toFinset = g₂.members.toFinset

def SvcGroupSetEq (g₁ g₂ : ServiceGroup) : Prop :=
  g₁.name = g₂.name ∧ g₁.comment = g₂.comment ∧ g₁.members.toFinset = g₂.members.toFinset

theorem generateAddressGroups_setEq (d₁ d₂ : Dict AddressGroup)
    (h : DictRel GroupSetEq d₁ d₂) : generateAddressGroups d₁ = generateAddressGroups d₂ := by
  cases h with
  | nil => rfl
  | cons hab htail =>
    rename_i a b l₁ l₂
    have hfull : DictRel GroupSetEq (a :: l₁) (b :: l₂) := List.Forall₂.cons hab htail
    rw [generateAddressGroups, generateAddressGroups, if_neg (by simp), if_neg (by simp)]
    rw [hfull.keys_eq]
    refine congrArg (emitBlock "config firewall addrgrp") ?_
    refine flatMap_congr _ _ _ ?_
    intro name _
    simp only
    have hrel := hfull.lookup name
    cases hopt₁ : dlookup (a :: l₁) name with
    | none =>
      cases hopt₂ : dlookup (b :: l₂) name with
      | none => rw [dgetD, dgetD, hopt₁, hopt₂]
      | some v₂ =>
        rw [hopt₁, hopt₂] at hrel
        cases hrel
    | some v₁ =>
      cases hopt₂ : dlookup (b :: l₂) name with
      | none =>
        rw [hopt₁, hopt₂] at hrel
        cases hrel
      | some v₂ =>
        rw [hopt₁, hopt₂] at hrel
        have hr : GroupSetEq v₁ v₂ := by
          cases hrel with
          | some hr => exact hr
        obtain ⟨hname, hcomment, hmembers⟩ := hr
        rw [dgetD, dgetD, hopt₁, hopt₂]
        simp only [Option.getD_some]
        rw [hname, hcomment]
        have hmem_nil : v₁.members = [] ↔ v₂.members = [] := by
          rw [← List.toFinset_eq_empty_iff, ← List.toFinset_eq_empty_iff, hmembers]
        by_cases hnil : v₁.members = []
        · rw [if_neg (by simpa using hnil), if_neg (by simpa using hmem_nil.mp hnil)]
        · rw [if_pos (by simpa using hnil),
            if_pos (by simpa using fun h2 => hnil (hmem_nil.mpr h2)),
            pySortedSet_of_toFinset_eq _ _ hmembers]

theorem generateServiceGroups_setEq (d₁ d₂ : Dict ServiceGroup)
    (h : DictRel SvcGroupSetEq d₁ d₂) : generateServiceGroups d₁ = generateServiceGroups d₂ := by
  cases h with
  | nil => rfl
  | cons hab htail =>
    rename_i a b l₁ l₂
    have hfull : DictRel SvcGroupSetEq (a :: l₁) (b :: l₂) := List.Forall₂.cons hab htail
    rw [generateServiceGroups, generateServiceGroups, if_neg (by simp), if_neg (by simp)]
    rw [hfull.keys_eq]
    refine congrArg (emitBlock "config firewall service group") ?_
    refine flatMap_congr _ _ _ ?_
    intro name _
    simp only
    have hrel := hfull.lookup name
    cases hopt₁ : dlookup (a :: l₁) name with
    | none =>
      cases hopt₂ : dlookup (b :: l₂) name with
      | none => rw [dgetD, dgetD, hopt₁, hopt₂]
      | some v₂ =>
        rw [hopt₁, hopt₂] at hrel
        cases hrel
    | some v₁ =>
      cases hopt₂ : dlookup (b :: l₂) name with
      | none =>
        rw [hopt₁, hopt₂] at hrel
        cases hrel
      | some v₂ =>
        rw [hopt₁, hopt₂] at hrel
        have hr : SvcGroupSetEq v₁ v₂ := by
          cases hrel with
          | some hr => exact hr
        obtain ⟨hname, hcomment, hmembers⟩ := hr
        rw [dgetD, dgetD, hopt₁, hopt₂]
        simp only [Option.getD_some]
        rw [hname, hcomment]
        have hmem_nil : v₁.members = [] ↔ v₂.members = [] := by
          rw [← List.toFinset_eq_empty_iff, ← List.toFinset_eq_empty_iff, hmembers]
        by_cases hnil : v₁.members = []
        · rw [if_neg (by simpa using hnil), if_neg (by simpa using hmem_nil.mp hnil)]
        · rw [if_pos (by simpa using hnil),
            if_pos (by simpa using fun h2 => hnil (hmem_nil.mpr h2)),
            pySortedSet_of_toFinset_eq _ _ hmembers]

/-- **C10.** Group member lists are emitted sorted and de-duplicated:
the generated text of the address-group and service-group sections is
invariant under any permutation or duplication of the input member
lists (same member set, same output), and it does not preserve the
original member order — the members `["b", "a"]` are emitted as the
sorted line `set member "a" "b"`. -/
theorem C10_sorted_member_emission (dA₁ dA₂ : Dict AddressGroup) (dS₁ dS₂ : Dict ServiceGroup)
    (hA : DictRel GroupSetEq dA₁ dA₂) (hS : DictRel SvcGroupSetEq dS₁ dS₂) :
    generateAddressGroups dA₁ = generateAddressGroups dA₂ ∧
    generateServiceGroups dS₁ = generateServiceGroups dS₂ ∧
    generateAddressGroups [("g", { name := "g", members := ["b", "a"], comment := none })] =
      ["config firewall addrgrp", "    edit \"g\"", "        set member \"a\" \"b\"",
        "    next", "end"] :=
  ⟨generateAddressGroups_setEq dA₁ dA₂ hA, generateServiceGroups_setEq dS₁ dS₂ hS, by decide⟩

/-- **C10 witness.** A duplicated, permuted member list generates the
same text. -/
theorem C10_sorted_member_emission_witness :
    generateAddressGroups [("g", { name := "g", members := ["b", "a", "b"], comment := none })] =
      generateAddressGroups [("g", { name := "g", members := ["a", "b"], comment := none })] ∧
    generateServiceGroups [("s", { name := "s", members := ["y", "x"], comment := none })] =
      generateServiceGroups [("s", { name := "s", members := ["x", "y", "x"], comment := none })] :=
  ⟨(C10_sorted_member_emission
      [("g", { name := "g", members := ["b", "a", "b"], comment := none })]
      [("g", { name := "g", members := ["a", "b"], comment := none })]
      [("s", { name := "s", members := ["y", "x"], comment := none })]
      [("s", { name := "s", members := ["x", "y", "x"], comment := none })]
      (List.Forall₂.cons ⟨rfl, rfl, by decide⟩ List.Forall₂.nil)
      (List.Forall₂.cons ⟨rfl, rfl, by decide⟩ List.Forall₂.nil)).1,
   (C10_sorted_member_emission
      [("g", { name := "g", members := ["b", "a", "b"], comment := none })]
      [("g", { name := "g", members := ["a", "b"], comment := none })]
      [("s", { name := "s", members := ["y", "x"], comment := none })]
      [("s", { name := "s", members := ["x", "y", "x"], comment := none })]
      (List.Forall₂.cons ⟨rfl, rfl, by decide⟩ List.Forall₂.nil)
      (List.Forall₂.cons ⟨rfl, rfl, by decide⟩ List.Forall₂.nil)).2.1⟩

/-! ## Lemmas: decimal digits and candidate names (C4, C5) -/

theorem digitsGo_fuel (n : Nat) : ∀ f₁ f₂, n < f₁ → n < f₂ → digitsGo f₁ n = digitsGo f₂ n := by
  induction n using Nat.strong_induction_on with
  | _ n ih =>
    intro f₁ f₂ h₁ h₂
    cases f₁ with
    | zero => omega
    | succ g₁ =>
      cases f₂ with
      | zero => omega
      | succ g₂ =>
        by_cases hn : n < 10
        · simp [digitsGo, hn]
        · have hdiv : n / 10 < n := Nat.div_lt_self (by omega) (by omega)
          simp only [digitsGo, hn, if_false]
          rw [ih (n / 10) hdiv g₁ g₂ (by omega) (by omega)]

theorem digitsRev_eq (n : Nat) :
    digitsRev n = if n < 10 then [digitChar n] else digitChar (n % 10) :: digitsRev (n / 10) := by
  by_cases hn : n < 10
  · simp [digitsRev, digitsGo, hn]
  · have hdiv : n / 10 < n := Nat.div_lt_self (by omega) (by omega)
    rw [if_neg hn]
    rw [show digitsRev n = digitChar (n % 10) :: digitsGo n (n / 10) from by
      simp [digitsRev, digitsGo, hn]]
    rw [show digitsRev (n / 10) = digitsGo (n / 10 + 1) (n / 10) from rfl]
    rw [digitsGo_fuel (n / 10) n (n / 10 + 1) hdiv (Nat.lt_succ_self _)]

theorem digitChar_toNat : ∀ k, k < 10 → (digitChar k).toNat = 48 + k := by decide

theorem digitChar_inj (k₁ k₂ : Nat) (h₁ : k₁ < 10) (h₂ : k₂ < 10)
    (h : digitChar k₁ = digitChar k₂) : k₁ = k₂ := by
  have e₁ := digitChar_toNat k₁ h₁
  have e₂ := digitChar_toNat k₂ h₂
  rw [h, e₂] at e₁
  omega

theorem digitChar_ne_dash : ∀ k, k < 10 → digitChar k ≠ '-' := by decide

theorem digitsRev_ne_nil (n : Nat) : digitsRev n ≠ [] := by
  rw [digitsRev_eq]
  split <;> simp

theorem digitsRev_no_dash (n : Nat) : ∀ c ∈ digitsRev n, c ≠ '-' := by
  induction n using Nat.strong_induction_on with
  | _ n ih =>
    intro c hc
    rw [digitsRev_eq] at hc
    by_cases hn : n < 10
    · rw [if_pos hn] at hc
      rw [List.mem_singleton] at hc
      exact hc ▸ digitChar_ne_dash n hn
    · rw [if_neg hn] at hc
      rcases List.mem_cons.mp hc with rfl | hc
      · exact digitChar_ne_dash (n % 10) (Nat.mod_lt _ (by omega))
      · exact ih (n / 10) (Nat.div_lt_self (by omega) (by omega)) c hc

theorem digitsRev_inj (a : Nat) : ∀ b, digitsRev a = digitsRev b → a = b := by
  induction a using Nat.strong_induction_on with
  | _ a ih =>
    intro b h
    rw [digitsRev_eq a, digitsRev_eq b] at h
    by_cases ha : a < 10
    · by_cases hb : b < 10
      · rw [if_pos ha, if_pos hb] at h
        injection h with h1 h2
        exact digitChar_inj a b ha hb h1
      · rw [if_pos ha, if_neg hb] at h
        injection h with h1 h2
        exact absurd h2.symm (digitsRev_ne_nil _)
    · by_cases hb : b < 10
      · rw [if_neg ha, if_pos hb] at h
        injection h with h1 h2
        exact absurd h2 (digitsRev_ne_nil _)
      · rw [if_neg ha, if_neg hb] at h
        injection h with h1 h2
        have hmod : a % 10 = b % 10 :=
          digitChar_inj _ _ (Nat.mod_lt _ (by omega)) (Nat.mod_lt _ (by omega)) h1
        have hdiv : a / 10 = b / 10 :=
          ih (a / 10) (Nat.div_lt_self (by omega) (by omega)) (b / 10) h2
        omega

theorem digitsRev_length_mono (a : Nat) : ∀ b, a ≤ b →
    (digitsRev a).length ≤ (digitsRev b).length := by
  induction a using Nat.strong_induction_on with
  | _ a ih =>
    intro b hab
    rw [digitsRev_eq a, digitsRev_eq b]
    by_cases ha : a < 10
    · rw [if_pos ha]
      split
      · simp
      · simp only [List.length_singleton, List.length_cons, List.length_nil]
        omega
    · have hb : ¬b < 10 := by omega
      rw [if_neg ha, if_neg hb]
      simp only [List.length_cons, Nat.add_le_add_iff_right]
      exact ih (a / 10) (Nat.div_lt_self (by omega) (by omega)) (b / 10)
        (Nat.div_le_div_right hab)

theorem natStr_data (n : Nat) : (natStr n).data = (digitsRev n).reverse := rfl

theorem candAt_data_reverse (m : Nat) (base : String) (i : Nat) :
    (candAt m base i).data.reverse =
      digitsRev i ++ '-' :: (truncForSuffix m base ("-" ++ natStr i)).data.reverse := by
  rw [candAt]
  rw [String.data_append, String.data_append, List.reverse_append, List.reverse_append]
  rw [show ("-" : String).data = ['-'] from rfl, natStr_data, List.reverse_reverse]
  simp [List.append_assoc]

theorem dash_split (d₁ : List Char) : ∀ (d₂ r₁ r₂ : List Char),
    (∀ c ∈ d₁, c ≠ '-') → (∀ c ∈ d₂, c ≠ '-') →
    d₁ ++ '-' :: r₁ = d₂ ++ '-' :: r₂ → d₁ = d₂ ∧ r₁ = r₂ := by
  induction d₁ with
  | nil =>
    intro d₂ r₁ r₂ _ h₂ heq
    cases d₂ with
    | nil =>
      injection heq with h1 h2
      exact ⟨rfl, h2⟩
    | cons c t =>
      injection heq with h1 h2
      exact absurd h1.symm (h₂ c (List.mem_cons_self _ _))
  | cons c t ih =>
    intro d₂ r₁ r₂ h₁ h₂ heq
    cases d₂ with
    | nil =>
      injection heq with h1 h2
      exact absurd h1 (h₁ c (List.mem_cons_self _ _))
    | cons d u =>
      injection heq with h1 h2
      obtain ⟨hteq, hreq⟩ := ih u r₁ r₂ (fun x hx => h₁ x (List.mem_cons_of_mem _ hx))
        (fun x hx => h₂ x (List.mem_cons_of_mem _ hx)) h2
      exact ⟨by rw [h1, hteq], hreq⟩

theorem candAt_inj (m : Nat) (base : String) (i j : Nat)
    (h : candAt m base i = candAt m base j) : i = j := by
  have hdata : (candAt m base i).data.reverse = (candAt m base j).data.reverse := by rw [h]
  rw [candAt_data_reverse, candAt_data_reverse] at hdata
  have hsplit := dash_split (digitsRev i) (digitsRev j) _ _
    (digitsRev_no_dash i) (digitsRev_no_dash j) hdata
  exact digitsRev_inj i j hsplit.1

theorem strMk_length (l : List Char) : (String.mk l).length = l.length := rfl

theorem pySliceTo_length_le (s : String) (k : Int) (hk : 0 ≤ k) :
    (pySliceTo s k).length ≤ k.toNat := by
  rw [pySliceTo, if_neg (by omega), strMk_length]
  rw [List.length_take]
  exact min_le_left _ _

theorem suffix_length (i : Nat) : ("-" ++ natStr i).length = 1 + (digitsRev i).length := by
  rw [String.length_append]
  rw [show ("-" : String).length = 1 from rfl]
  rw [show (natStr i).length = (digitsRev i).reverse.length from rfl, List.length_reverse]

theorem candAt_length_le (m : Nat) (base : String) (i : Nat)
    (h : 1 + (digitsRev i).length ≤ m) : (candAt m base i).length ≤ m := by
  have hsuf : ("-" ++ natStr i).length ≤ m := by rw [suffix_length]; exact h
  rw [candAt, String.length_append, truncForSuffix]
  split
  · omega
  · have hk : (0 : Int) ≤ (m : Int) - (("-" ++ natStr i).length : Int) := by
      omega
    have := pySliceTo_length_le base ((m : Int) - (("-" ++ natStr i).length : Int)) hk
    have htoNat : ((m : Int) - (("-" ++ natStr i).length : Int)).toNat =
        m - ("-" ++ natStr i).length := by omega
    omega

theorem suffixGo_spec (m : Nat) (used : List String) (base : String) :
    ∀ (fuel i : Nat), (∃ j, i ≤ j ∧ j < i + fuel ∧ candAt m base j ∉ used) →
      suffixGo m used base fuel i ∉ used ∧
      ∃ j, i ≤ j ∧ j < i + fuel ∧ suffixGo m used base fuel i = candAt m base j := by
  intro fuel
  induction fuel with
  | zero =>
    intro i h
    obtain ⟨j, hij, hlt, _⟩ := h
    omega
  | succ f ih =>
    intro i h
    by_cases hc : candAt m base i ∈ used
    · have hnext : ∃ j, i + 1 ≤ j ∧ j < (i + 1) + f ∧ candAt m base j ∉ used := by
        obtain ⟨j, hij, hlt, hj⟩ := h
        have hne : j ≠ i := fun hji => hj (hji ▸ hc)
        exact ⟨j, by omega, by omega, hj⟩
      obtain ⟨hnotin, j, hij, hlt, heq⟩ := ih (i + 1) hnext
      rw [show suffixGo m used base (f + 1) i = suffixGo m used base f (i + 1) from by
        simp [suffixGo, hc]]
      exact ⟨hnotin, j, by omega, by omega, heq⟩
    · rw [show suffixGo m used base (f + 1) i = candAt m base i from by simp [suffixGo, hc]]
      exact ⟨hc, i, le_refl i, by omega, rfl⟩

theorem candAt_exists_unused (m : Nat) (used : List String) (base : String)
    (hnodup : used.Nodup) (i : Nat) :
    ∃ j, i ≤ j ∧ j < i + (used.length + 1) ∧ candAt m base j ∉ used := by
  by_contra hall
  push_neg at hall
  have hmaps : ∀ j ∈ Finset.Ico i (i + (used.length + 1)), candAt m base j ∈ used.toFinset := by
    intro j hj
    rw [Finset.mem_Ico] at hj
    exact List.mem_toFinset.mpr (hall j hj.1 hj.2)
  have hinj : Set.InjOn (candAt m base) (Finset.Ico i (i + (used.length + 1))) := by
    intro x _ y _ hxy
    exact candAt_inj m base x y hxy
  have hcard := Finset.card_le_card_of_injOn (candAt m base) hmaps hinj
  rw [Nat.card_Ico] at hcard
  rw [List.toFinset_card_of_nodup hnodup] at hcard
  omega

theorem findSuffixed_spec (m : Nat) (used : List String) (base : String)
    (hnodup : used.Nodup) :
    findSuffixed m used base ∉ used ∧
    ∃ j, 1 ≤ j ∧ j ≤ used.length + 1 ∧ findSuffixed m used base = candAt m base j := by
  obtain ⟨hnotin, j, h1, h2, heq⟩ := suffixGo_spec m used base (used.length + 1) 1
    (candAt_exists_unused m used base hnodup 1)
  exact ⟨hnotin, j, h1, by omega, heq⟩

theorem candidateOf_length_le (m : Nat) (base : String) : (candidateOf m base).length ≤ m := by
  rw [candidateOf]
  split
  · omega
  · have := pySliceTo_length_le base (m : Int) (by omega)
    have htoNat : ((m : Nat) : Int).toNat = m := by omega
    omega

theorem buildGo_spec (maxLen N : Nat) (rest : List PolicyRule) : ∀ (used : List String),
    used.Nodup → used.length + rest.length ≤ N →
    ((buildNamesGo maxLen rest used).1.Nodup ∧
     (∀ x ∈ (buildNamesGo maxLen rest used).1, x ∉ used)) ∧
    (1 + (digitsRev N).length ≤ maxLen →
      ∀ x ∈ (buildNamesGo maxLen rest used).1, x.length ≤ maxLen) := by
  induction rest with
  | nil =>
    intro used _ _
    simp [buildNamesGo]
  | cons r rest0 ih =>
    intro used hnodup hcount
    rw [List.length_cons] at hcount
    by_cases hmem : candidateOf maxLen (baseNameOf r) ∈ used
    · obtain ⟨hnot, j, hj1, hj2, hjeq⟩ := findSuffixed_spec maxLen used (baseNameOf r) hnodup
      rcases hrec : buildNamesGo maxLen rest0 (findSuffixed maxLen used (baseNameOf r) :: used)
        with ⟨ov, rn⟩
      have heq : buildNamesGo maxLen (r :: rest0) used =
          (findSuffixed maxLen used (baseNameOf r) :: ov,
            if findSuffixed maxLen used (baseNameOf r) ≠ baseNameOf r
            then (baseNameOf r, findSuffixed maxLen used (baseNameOf r)) :: rn else rn) := by
        simp only [buildNamesGo, hmem, if_true, hrec]
      have ihres := ih (findSuffixed maxLen used (baseNameOf r) :: used)
        (List.nodup_cons.mpr ⟨hnot, hnodup⟩)
        (by simp only [List.length_cons]; omega)
      rw [hrec] at ihres
      simp only at ihres
      rw [heq]
      simp only
      obtain ⟨⟨hovnodup, hovnotin⟩, hovlen⟩ := ihres
      have hcand_not_ov : findSuffixed maxLen used (baseNameOf r) ∉ ov := by
        intro hin
        exact hovnotin _ hin (List.mem_cons_self _ _)
      refine ⟨⟨List.nodup_cons.mpr ⟨hcand_not_ov, hovnodup⟩, ?_⟩, ?_⟩
      · intro x hx
        rcases List.mem_cons.mp hx with rfl | hx
        · exact hnot
        · exact fun hxu => hovnotin x hx (List.mem_cons_of_mem _ hxu)
      · intro hdig x hx
        rcases List.mem_cons.mp hx with rfl | hx
        · rw [hjeq]
          refine candAt_length_le maxLen (baseNameOf r) j ?_
          have hjN : j ≤ N := by omega
          have hmono := digitsRev_length_mono j N hjN
          omega
        · exact hovlen hdig x hx
    · rcases hrec : buildNamesGo maxLen rest0 (candidateOf maxLen (baseNameOf r) :: used)
        with ⟨ov, rn⟩
      have heq : buildNamesGo maxLen (r :: rest0) used =
          (candidateOf maxLen (baseNameOf r) :: ov, rn) := by
        simp only [buildNamesGo, hmem, if_false, hrec]
      have ihres := ih (candidateOf maxLen (baseNameOf r) :: used)
        (List.nodup_cons.mpr ⟨hmem, hnodup⟩)
        (by simp only [List.length_cons]; omega)
      rw [hrec] at ihres
      simp only at ihres
      rw [heq]
      simp only
      obtain ⟨⟨hovnodup, hovnotin⟩, hovlen⟩ := ihres
      have hcand_not_ov : candidateOf maxLen (baseNameOf r) ∉ ov := by
        intro hin
        exact hovnotin _ hin (List.mem_cons_self _ _)
      refine ⟨⟨List.nodup_cons.mpr ⟨hcand_not_ov, hovnodup⟩, ?_⟩, ?_⟩
      · intro x hx
        rcases List.mem_cons.mp hx with rfl | hx
        · exact hmem
        · exact fun hxu => hovnotin x hx (List.mem_cons_of_mem _ hxu)
      · intro hdig x hx
        rcases List.mem_cons.mp hx with rfl | hx
        · exact candidateOf_length_le maxLen (baseNameOf r)
        · exact hovlen hdig x hx

/-- **C4 (amended).** `build_unique_policy_names` never emits two equal
names, for every rule list and every `max_len`; and every emitted name
has length at most `max_len` provided `max_len` is at least one more
than the number of decimal digits of the rule count (the numeric
suffixes grow with the number of collisions, and a too-small `max_len`
is overrun by the suffix itself, as the counterexample shows). -/
theorem C4_unique_bounded_names (rules : List PolicyRule) (maxLen : Nat) :
    (buildUniquePolicyNames rules maxLen).1.Nodup ∧
    (1 + (digitsRev rules.length).length ≤ maxLen →
      ∀ nm ∈ (buildUniquePolicyNames rules maxLen).1, nm.length ≤ maxLen) := by
  have h := buildGo_spec maxLen rules.length rules [] (by simp) (by simp)
  exact ⟨h.1.1, h.2⟩

/-- **C4 witness.** -/
theorem C4_unique_bounded_names_witness :
    (buildUniquePolicyNames [(⟨[("name", "alpha")], "F1"⟩ : PolicyRule),
        ⟨[("name", "alpha")], "F2"⟩] 35).1.Nodup ∧
    ∀ nm ∈ (buildUniquePolicyNames [(⟨[("name", "alpha")], "F1"⟩ : PolicyRule),
        ⟨[("name", "alpha")], "F2"⟩] 35).1, nm.length ≤ 35 :=
  ⟨(C4_unique_bounded_names [⟨[("name", "alpha")], "F1"⟩, ⟨[("name", "alpha")], "F2"⟩] 35).1,
   (C4_unique_bounded_names [⟨[("name", "alpha")], "F1"⟩, ⟨[("name", "alpha")], "F2"⟩] 35).2
     (by decide)⟩

/-- **C4 counterexample.** With `max_len = 1` and two rules named `"a"`,
the second name is `"-1"` of length `2 > 1`: the length bound fails for
small positive `max_len`. -/
theorem C4_length_counterexample :
    0 < 1 ∧
    (buildUniquePolicyNames [(⟨[("name", "a")], "F1"⟩ : PolicyRule),
        ⟨[("name", "a")], "F2"⟩] 1).1 = ["a", "-1"] ∧
    ¬∀ nm ∈ (buildUniquePolicyNames [(⟨[("name", "a")], "F1"⟩ : PolicyRule),
        ⟨[("name", "a")], "F2"⟩] 1).1, nm.length ≤ 1 := by
  refine ⟨by decide, by decide, ?_⟩
  intro hall
  have := hall "-1" (by decide)
  revert this
  decide

theorem pySliceTo_length (s : String) (k : Int) :
    (pySliceTo s k).length =
      if k < 0 then min (s.length - (-k).toNat) s.length else min k.toNat s.length := by
  rw [pySliceTo]
  split
  · rw [strMk_length, List.length_take]
    rfl
  · rw [strMk_length, List.length_take]
    rfl

theorem candAt_length_ne (m : Nat) (base : String) (j : Nat) (h1 : 1 ≤ m)
    (hbase : m < base.length) : (candAt m base j).length ≠ base.length := by
  rw [candAt, String.length_append, truncForSuffix]
  have hd : 0 < (digitsRev j).length := List.length_pos.mpr (digitsRev_ne_nil j)
  have hslen : ("-" ++ natStr j).length = 1 + (digitsRev j).length := suffix_length j
  split
  · rename_i hfit
    omega
  · rename_i hnofit
    rw [pySliceTo_length]
    split
    · rename_i hneg
      have htoNat : (-((m : Int) - (("-" ++ natStr j).length : Int))).toNat =
          ("-" ++ natStr j).length - m := by omega
      rw [htoNat]
      omega
    · rename_i hpos
      have htoNat : (((m : Int) - (("-" ++ natStr j).length : Int))).toNat =
          m - ("-" ++ natStr j).length := by omega
      rw [htoNat]
      omega

theorem findSuffixed_ne_base (m : Nat) (used : List String) (base : String)
    (h1 : 1 ≤ m) (hnodup : used.Nodup) (hmem : candidateOf m base ∈ used) :
    findSuffixed m used base ≠ base := by
  obtain ⟨hnot, j, _, _, hjeq⟩ := findSuffixed_spec m used base hnodup
  by_cases hlen : base.length ≤ m
  · rw [candidateOf, if_pos hlen] at hmem
    intro heq
    apply hnot
    rw [heq]
    exact hmem
  · intro heq
    have hne := candAt_length_ne m base j h1 (by omega)
    rw [← hjeq, heq] at hne
    exact hne rfl

theorem filterMap_congr_mem {α β : Type} (l : List α) (f g : α → Option β)
    (h : ∀ a ∈ l, f a = g a) : l.filterMap f = l.filterMap g := by
  induction l with
  | nil => rfl
  | cons x t ih =>
    rw [List.filterMap_cons, List.filterMap_cons, h x (List.mem_cons_self _ _),
      ih (fun a ha => h a (List.mem_cons_of_mem _ ha))]

theorem buildGo_renames (maxLen : Nat) (h1 : 1 ≤ maxLen) (rest : List PolicyRule) :
    ∀ (used : List String), used.Nodup →
    (buildNamesGo maxLen rest used).2 =
      (List.range rest.length).filterMap (fun i =>
        if candidateOf maxLen (baseNameOf (rest.getD i default)) ∈
            (buildNamesGo maxLen rest used).1.take i ++ used
        then some (baseNameOf (rest.getD i default),
               (buildNamesGo maxLen rest used).1.getD i "")
        else none) := by
  induction rest with
  | nil =>
    intro used _
    simp [buildNamesGo]
  | cons r rest0 ih =>
    intro used hnodup
    by_cases hmem : candidateOf maxLen (baseNameOf r) ∈ used
    · obtain ⟨hnot, j, hj1, hj2, hjeq⟩ := findSuffixed_spec maxLen used (baseNameOf r) hnodup
      have hne := findSuffixed_ne_base maxLen used (baseNameOf r) h1 hnodup hmem
      rcases hrec : buildNamesGo maxLen rest0 (findSuffixed maxLen used (baseNameOf r) :: used)
        with ⟨ov, rn⟩
      have heq : buildNamesGo maxLen (r :: rest0) used =
          (findSuffixed maxLen used (baseNameOf r) :: ov,
           (baseNameOf r, findSuffixed maxLen used (baseNameOf r)) :: rn) := by
        simp only [buildNamesGo, hmem, if_true, hrec, if_pos hne]
      rw [heq]
      simp only [List.length_cons, List.range_succ_eq_map, List.filterMap_cons]
      rw [show (List.getD (r :: rest0) 0 default) = r from rfl]
      rw [show List.take 0 (findSuffixed maxLen used (baseNameOf r) :: ov) = [] from rfl]
      rw [show ([] : List String) ++ used = used from rfl]
      rw [if_pos hmem]
      rw [show List.getD (findSuffixed maxLen used (baseNameOf r) :: ov) 0 "" =
        findSuffixed maxLen used (baseNameOf r) from rfl]
      refine congrArg _ ?_
      rw [List.filterMap_map]
      have ihres := ih (findSuffixed maxLen used (baseNameOf r) :: used)
        (List.nodup_cons.mpr ⟨hnot, hnodup⟩)
      rw [hrec] at ihres
      simp only at ihres
      rw [ihres]
      refine filterMap_congr_mem _ _ _ ?_
      intro i _
      simp only [Function.comp_apply, List.getD_cons_succ, List.take_succ_cons,
        List.getD_cons_succ]
      refine if_congr ?_ rfl rfl
      simp only [List.cons_append, List.mem_cons, List.mem_append]
      exact or_left_comm
    · rcases hrec : buildNamesGo maxLen rest0 (candidateOf maxLen (baseNameOf r) :: used)
        with ⟨ov, rn⟩
      have heq : buildNamesGo maxLen (r :: rest0) used =
          (candidateOf maxLen (baseNameOf r) :: ov, rn) := by
        simp only [buildNamesGo, hmem, if_false, hrec]
      rw [heq]
      simp only [List.length_cons, List.range_succ_eq_map, List.filterMap_cons]
      rw [show (List.getD (r :: rest0) 0 default) = r from rfl]
      rw [show List.take 0 (candidateOf maxLen (baseNameOf r) :: ov) = [] from rfl]
      rw [show ([] : List String) ++ used = used from rfl]
      rw [if_neg hmem]
      rw [List.filterMap_map]
      have ihres := ih (candidateOf maxLen (baseNameOf r) :: used)
        (List.nodup_cons.mpr ⟨hmem, hnodup⟩)
      rw [hrec] at ihres
      simp only at ihres
      rw [ihres]
      refine filterMap_congr_mem _ _ _ ?_
      intro i _
      simp only [Function.comp_apply, List.getD_cons_succ, List.take_succ_cons,
        List.getD_cons_succ]
      refine if_congr ?_ rfl rfl
      simp only [List.cons_append, List.mem_cons, List.mem_append]
      exact or_left_comm

theorem buildGo_renames_ne (maxLen : Nat) (h1 : 1 ≤ maxLen) (rest : List PolicyRule) :
    ∀ (used : List String), used.Nodup →
    ∀ p ∈ (buildNamesGo maxLen rest used).2, p.2 ≠ p.1 := by
  induction rest with
  | nil =>
    intro used _ p hp
    simp [buildNamesGo] at hp
  | cons r rest0 ih =>
    intro used hnodup p hp
    by_cases hmem : candidateOf maxLen (baseNameOf r) ∈ used
    · obtain ⟨hnot, _, _, _, _⟩ := findSuffixed_spec maxLen used (baseNameOf r) hnodup
      have hne := findSuffixed_ne_base maxLen used (baseNameOf r) h1 hnodup hmem
      rcases hrec : buildNamesGo maxLen rest0 (findSuffixed maxLen used (baseNameOf r) :: used)
        with ⟨ov, rn⟩
      have heq : buildNamesGo maxLen (r :: rest0) used =
          (findSuffixed maxLen used (baseNameOf r) :: ov,
           (baseNameOf r, findSuffixed maxLen used (baseNameOf r)) :: rn) := by
        simp only [buildNamesGo, hmem, if_true, hrec, if_pos hne]
      rw [heq] at hp
      rcases List.mem_cons.mp hp with rfl | hp
      · exact hne
      · have := ih (findSuffixed maxLen used (baseNameOf r) :: used)
          (List.nodup_cons.mpr ⟨hnot, hnodup⟩) p
        rw [hrec] at this
        exact this hp
    · rcases hrec : buildNamesGo maxLen rest0 (candidateOf maxLen (baseNameOf r) :: used)
        with ⟨ov, rn⟩
      have heq : buildNamesGo maxLen (r :: rest0) used =
          (candidateOf maxLen (baseNameOf r) :: ov, rn) := by
        simp only [buildNamesGo, hmem, if_false, hrec]
      rw [heq] at hp
      have := ih (candidateOf maxLen (baseNameOf r) :: used)
        (List.nodup_cons.mpr ⟨hmem, hnodup⟩) p
      rw [hrec] at this
      exact this hp

/-- **C5 (amended).** For `max_len ≥ 1`, the renames list of
`build_unique_policy_names` consists of exactly the `(original, final)`
pairs of the rules resolved through the collision-suffix path — those
whose (possibly truncated) candidate name had already been used by an
earlier rule; each such pair has `final ≠ original`.  A rule whose name
changed only by truncation (candidate unused) contributes no pair. -/
theorem C5_renames_are_collision_pairs (rules : List PolicyRule) (maxLen : Nat)
    (h1 : 1 ≤ maxLen) :
    (buildUniquePolicyNames rules maxLen).2 =
      (List.range rules.length).filterMap (fun i =>
        if candidateOf maxLen (baseNameOf (rules.getD i default)) ∈
            (buildUniquePolicyNames rules maxLen).1.take i
        then some (baseNameOf (rules.getD i default),
               (buildUniquePolicyNames rules maxLen).1.getD i "")
        else none) ∧
    ∀ p ∈ (buildUniquePolicyNames rules maxLen).2, p.2 ≠ p.1 := by
  constructor
  · have h := buildGo_renames maxLen h1 rules [] (by simp)
    rw [buildUniquePolicyNames]
    rw [h]
    refine filterMap_congr_mem _ _ _ ?_
    intro i _
    rw [List.append_nil]
  · exact buildGo_renames_ne maxLen h1 rules [] (by simp)

/-- **C5 witness.** -/
theorem C5_renames_are_collision_pairs_witness :
    ((buildUniquePolicyNames [(⟨[("name", "a")], "F1"⟩ : PolicyRule),
        ⟨[("name", "a")], "F2"⟩] 35).2 =
      (List.range 2).filterMap (fun i =>
        if candidateOf 35 (baseNameOf ([(⟨[("name", "a")], "F1"⟩ : PolicyRule),
            ⟨[("name", "a")], "F2"⟩].getD i default)) ∈
            (buildUniquePolicyNames [(⟨[("name", "a")], "F1"⟩ : PolicyRule),
              ⟨[("name", "a")], "F2"⟩] 35).1.take i
        then some (baseNameOf ([(⟨[("name", "a")], "F1"⟩ : PolicyRule),
               ⟨[("name", "a")], "F2"⟩].getD i default),
               (buildUniquePolicyNames [(⟨[("name", "a")], "F1"⟩ : PolicyRule),
                 ⟨[("name", "a")], "F2"⟩] 35).1.getD i "")
        else none)) ∧
    ∀ p ∈ (buildUniquePolicyNames [(⟨[("name", "a")], "F1"⟩ : PolicyRule),
        ⟨[("name", "a")], "F2"⟩] 35).2, p.2 ≠ p.1 :=
  C5_renames_are_collision_pairs [⟨[("name", "a")], "F1"⟩, ⟨[("name", "a")], "F2"⟩] 35
    (by decide)

/-- **C5 counterexample.** A rule renamed by truncation alone does not
appear in the renames list: a single rule named `"abcd"` with
`max_len = 3` is emitted as `"abc" ≠ "abcd"`, yet the renames list is
empty. -/
theorem C5_truncation_not_recorded :
    buildUniquePolicyNames [(⟨[("name", "abcd")], "F1"⟩ : PolicyRule)] 3 = (["abc"], []) ∧
    "abc" ≠ "abcd" := by decide

/-! ## C2: round-trip of the object generator and the config parser.

The development proceeds in layers: (1) `splitlines` undoes the
newline joins of `generate_fgt_cli`; (2) `_extract_blocks` recovers
exactly the emitted section bodies; (3) the two regexes evaluate as
expected on emitted `edit`/`set` lines and never fire elsewhere;
(4) `_parse_table` rebuilds each entry's key/value dict; (5) each
section parser rebuilds the original records. -/

theorem strData_ext (a b : String) (h : a.data = b.data) : a = b := by
  have h2 : String.mk a.data = String.mk b.data := congrArg String.mk h
  rwa [strMk_data, strMk_data] at h2

theorem data_joinSep_nl_cons_cons (a b : String) (r : List String) :
    (joinSep "\n" (a :: b :: r)).data = a.data ++ '\n' :: (joinSep "\n" (b :: r)).data := by
  rw [joinSep_cons_cons]
  simp [String.data_append]

theorem strApp_assoc (a b c : String) : a ++ b ++ c = a ++ (b ++ c) := by
  apply strData_ext
  simp [String.data_append]

theorem splitOnChar_join_tail (ts : List String) (h : ∀ t ∈ ts, '\n' ∉ t.data)
    (hne : ts ≠ []) :
    ∀ tail, splitOnChar '\n' ((joinSep "\n" ts).data ++ '\n' :: tail) =
      ts.map String.data ++ splitOnChar '\n' tail := by
  induction ts with
  | nil => intro tail; exact absurd rfl hne
  | cons t rest ih =>
    intro tail
    cases rest with
    | nil =>
      rw [show joinSep "\n" [t] = t from rfl]
      rw [splitOnChar_append_sep '\n' t.data tail (h t (List.mem_cons_self _ _))]
      rfl
    | cons t2 r2 =>
      rw [data_joinSep_nl_cons_cons]
      simp only [List.cons_append, List.append_assoc]
      rw [splitOnChar_append_sep '\n' t.data _ (h t (List.mem_cons_self _ _))]
      rw [ih (fun u hu => h u (List.mem_cons_of_mem _ hu)) (by simp) tail]
      rfl

theorem getLastD_concat_self {α : Type} (xs : List α) (x : α) :
    ∀ d, (xs ++ [x]).getLastD d = x := by
  induction xs with
  | nil => intro d; rfl
  | cons a t ih =>
    intro d
    rw [List.cons_append, List.getLastD_cons]
    exact ih a

/-- `splitlines` undoes joining newline-free lines with `"\n"` and a
final newline. -/
theorem pySplitlines_join (ls : List String) (hne : ls ≠ [])
    (h : ∀ l ∈ ls, '\n' ∉ l.data) :
    pySplitlines (joinSep "\n" ls ++ "\n") = ls := by
  have hdata : (joinSep "\n" ls ++ "\n").data = (joinSep "\n" ls).data ++ '\n' :: [] := by
    simp [String.data_append]
  rw [pySplitlines, hdata]
  rw [if_neg (by simp)]
  rw [splitOnChar_join_tail ls h hne []]
  rw [show splitOnChar '\n' [] = [[]] from rfl]
  show (if (ls.map String.data ++ [[]]).getLastD [] = []
    then (ls.map String.data ++ [[]]).dropLast
    else ls.map String.data ++ [[]]).map String.mk = ls
  rw [getLastD_concat_self (ls.map String.data) [] []]
  rw [if_pos rfl, List.dropLast_concat]
  exact map_mk_map_data ls

theorem joinSep_append_ne (sep : String) (xs ys : List String) (hx : xs ≠ [])
    (hy : ys ≠ []) :
    joinSep sep (xs ++ ys) = joinSep sep xs ++ sep ++ joinSep sep ys := by
  induction xs with
  | nil => exact absurd rfl hx
  | cons x xt ih =>
    cases xt with
    | nil =>
      cases ys with
      | nil => exact absurd rfl hy
      | cons y yt => rw [List.singleton_append, joinSep_cons_cons]; rfl
    | cons x2 xt2 =>
      have ihh := ih (by simp)
      rw [show (x :: x2 :: xt2) ++ ys = x :: (x2 :: (xt2 ++ ys)) from rfl]
      rw [joinSep_cons_cons, show x2 :: (xt2 ++ ys) = (x2 :: xt2) ++ ys from rfl, ihh]
      rw [joinSep_cons_cons]
      apply strData_ext
      simp [String.data_append]

/-- Joining sections that each end with a newline flattens to joining
all lines with blank separators, with one final newline. -/
theorem sections_flatten (B : List String) (blocks : List (List String)) (hB : B ≠ [])
    (hblocks : ∀ x ∈ blocks, x ≠ []) :
    joinSep "\n" ((joinSep "\n" B ++ "\n") :: blocks.map (fun b => joinSep "\n" b ++ "\n")) =
      joinSep "\n" (B ++ blocks.flatMap (fun b => "" :: b)) ++ "\n" := by
  induction blocks generalizing B with
  | nil => simp [joinSep]
  | cons b bs ih =>
    have hb : b ≠ [] := hblocks b (List.mem_cons_self _ _)
    have ihh := ih (B ++ "" :: b) (by simp) (fun x hx => hblocks x (List.mem_cons_of_mem _ hx))
    rw [joinSep_append_ne "\n" B ("" :: b) hB (by simp)] at ihh
    have hflat : B ++ (b :: bs).flatMap (fun x => "" :: x) =
        (B ++ "" :: b) ++ bs.flatMap (fun x => "" :: x) := by
      simp [List.flatMap_cons, List.append_assoc]
    rw [List.map_cons, hflat, ← ihh]
    obtain ⟨b0, bt, rfl⟩ : ∃ b0 bt, b = b0 :: bt := by
      cases b with
      | nil => exact absurd rfl hb
      | cons b0 bt => exact ⟨b0, bt, rfl⟩
    cases hm : List.map (fun x => joinSep "\n" x ++ "\n") bs with
    | nil =>
      rw [joinSep_cons_cons]
      rw [show joinSep "\n" [joinSep "\n" B ++ "\n" ++ joinSep "\n" ("" :: b0 :: bt) ++ "\n"] =
        joinSep "\n" B ++ "\n" ++ joinSep "\n" ("" :: b0 :: bt) ++ "\n" from rfl]
      rw [joinSep_cons_cons "\n" "" b0 bt]
      apply strData_ext
      simp [String.data_append, joinSep]
    | cons m ms =>
      rw [joinSep_cons_cons, joinSep_cons_cons, joinSep_cons_cons]
      rw [joinSep_cons_cons "\n" "" b0 bt]
      apply strData_ext
      simp [String.data_append]

/-! ### Whitespace-stripping of emitted lines -/

theorem takeWhile_append_all {α : Type} (p : α → Bool) (a b : List α)
    (h : ∀ x ∈ a, p x = true) : (a ++ b).takeWhile p = a ++ b.takeWhile p := by
  induction a with
  | nil => rfl
  | cons x t ih =>
    simp only [List.cons_append, List.takeWhile_cons, h x (List.mem_cons_self _ _)]
    rw [ih (fun y hy => h y (List.mem_cons_of_mem _ hy))]
    simp

theorem dropWhile_append_all {α : Type} (p : α → Bool) (a b : List α)
    (h : ∀ x ∈ a, p x = true) : (a ++ b).dropWhile p = b.dropWhile p := by
  induction a with
  | nil => rfl
  | cons x t ih =>
    simp only [List.cons_append, List.dropWhile_cons, h x (List.mem_cons_self _ _)]
    exact ih (fun y hy => h y (List.mem_cons_of_mem _ hy))

theorem takeWhile_head_false {α : Type} (p : α → Bool) (x : α) (t : List α)
    (h : p x = false) : (x :: t).takeWhile p = [] := by
  simp [List.takeWhile_cons, h]

theorem dropWhile_head_false {α : Type} (p : α → Bool) (x : α) (t : List α)
    (h : p x = false) : (x :: t).dropWhile p = x :: t := by
  simp [List.dropWhile_cons, h]

theorem getLast?_concat_self {α : Type} (xs : List α) (x : α) :
    (xs ++ [x]).getLast? = some x := by
  induction xs with
  | nil => rfl
  | cons a t ih =>
    rw [List.cons_append, List.getLast?_cons, ih]
    rfl

theorem stripChars_pad (sp m : List Char) (hsp : ∀ c ∈ sp, isSpaceChar c = true)
    (hm : m ≠ []) (hh : ∀ c, m.head? = some c → isSpaceChar c = false)
    (hl : ∀ c, m.getLast? = some c → isSpaceChar c = false) :
    stripChars (sp ++ m) = m := by
  rw [stripChars, dropWhile_append_all _ sp m hsp]
  obtain ⟨c, t, rfl⟩ : ∃ c t, m = c :: t := by
    cases m with
    | nil => exact absurd rfl hm
    | cons c t => exact ⟨c, t, rfl⟩
  rw [dropWhile_head_false _ _ _ (hh c rfl)]
  obtain ⟨d, r, hrev⟩ : ∃ d r, (c :: t).reverse = d :: r := by
    cases hrv : (c :: t).reverse with
    | nil =>
      have := congrArg List.length hrv
      simp at this
    | cons d r => exact ⟨d, r, rfl⟩
  rw [hrev]
  have hd : isSpaceChar d = false := by
    apply hl
    rw [← List.head?_reverse, hrev]
    rfl
  rw [dropWhile_head_false _ _ _ hd, ← hrev, List.reverse_reverse]

/-- `str.strip()` removes exactly the indentation of an emitted line. -/
theorem pyStrip_pad (ind core : String) (hind : ∀ c ∈ ind.data, isSpaceChar c = true)
    (hne : core.data ≠ [])
    (hh : ∀ c, core.data.head? = some c → isSpaceChar c = false)
    (hl : ∀ c, core.data.getLast? = some c → isSpaceChar c = false) :
    pyStrip (ind ++ core) = core := by
  rw [pyStrip, show (ind ++ core).data = ind.data ++ core.data from by simp [String.data_append]]
  rw [stripChars_pad _ _ hind hne hh hl]

/-! ### The quoting helper `_q` on quote-free names -/

/-- A clean token for the round-trip: nonempty, whitespace-free
(hence newline-free) and free of double quotes. -/
def CleanName (s : String) : Prop :=
  s.data ≠ [] ∧ ∀ c ∈ s.data, isSpaceChar c = false ∧ c ≠ '"'

instance (s : String) : Decidable (CleanName s) := by
  rw [CleanName]
  infer_instance

theorem escape_id (nm : String) (h : ∀ c ∈ nm.data, c ≠ '"') :
    nm.data.map (fun c => if c = '"' then '\'' else c) = nm.data := by
  have h2 : ∀ c ∈ nm.data, (fun c => if c = '"' then '\'' else c) c = id c :=
    fun c hc => if_neg (h c hc)
  rw [List.map_congr_left h2, List.map_id]

theorem qName_data (nm : String) (h : ∀ c ∈ nm.data, c ≠ '"') :
    (qName nm).data = '"' :: nm.data ++ ['"'] := by
  rw [qName]
  simp only [String.data_append]
  rw [escape_id nm h]
  rfl

/-! ### The `edit` regex on emitted lines -/

theorem head?_append_ne {α : Type} (a b : List α) (ha : a ≠ []) :
    (a ++ b).head? = a.head? := by
  cases a with
  | nil => exact absurd rfl ha
  | cons x t => rfl

theorem getLast?_append_ne {α : Type} (a b : List α) (hb : b ≠ []) :
    (a ++ b).getLast? = b.getLast? := by
  rw [← List.head?_reverse, ← List.head?_reverse, List.reverse_append]
  exact head?_append_ne _ _ (by simpa using hb)

theorem mem_of_getLast?_eq {α : Type} {l : List α} {a : α} (h : l.getLast? = some a) :
    a ∈ l := by
  rw [← List.head?_reverse] at h
  rw [← List.mem_reverse]
  cases hl : l.reverse with
  | nil => rw [hl] at h; exact absurd h (by simp)
  | cons x t =>
    rw [hl] at h
    injection h with h2
    exact h2 ▸ List.mem_cons_self _ _

/-- The head-shape case analysis of `editAt`. -/
theorem editAt_cases (l : List Char) :
    editAt l = none ∨ ∃ c rest, l = 'e' :: 'd' :: 'i' :: 't' :: c :: rest ∧
      isSpaceChar c = true ∧ editAt l = afterEditWs (c :: rest) := by
  rcases l with _ | ⟨a, _ | ⟨b, _ | ⟨c, _ | ⟨d, _ | ⟨e, rest⟩⟩⟩⟩⟩
  · exact Or.inl rfl
  all_goals try
    first
    | (left
       rw [editAt.eq_def]
       split
       · rename_i heq
         simp at heq
       · rfl)
  · by_cases ha : a = 'e'
    · by_cases hb : b = 'd'
      · by_cases hc : c = 'i'
        · by_cases hd : d = 't'
          · subst ha; subst hb; subst hc; subst hd
            by_cases he : isSpaceChar e = true
            · refine Or.inr ⟨e, rest, rfl, he, ?_⟩
              show (if isSpaceChar e then afterEditWs (e :: rest) else none) =
                afterEditWs (e :: rest)
              rw [he]
              rfl
            · left
              show (if isSpaceChar e then afterEditWs (e :: rest) else none) = none
              rw [Bool.not_eq_true] at he
              rw [he]
              rfl
          · left
            rw [editAt.eq_def]
            split
            · rename_i heq
              rw [List.cons.injEq, List.cons.injEq, List.cons.injEq, List.cons.injEq] at heq
              exact absurd heq.2.2.2.1 hd
            · rfl
        · left
          rw [editAt.eq_def]
          split
          · rename_i heq
            rw [List.cons.injEq, List.cons.injEq, List.cons.injEq] at heq
            exact absurd heq.2.2.1 hc
          · rfl
      · left
        rw [editAt.eq_def]
        split
        · rename_i heq
          rw [List.cons.injEq, List.cons.injEq] at heq
          exact absurd heq.2.1 hb
        · rfl
    · left
      rw [editAt.eq_def]
      split
      · rename_i heq
        rw [List.cons.injEq] at heq
        exact absurd heq.1 ha
      · rfl

theorem editScan_pos (c : Char) (rest : List Char) (cap : List Char)
    (h : editAt (c :: rest) = some cap) : editScan (c :: rest) true = some cap := by
  rw [show editScan (c :: rest) true = (match editAt (c :: rest) with
    | some cap => some cap
    | none => editScan rest (!isWordChar c)) from rfl, h]

theorem editScan_step (c : Char) (rest : List Char) (b : Bool)
    (h : editAt (c :: rest) = none) : editScan (c :: rest) b = editScan rest (!isWordChar c) := by
  cases b
  · rfl
  · rw [show editScan (c :: rest) true = (match editAt (c :: rest) with
      | some cap => some cap
      | none => editScan rest (!isWordChar c)) from rfl, h]

theorem dropWhile_ne_quote_all (l : List Char) (h : '"' ∉ l) :
    l.dropWhile (· ≠ '"') = [] := by
  induction l with
  | nil => rfl
  | cons c t ih =>
    have hc : c ≠ '"' := fun hcq => h (hcq ▸ List.mem_cons_self _ _)
    rw [List.dropWhile_cons]
    rw [if_pos (by simpa using hc)]
    exact ih (fun hmem => h (List.mem_cons_of_mem _ hmem))

theorem captureNonQuote_no_quote (l : List Char) (h : '"' ∉ l) :
    captureNonQuote l = none := by
  simp only [captureNonQuote]
  rw [dropWhile_ne_quote_all l h]

theorem afterEditWs_no_quote (l : List Char) (h : '"' ∉ l) :
    afterEditWs l = none := by
  induction l with
  | nil => rfl
  | cons c t ih =>
    have hc : c ≠ '"' := fun hcq => h (hcq ▸ List.mem_cons_self _ _)
    have ht := ih (fun hmem => h (List.mem_cons_of_mem _ hmem))
    by_cases hsp : isSpaceChar c = true
    · simp [afterEditWs, hsp, ht]
    · rw [Bool.not_eq_true] at hsp
      simp [afterEditWs, hsp, hc]

/-- `editScan` never fires when every suffix fails `editAt`. -/
theorem editScan_none_of_suffixes (l : List Char)
    (h : ∀ s, s <:+ l → editAt s = none) : ∀ b, editScan l b = none := by
  induction l with
  | nil => intro b; rfl
  | cons c t ih =>
    intro b
    rw [editScan_step c t b (h (c :: t) (List.suffix_refl _))]
    exact ih (fun s hs => h s (hs.trans (List.suffix_cons c t))) _

/-- On a quote-free string the `edit` regex never matches. -/
theorem reEditSearch_no_quote (s : String) (h : '"' ∉ s.data) :
    reEditSearch s = none := by
  rw [reEditSearch]
  rw [editScan_none_of_suffixes s.data ?_ true]
  · rfl
  · intro sfx hsfx
    have hq : '"' ∉ sfx := fun hmem => h (hsfx.subset hmem)
    rcases editAt_cases sfx with hnone | ⟨c, rest, hshape, hsp, heval⟩
    · exact hnone
    · rw [heval]
      apply afterEditWs_no_quote
      intro hmem
      exact hq (hshape ▸ List.mem_cons_of_mem _ (List.mem_cons_of_mem _
        (List.mem_cons_of_mem _ (List.mem_cons_of_mem _ hmem))))

theorem captureNonQuote_pos (t tail : List Char) (hne : t ≠ [])
    (h : ∀ c ∈ t, c ≠ '"') : captureNonQuote (t ++ '"' :: tail) = some t := by
  obtain ⟨c0, t0, rfl⟩ : ∃ c0 t0, t = c0 :: t0 := by
    cases t with
    | nil => exact absurd rfl hne
    | cons c0 t0 => exact ⟨c0, t0, rfl⟩
  have htw : ((c0 :: t0) ++ '"' :: tail).takeWhile (· ≠ '"') = c0 :: t0 := by
    rw [takeWhile_append_all _ _ _ (fun x hx => by simpa using h x hx)]
    rw [takeWhile_head_false _ _ _ (by simp)]
    simp
  have hdw : ((c0 :: t0) ++ '"' :: tail).dropWhile (· ≠ '"') = '"' :: tail := by
    rw [dropWhile_append_all _ _ _ (fun x hx => by simpa using h x hx)]
    exact dropWhile_head_false _ _ _ (by simp)
  simp only [captureNonQuote]
  rw [htw, hdw]
  rfl

/-- The `edit` regex on an emitted `edit "name"` line captures exactly
the name. -/
theorem reEditSearch_edit_line (nm : String) (h : CleanName nm) :
    reEditSearch ("edit " ++ qName nm) = some nm := by
  have hq := qName_data nm (fun c hc => (h.2 c hc).2)
  have hdata : ("edit " ++ qName nm).data =
      'e' :: 'd' :: 'i' :: 't' :: ' ' :: '"' :: (nm.data ++ ['"']) := by
    rw [show ("edit " ++ qName nm).data = ("edit " : String).data ++ (qName nm).data from by
      simp [String.data_append]]
    rw [hq]
    rfl
  have hcap : captureNonQuote (nm.data ++ ['"']) = some nm.data :=
    captureNonQuote_pos nm.data [] h.1 (fun c hc => (h.2 c hc).2)
  have hat : editAt ('e' :: 'd' :: 'i' :: 't' :: ' ' :: '"' :: (nm.data ++ ['"'])) =
      some nm.data := by
    show (if isSpaceChar ' ' then afterEditWs (' ' :: '"' :: (nm.data ++ ['"'])) else none) =
      some nm.data
    show afterEditWs (' ' :: '"' :: (nm.data ++ ['"'])) = some nm.data
    show afterEditWs ('"' :: (nm.data ++ ['"'])) = some nm.data
    show captureNonQuote (nm.data ++ ['"']) = some nm.data
    exact hcap
  rw [reEditSearch, hdata, editScan_pos _ _ _ hat]
  rfl

/-- No suffix of a clean token followed by a closing quote matches
`editAt`: the pattern would need a space right after `edit`. -/
theorem editAt_tok_none (tk tail : List Char)
    (htk : ∀ c ∈ tk, isSpaceChar c = false ∧ c ≠ '"') :
    editAt (tk ++ '"' :: tail) = none := by
  rcases editAt_cases (tk ++ '"' :: tail) with hnone | ⟨c, rest, hshape, hsp, _⟩
  · exact hnone
  · exfalso
    rcases tk with _ | ⟨a1, _ | ⟨a2, _ | ⟨a3, _ | ⟨a4, _ | ⟨a5, tk5⟩⟩⟩⟩⟩ <;>
      simp only [List.nil_append, List.cons_append] at hshape
    · rw [List.cons.injEq] at hshape
      exact absurd hshape.1 (by decide)
    · rw [List.cons.injEq, List.cons.injEq] at hshape
      exact absurd hshape.2.1 (by decide)
    · rw [List.cons.injEq, List.cons.injEq, List.cons.injEq] at hshape
      exact absurd hshape.2.2.1 (by decide)
    · rw [List.cons.injEq, List.cons.injEq, List.cons.injEq, List.cons.injEq] at hshape
      exact absurd hshape.2.2.2.1 (by decide)
    · rw [List.cons.injEq, List.cons.injEq, List.cons.injEq, List.cons.injEq,
        List.cons.injEq] at hshape
      rw [← hshape.2.2.2.2.1] at hsp
      exact absurd hsp (by decide)
    · rw [List.cons.injEq, List.cons.injEq, List.cons.injEq, List.cons.injEq,
        List.cons.injEq] at hshape
      rw [← hshape.2.2.2.2.1] at hsp
      rw [(htk a5 (by simp)).1] at hsp
      exact absurd hsp (by decide)

/-- Scanning a clean token closed by a quote just walks through. -/
theorem editScan_tok (tk tail : List Char)
    (htk : ∀ c ∈ tk, isSpaceChar c = false ∧ c ≠ '"') (b : Bool) :
    editScan (tk ++ '"' :: tail) b = editScan tail true := by
  induction tk generalizing b with
  | nil =>
    rw [List.nil_append]
    rw [editScan_step _ _ _ (editAt_tok_none [] tail (by simp))]
    rfl
  | cons a tk ih =>
    rw [List.cons_append]
    rw [editScan_step _ _ _ (by
      rw [← List.cons_append]
      exact editAt_tok_none (a :: tk) tail htk)]
    exact ih (fun c hc => htk c (List.mem_cons_of_mem _ hc)) _

/-- Scanning one quoted clean name walks through to the tail with the
boundary flag set. -/
theorem editScan_qName (nm : String) (tail : List Char) (h : CleanName nm) (b : Bool) :
    editScan ((qName nm).data ++ tail) b = editScan tail true := by
  rw [qName_data nm (fun c hc => (h.2 c hc).2)]
  rw [show ('"' :: nm.data ++ ['"']) ++ tail = '"' :: (nm.data ++ '"' :: tail) from by simp]
  rw [editScan_step _ _ _ (by
    rcases editAt_cases ('"' :: (nm.data ++ '"' :: tail)) with hnone | ⟨c, rest, hshape, _, _⟩
    · exact hnone
    · rw [List.cons.injEq] at hshape
      exact absurd hshape.1 (by decide))]
  rw [editScan_tok nm.data tail h.2]

/-- Scanning a space-joined list of quoted clean names walks through. -/
theorem editScan_qJoin (toks : List String) (tail : List Char)
    (h : ∀ t ∈ toks, CleanName t) (hne : toks ≠ []) (b : Bool) :
    editScan ((joinSep " " (toks.map qName)).data ++ tail) b = editScan tail true := by
  induction toks generalizing b with
  | nil => exact absurd rfl hne
  | cons t rest ih =>
    cases rest with
    | nil =>
      rw [show joinSep " " ([t].map qName) = qName t from rfl]
      exact editScan_qName t tail (h t (List.mem_cons_self _ _)) b
    | cons t2 r2 =>
      rw [List.map_cons, List.map_cons, data_joinSep_space_cons_cons]
      rw [show (qName t).data ++ ' ' :: (joinSep " " (qName t2 :: r2.map qName)).data ++ tail =
        (qName t).data ++ (' ' :: ((joinSep " " (qName t2 :: r2.map qName)).data ++ tail)) from by
          simp]
      rw [editScan_qName t _ (h t (List.mem_cons_self _ _)) b]
      rw [editScan_step _ _ _ (by
        rcases editAt_cases (' ' :: ((joinSep " " (qName t2 :: r2.map qName)).data ++ tail)) with
          hnone | ⟨c, rest', hshape, _, _⟩
        · exact hnone
        · rw [List.cons.injEq] at hshape
          exact absurd hshape.1 (by decide))]
      have ih2 := ih (fun u hu => h u (List.mem_cons_of_mem _ hu)) (by simp) (!isWordChar ' ')
      rw [List.map_cons] at ih2
      exact ih2

/-! ### The `set` regex on emitted lines -/

theorem editAt_ne_head (c : Char) (rest : List Char) (h : c ≠ 'e') :
    editAt (c :: rest) = none := by
  rcases editAt_cases (c :: rest) with hnone | ⟨c', r', hshape, _, _⟩
  · exact hnone
  · rw [List.cons.injEq] at hshape
    exact absurd hshape.1 h

theorem editAt_ne_second (c2 : Char) (rest : List Char) (h : c2 ≠ 'd') :
    editAt ('e' :: c2 :: rest) = none := by
  rcases editAt_cases ('e' :: c2 :: rest) with hnone | ⟨c', r', hshape, _, _⟩
  · exact hnone
  · rw [List.cons.injEq, List.cons.injEq] at hshape
    exact absurd hshape.2.1 h

theorem editAt_ne_fourth (c4 : Char) (rest : List Char) (h : c4 ≠ 't') :
    editAt ('e' :: 'd' :: 'i' :: c4 :: rest) = none := by
  rcases editAt_cases ('e' :: 'd' :: 'i' :: c4 :: rest) with hnone | ⟨c', r', hshape, _, _⟩
  · exact hnone
  · rw [List.cons.injEq, List.cons.injEq, List.cons.injEq, List.cons.injEq] at hshape
    exact absurd hshape.2.2.2.1 h

theorem editScan_pfx_comment (rest : List Char) (b : Bool) :
    editScan (("set comment " : String).data ++ rest) b = editScan rest true := by
  rw [show ("set comment " : String).data =
    ['s', 'e', 't', ' ', 'c', 'o', 'm', 'm', 'e', 'n', 't', ' '] from rfl]
  simp only [List.cons_append, List.nil_append]
  rw [editScan_step _ _ _ (editAt_ne_head _ _ (by decide))]
  rw [editScan_step _ _ _ (editAt_ne_second _ _ (by decide))]
  rw [editScan_step _ _ _ (editAt_ne_head _ _ (by decide))]
  rw [editScan_step _ _ _ (editAt_ne_head _ _ (by decide))]
  rw [editScan_step _ _ _ (editAt_ne_head _ _ (by decide))]
  rw [editScan_step _ _ _ (editAt_ne_head _ _ (by decide))]
  rw [editScan_step _ _ _ (editAt_ne_head _ _ (by decide))]
  rw [editScan_step _ _ _ (editAt_ne_head _ _ (by decide))]
  rw [editScan_step _ _ _ (editAt_ne_second _ _ (by decide))]
  rw [editScan_step _ _ _ (editAt_ne_head _ _ (by decide))]
  rw [editScan_step _ _ _ (editAt_ne_head _ _ (by decide))]
  rw [editScan_step _ _ _ (editAt_ne_head _ _ (by decide))]
  rfl

theorem editScan_pfx_member (rest : List Char) (b : Bool) :
    editScan (("set member " : String).data ++ rest) b = editScan rest true := by
  rw [show ("set member " : String).data =
    ['s', 'e', 't', ' ', 'm', 'e', 'm', 'b', 'e', 'r', ' '] from rfl]
  simp only [List.cons_append, List.nil_append]
  rw [editScan_step _ _ _ (editAt_ne_head _ _ (by decide))]
  rw [editScan_step _ _ _ (editAt_ne_second _ _ (by decide))]
  rw [editScan_step _ _ _ (editAt_ne_head _ _ (by decide))]
  rw [editScan_step _ _ _ (editAt_ne_head _ _ (by decide))]
  rw [editScan_step _ _ _ (editAt_ne_head _ _ (by decide))]
  rw [editScan_step _ _ _ (editAt_ne_second _ _ (by decide))]
  rw [editScan_step _ _ _ (editAt_ne_head _ _ (by decide))]
  rw [editScan_step _ _ _ (editAt_ne_head _ _ (by decide))]
  rw [editScan_step _ _ _ (editAt_ne_second _ _ (by decide))]
  rw [editScan_step _ _ _ (editAt_ne_head _ _ (by decide))]
  rw [editScan_step _ _ _ (editAt_ne_head _ _ (by decide))]
  rfl

theorem editScan_pfx_mappedip (rest : List Char) (b : Bool) :
    editScan (("set mappedip " : String).data ++ rest) b = editScan rest true := by
  rw [show ("set mappedip " : String).data =
    ['s', 'e', 't', ' ', 'm', 'a', 'p', 'p', 'e', 'd', 'i', 'p', ' '] from rfl]
  simp only [List.cons_append, List.nil_append]
  rw [editScan_step _ _ _ (editAt_ne_head _ _ (by decide))]
  rw [editScan_step _ _ _ (editAt_ne_second _ _ (by decide))]
  rw [editScan_step _ _ _ (editAt_ne_head _ _ (by decide))]
  rw [editScan_step _ _ _ (editAt_ne_head _ _ (by decide))]
  rw [editScan_step _ _ _ (editAt_ne_head _ _ (by decide))]
  rw [editScan_step _ _ _ (editAt_ne_head _ _ (by decide))]
  rw [editScan_step _ _ _ (editAt_ne_head _ _ (by decide))]
  rw [editScan_step _ _ _ (editAt_ne_head _ _ (by decide))]
  rw [editScan_step _ _ _ (editAt_ne_fourth _ _ (by decide))]
  rw [editScan_step _ _ _ (editAt_ne_head _ _ (by decide))]
  rw [editScan_step _ _ _ (editAt_ne_head _ _ (by decide))]
  rw [editScan_step _ _ _ (editAt_ne_head _ _ (by decide))]
  rw [editScan_step _ _ _ (editAt_ne_head _ _ (by decide))]
  rfl

theorem editScan_pfx_extintf (rest : List Char) (b : Bool) :
    editScan (("set extintf " : String).data ++ rest) b = editScan rest true := by
  rw [show ("set extintf " : String).data =
    ['s', 'e', 't', ' ', 'e', 'x', 't', 'i', 'n', 't', 'f', ' '] from rfl]
  simp only [List.cons_append, List.nil_append]
  rw [editScan_step _ _ _ (editAt_ne_head _ _ (by decide))]
  rw [editScan_step _ _ _ (editAt_ne_second _ _ (by decide))]
  rw [editScan_step _ _ _ (editAt_ne_head _ _ (by decide))]
  rw [editScan_step _ _ _ (editAt_ne_head _ _ (by decide))]
  rw [editScan_step _ _ _ (editAt_ne_second _ _ (by decide))]
  rw [editScan_step _ _ _ (editAt_ne_head _ _ (by decide))]
  rw [editScan_step _ _ _ (editAt_ne_head _ _ (by decide))]
  rw [editScan_step _ _ _ (editAt_ne_head _ _ (by decide))]
  rw [editScan_step _ _ _ (editAt_ne_head _ _ (by decide))]
  rw [editScan_step _ _ _ (editAt_ne_head _ _ (by decide))]
  rw [editScan_step _ _ _ (editAt_ne_head _ _ (by decide))]
  rw [editScan_step _ _ _ (editAt_ne_head _ _ (by decide))]
  rfl

/-- The `set` regex on an emitted `set key value` line captures the key
and the whole remaining value. -/
theorem reSetSearch_set_line (k v : String)
    (hkne : k.data ≠ []) (hk : ∀ c ∈ k.data, isSpaceChar c = false)
    (hvne : v.data ≠ []) (hvh : ∀ c, v.data.head? = some c → isSpaceChar c = false) :
    reSetSearch ("set " ++ k ++ " " ++ v) = some (k, v) := by
  obtain ⟨kc, kt, hk2⟩ : ∃ kc kt, k.data = kc :: kt := by
    cases hkd : k.data with
    | nil => exact absurd hkd hkne
    | cons kc kt => exact ⟨kc, kt, rfl⟩
  obtain ⟨vc, vt, hv2⟩ : ∃ vc vt, v.data = vc :: vt := by
    cases hvd : v.data with
    | nil => exact absurd hvd hvne
    | cons vc vt => exact ⟨vc, vt, rfl⟩
  have hkc : isSpaceChar kc = false := hk kc (hk2 ▸ List.mem_cons_self _ _)
  have hvc : isSpaceChar vc = false := hvh vc (by rw [hv2]; rfl)
  have hdata : ("set " ++ k ++ " " ++ v).data =
      's' :: 'e' :: 't' :: ' ' :: (k.data ++ ' ' :: v.data) := by
    simp only [String.data_append]
    simp [List.append_assoc]
  have hws1 : (' ' :: (k.data ++ ' ' :: v.data)).takeWhile isSpaceChar =
      ' ' :: ([] : List Char) := by
    rw [List.takeWhile_cons, if_pos (by decide)]
    rw [hk2, List.cons_append, takeWhile_head_false _ _ _ hkc]
  have hr1 : (' ' :: (k.data ++ ' ' :: v.data)).dropWhile isSpaceChar =
      k.data ++ ' ' :: v.data := by
    rw [List.dropWhile_cons, if_pos (by decide)]
    rw [hk2, List.cons_append, dropWhile_head_false _ _ _ hkc]
  have hkey : (k.data ++ ' ' :: v.data).takeWhile (fun c => !isSpaceChar c) = k.data := by
    rw [takeWhile_append_all _ _ _ (fun x hx => by rw [hk x hx]; rfl)]
    rw [takeWhile_head_false _ _ _ (by decide)]
    simp
  have hr2 : (k.data ++ ' ' :: v.data).dropWhile (fun c => !isSpaceChar c) =
      ' ' :: v.data := by
    rw [dropWhile_append_all _ _ _ (fun x hx => by rw [hk x hx]; rfl)]
    exact dropWhile_head_false _ _ _ (by decide)
  have hws2 : (' ' :: v.data).takeWhile isSpaceChar = ' ' :: ([] : List Char) := by
    rw [List.takeWhile_cons, if_pos (by decide)]
    rw [hv2, takeWhile_head_false _ _ _ hvc]
  have hr3 : (' ' :: v.data).dropWhile isSpaceChar = v.data := by
    rw [List.dropWhile_cons, if_pos (by decide)]
    rw [hv2, dropWhile_head_false _ _ _ hvc]
  have hsa : setAfter (' ' :: (k.data ++ ' ' :: v.data)) = some (k.data, v.data) := by
    simp only [setAfter]
    rw [hws1, hr1, hkey, hr2, hws2, hr3]
    rw [if_neg (by simp)]
    rw [if_neg (by rw [hk2]; simp)]
    rw [if_neg (by simp)]
    rw [if_pos (by rw [hv2]; simp)]
  have hscan : setScan ('s' :: 'e' :: 't' :: ' ' :: (k.data ++ ' ' :: v.data)) true =
      some (k.data, v.data) := by
    rw [show setScan ('s' :: 'e' :: 't' :: ' ' :: (k.data ++ ' ' :: v.data)) true =
      (match setAt ('s' :: 'e' :: 't' :: ' ' :: (k.data ++ ' ' :: v.data)) with
       | some kv => some kv
       | none => setScan ('e' :: 't' :: ' ' :: (k.data ++ ' ' :: v.data)) (!isWordChar 's'))
      from rfl]
    rw [show setAt ('s' :: 'e' :: 't' :: ' ' :: (k.data ++ ' ' :: v.data)) =
      setAfter (' ' :: (k.data ++ ' ' :: v.data)) from rfl]
    rw [hsa]
  rw [reSetSearch, hdata, hscan]
  rfl

/-! ### Dict update lemmas -/

theorem dset_dset_self {α : Type} (d : Dict α) (k : String) (v w : α) :
    dset (dset d k v) k w = dset d k w := by
  induction d with
  | nil => simp [dset]
  | cons kv t ih =>
    obtain ⟨k2, v2⟩ := kv
    by_cases hk : k2 = k
    · simp [dset, hk]
    · simp only [dset, hk, if_false, if_neg hk]
      rw [ih]

theorem dset_self_of_lookup {α : Type} (d : Dict α) (k : String) (v : α)
    (h : dlookup d k = some v) : dset d k v = d := by
  induction d with
  | nil => simp [dlookup] at h
  | cons kv t ih =>
    obtain ⟨k2, v2⟩ := kv
    by_cases hk : k2 = k
    · rw [dlookup, if_pos hk] at h
      injection h with h2
      simp [dset, hk, h2]
    · rw [dlookup, if_neg hk] at h
      simp only [dset, hk, if_false, if_neg hk]
      rw [ih h]

theorem dset_fresh {α : Type} (d : Dict α) (k : String) (v : α) (h : k ∉ dkeys d) :
    dset d k v = d ++ [(k, v)] := by
  induction d with
  | nil => rfl
  | cons kv t ih =>
    obtain ⟨k2, v2⟩ := kv
    have hk : ¬k2 = k := by
      intro heq
      exact h (heq ▸ List.mem_cons_self _ _)
    simp only [dset, hk, if_false, if_neg hk, List.cons_append]
    rw [ih (fun hm => h (List.mem_cons_of_mem _ hm))]

/-- `str.strip()` is the identity on a clean token. -/
theorem pyStrip_clean_id (s : String) (h : CleanName s) : pyStrip s = s := by
  have h2 := stripChars_pad [] s.data (by simp) h.1
    (fun c hc => (h.2 c (by
      cases hd : s.data with
      | nil => rw [hd] at hc; exact absurd hc (by simp)
      | cons x t =>
        rw [hd] at hc
        injection hc with h3
        rw [h3]
        exact List.mem_cons_self _ _)).1)
    (fun c hc => (h.2 c (mem_of_getLast?_eq hc)).1)
  rw [List.nil_append] at h2
  rw [pyStrip, h2]

theorem edit_core_data (nm : String) (h : CleanName nm) :
    ("edit " ++ qName nm).data = 'e' :: 'd' :: 'i' :: 't' :: ' ' :: '"' :: (nm.data ++ ['"']) := by
  rw [show ("edit " ++ qName nm).data = ("edit " : String).data ++ (qName nm).data from by
    simp [String.data_append]]
  rw [qName_data nm (fun c hc => (h.2 c hc).2)]
  rfl

/-- Stripping an emitted `edit` line. -/
theorem pyStrip_edit_line (nm : String) (h : CleanName nm) :
    pyStrip ("    edit " ++ qName nm) = "edit " ++ qName nm := by
  have hsplit : "    edit " ++ qName nm = "    " ++ ("edit " ++ qName nm) := by
    apply strData_ext
    simp [String.data_append]
  rw [hsplit]
  apply pyStrip_pad
  · intro c hc
    rw [show ("    " : String).data = [' ', ' ', ' ', ' '] from rfl] at hc
    simp at hc
    rw [hc]
    rfl
  · rw [edit_core_data nm h]
    simp
  · intro c hc
    rw [edit_core_data nm h] at hc
    injection hc with h2
    rw [← h2]
    rfl
  · intro c hc
    rw [edit_core_data nm h] at hc
    rw [show 'e' :: 'd' :: 'i' :: 't' :: ' ' :: '"' :: (nm.data ++ ['"']) =
      ('e' :: 'd' :: 'i' :: 't' :: ' ' :: '"' :: nm.data) ++ ['"'] from by simp] at hc
    rw [getLast?_concat_self] at hc
    injection hc with h2
    rw [← h2]
    rfl

/-- Stripping an emitted `set` line, given head and last of the core. -/
theorem pyStrip_set_line (k v : String)
    (hkne : k.data ≠ []) (hk : ∀ c ∈ k.data, isSpaceChar c = false)
    (hvne : v.data ≠ [])
    (hvl : ∀ c, v.data.getLast? = some c → isSpaceChar c = false) :
    pyStrip ("        " ++ ("set " ++ k ++ " " ++ v)) = "set " ++ k ++ " " ++ v := by
  apply pyStrip_pad
  · intro c hc
    rw [show ("        " : String).data =
      [' ', ' ', ' ', ' ', ' ', ' ', ' ', ' '] from rfl] at hc
    simp at hc
    rw [hc]
    rfl
  · rw [show ("set " ++ k ++ " " ++ v).data =
      ("set " : String).data ++ k.data ++ (" " : String).data ++ v.data from by
        simp [String.data_append]]
    simp
  · intro c hc
    rw [show ("set " ++ k ++ " " ++ v).data =
      ("set " : String).data ++ k.data ++ (" " : String).data ++ v.data from by
        simp [String.data_append]]  at hc
    rw [show (("set " : String).data ++ k.data ++ (" " : String).data ++ v.data) =
      's' :: ('e' :: 't' :: ' ' :: (k.data ++ (" " : String).data ++ v.data)) from by
        simp [List.append_assoc]] at hc
    injection hc with h2
    rw [← h2]
    rfl
  · intro c hc
    rw [show ("set " ++ k ++ " " ++ v).data =
      ("set " : String).data ++ k.data ++ (" " : String).data ++ v.data from by
        simp [String.data_append]] at hc
    rw [show (("set " : String).data ++ k.data ++ (" " : String).data ++ v.data) =
      (("set " : String).data ++ k.data ++ (" " : String).data) ++ v.data from by
        simp [List.append_assoc]] at hc
    rw [getLast?_append_ne _ _ hvne] at hc
    exact hvl c hc

/-! ### `_parse_table` on emitted entries -/

/-- The behaviour bundle of one emitted `set` line. -/
def SetOK (kv : String × String) : Prop :=
  pyStrip ("        " ++ ("set " ++ kv.1 ++ " " ++ kv.2)) = "set " ++ kv.1 ++ " " ++ kv.2 ∧
  reEditSearch ("set " ++ kv.1 ++ " " ++ kv.2) = none ∧
  reSetSearch ("set " ++ kv.1 ++ " " ++ kv.2) = some (kv.1, kv.2) ∧
  pyStrip kv.1 = kv.1 ∧ pyStrip kv.2 = kv.2

/-- The line list of one emitted entry. -/
def entryLines (nm : String) (kvs : List (String × String)) : List String :=
  ("    edit " ++ qName nm) ::
    (kvs.map (fun kv => "        " ++ ("set " ++ kv.1 ++ " " ++ kv.2))) ++ ["    next"]

/-- The dict built from an entry's `set` lines. -/
def entryDict (kvs : List (String × String)) : Dict String :=
  kvs.foldl (fun a kv => dset a kv.1 kv.2) []

theorem parseTableGo_cons_edit (raw : String) (rest : List String) (cur : Option String)
    (res : Dict (Dict String)) (nm : String) (hedit : reEditSearch (pyStrip raw) = some nm) :
    parseTableGo (raw :: rest) cur res = parseTableGo rest (some nm) (dset res nm []) := by
  simp only [parseTableGo]
  rw [hedit]

theorem parseTableGo_cons_set (raw : String) (rest : List String) (cur : String)
    (res : Dict (Dict String)) (k v : String)
    (hedit : reEditSearch (pyStrip raw) = none)
    (hset : reSetSearch (pyStrip raw) = some (k, v))
    (hnext : pyStrip raw ≠ "next") :
    parseTableGo (raw :: rest) (some cur) res =
      parseTableGo rest (some cur)
        (dset res cur (dset (dgetD res cur []) (pyStrip k) (pyStrip v))) := by
  simp only [parseTableGo]
  rw [hedit, hset, if_neg hnext]

theorem parseTableGo_cons_next (rest : List String) (cur : Option String)
    (res : Dict (Dict String)) :
    parseTableGo ("    next" :: rest) cur res = parseTableGo rest none res := by
  simp only [parseTableGo]
  rw [show pyStrip "    next" = "next" from by decide]
  rw [show reEditSearch "next" = none from by decide]
  rw [show reSetSearch "next" = none from by decide]
  rw [if_pos rfl]
  cases cur with
  | none => rfl
  | some c => rfl

theorem parseTableGo_sets (kvs : List (String × String)) (rest : List String)
    (cur : String) (res : Dict (Dict String)) (cur0 : Dict String)
    (hcur : dlookup res cur = some cur0)
    (h : ∀ kv ∈ kvs, SetOK kv) :
    parseTableGo ((kvs.map (fun kv => "        " ++ ("set " ++ kv.1 ++ " " ++ kv.2))) ++ rest)
        (some cur) res =
      parseTableGo rest (some cur)
        (dset res cur (kvs.foldl (fun a kv => dset a kv.1 kv.2) cur0)) := by
  induction kvs generalizing res cur0 with
  | nil =>
    simp only [List.map_nil, List.nil_append, List.foldl_nil]
    rw [dset_self_of_lookup res cur cur0 hcur]
  | cons kv kvs ih =>
    obtain ⟨hstrip, hedit, hset, hsk, hsv⟩ := h kv (List.mem_cons_self _ _)
    rw [List.map_cons, List.cons_append]
    rw [parseTableGo_cons_set _ _ _ _ kv.1 kv.2 (by rw [hstrip]; exact hedit)
      (by rw [hstrip]; exact hset)
      (by
        rw [hstrip]
        intro heq
        have := congrArg reSetSearch heq
        rw [hset, show reSetSearch "next" = none from by decide] at this
        exact Option.noConfusion this)]
    rw [hsk, hsv]
    rw [show dgetD res cur [] = cur0 from by rw [dgetD, hcur]; rfl]
    rw [ih (dset res cur (dset cur0 kv.1 kv.2)) (dset cur0 kv.1 kv.2)
      (dlookup_dset_self res cur _)
      (fun kv2 h2 => h kv2 (List.mem_cons_of_mem _ h2))]
    rw [List.foldl_cons, dset_dset_self]

/-- `_parse_table` consumes one emitted entry, storing its dict. -/
theorem parseTableGo_entry (nm : String) (kvs : List (String × String))
    (rest : List String) (cur : Option String) (res : Dict (Dict String))
    (hnm : CleanName nm) (hkvs : ∀ kv ∈ kvs, SetOK kv) :
    parseTableGo (entryLines nm kvs ++ rest) cur res =
      parseTableGo rest none (dset res nm (entryDict kvs)) := by
  rw [entryLines, List.cons_append, List.cons_append]
  rw [parseTableGo_cons_edit ("    edit " ++ qName nm)
    ((kvs.map (fun kv => "        " ++ ("set " ++ kv.1 ++ " " ++ kv.2)) ++ ["    next"]) ++ rest)
    cur res nm (by
    rw [pyStrip_edit_line nm hnm]
    exact reEditSearch_edit_line nm hnm)]
  rw [List.append_assoc]
  rw [parseTableGo_sets kvs _ nm _ [] (dlookup_dset_self res nm []) hkvs]
  rw [show ([("    next" : String)] : List String) ++ rest = "    next" :: rest from rfl]
  rw [parseTableGo_cons_next]
  rw [dset_dset_self]
  rfl

theorem pyStrip_id_of_ends (v : String) (hvne : v.data ≠ [])
    (hvh : ∀ c, v.data.head? = some c → isSpaceChar c = false)
    (hvl : ∀ c, v.data.getLast? = some c → isSpaceChar c = false) : pyStrip v = v := by
  have h2 := stripChars_pad [] v.data (by simp) hvne hvh hvl
  rw [List.nil_append] at h2
  rw [pyStrip, h2]

theorem SetOK_unquoted (k v : String) (hk : CleanName k)
    (hvne : v.data ≠ [])
    (hvq : ∀ c ∈ v.data, c ≠ '"')
    (hvh : ∀ c, v.data.head? = some c → isSpaceChar c = false)
    (hvl : ∀ c, v.data.getLast? = some c → isSpaceChar c = false) :
    SetOK (k, v) := by
  refine ⟨pyStrip_set_line k v hk.1 (fun c hc => (hk.2 c hc).1) hvne hvl, ?_,
    reSetSearch_set_line k v hk.1 (fun c hc => (hk.2 c hc).1) hvne hvh,
    pyStrip_clean_id k hk, pyStrip_id_of_ends v hvne hvh hvl⟩
  apply reEditSearch_no_quote
  intro hmem
  rw [show ("set " ++ k ++ " " ++ v).data =
    ("set " : String).data ++ k.data ++ (" " : String).data ++ v.data from by
      simp [String.data_append]] at hmem
  simp only [List.mem_append] at hmem
  rcases hmem with ((h1 | h2) | h3) | h4
  · exact absurd h1 (by decide)
  · exact absurd rfl ((hk.2 _ h2).2)
  · exact absurd h3 (by decide)
  · exact absurd rfl (hvq _ h4)

theorem qJoin_data_ne (toks : List String) (h : ∀ t ∈ toks, CleanName t)
    (hne : toks ≠ []) : (joinSep " " (toks.map qName)).data ≠ [] := by
  cases toks with
  | nil => exact absurd rfl hne
  | cons t rest =>
    cases rest with
    | nil =>
      rw [show joinSep " " ([t].map qName) = qName t from rfl]
      rw [qName_data t (fun c hc => ((h t (List.mem_cons_self _ _)).2 c hc).2)]
      simp
    | cons t2 r2 =>
      rw [List.map_cons, List.map_cons, data_joinSep_space_cons_cons]
      rw [qName_data t (fun c hc => ((h t (List.mem_cons_self _ _)).2 c hc).2)]
      simp

theorem qJoin_data_head (toks : List String) (h : ∀ t ∈ toks, CleanName t)
    (hne : toks ≠ []) : (joinSep " " (toks.map qName)).data.head? = some '"' := by
  cases toks with
  | nil => exact absurd rfl hne
  | cons t rest =>
    cases rest with
    | nil =>
      rw [show joinSep " " ([t].map qName) = qName t from rfl]
      rw [qName_data t (fun c hc => ((h t (List.mem_cons_self _ _)).2 c hc).2)]
      rfl
    | cons t2 r2 =>
      rw [List.map_cons, List.map_cons, data_joinSep_space_cons_cons]
      rw [qName_data t (fun c hc => ((h t (List.mem_cons_self _ _)).2 c hc).2)]
      rfl

theorem qJoin_data_last (toks : List String) (h : ∀ t ∈ toks, CleanName t)
    (hne : toks ≠ []) : (joinSep " " (toks.map qName)).data.getLast? = some '"' := by
  induction toks with
  | nil => exact absurd rfl hne
  | cons t rest ih =>
    cases rest with
    | nil =>
      rw [show joinSep " " ([t].map qName) = qName t from rfl]
      rw [qName_data t (fun c hc => ((h t (List.mem_cons_self _ _)).2 c hc).2)]
      rw [show ('"' :: t.data ++ ['"']) = ('"' :: t.data) ++ ['"'] from rfl]
      exact getLast?_concat_self _ _
    | cons t2 r2 =>
      rw [List.map_cons, List.map_cons, data_joinSep_space_cons_cons]
      have ih2 := ih (fun u hu => h u (List.mem_cons_of_mem _ hu)) (by simp)
      rw [List.map_cons] at ih2
      have hne2 : (joinSep " " (qName t2 :: r2.map qName)).data ≠ [] := by
        have := qJoin_data_ne (t2 :: r2) (fun u hu => h u (List.mem_cons_of_mem _ hu)) (by simp)
        rw [List.map_cons] at this
        exact this
      rw [getLast?_append_ne _ _ (by simp)]
      rw [show (' ' :: (joinSep " " (qName t2 :: r2.map qName)).data) =
        [' '] ++ (joinSep " " (qName t2 :: r2.map qName)).data from rfl]
      rw [getLast?_append_ne _ _ hne2]
      exact ih2

/-- A `set` line whose value is a space-joined quoted clean-token list
behaves as expected, given an `edit`-scan walk over its key prefix. -/
theorem SetOK_quoted_of_walk (k : String) (toks : List String)
    (hk : CleanName k) (htoks : ∀ t ∈ toks, CleanName t) (hne : toks ≠ [])
    (hwalk : ∀ rest b, editScan (("set " ++ k ++ " ").data ++ rest) b = editScan rest true) :
    SetOK (k, joinSep " " (toks.map qName)) := by
  have hvne := qJoin_data_ne toks htoks hne
  have hvh : ∀ c, (joinSep " " (toks.map qName)).data.head? = some c →
      isSpaceChar c = false := by
    intro c hc
    rw [qJoin_data_head toks htoks hne] at hc
    injection hc with h2
    rw [← h2]
    rfl
  have hvl : ∀ c, (joinSep " " (toks.map qName)).data.getLast? = some c →
      isSpaceChar c = false := by
    intro c hc
    rw [qJoin_data_last toks htoks hne] at hc
    injection hc with h2
    rw [← h2]
    rfl
  refine ⟨pyStrip_set_line k _ hk.1 (fun c hc => (hk.2 c hc).1) hvne hvl, ?_,
    reSetSearch_set_line k _ hk.1 (fun c hc => (hk.2 c hc).1) hvne hvh,
    pyStrip_clean_id k hk, pyStrip_id_of_ends _ hvne hvh hvl⟩
  rw [reEditSearch]
  rw [show ("set " ++ k ++ " " ++ joinSep " " (toks.map qName)).data =
    ("set " ++ k ++ " ").data ++ (joinSep " " (toks.map qName)).data from by
      simp [String.data_append]]
  rw [hwalk]
  rw [show (joinSep " " (toks.map qName)).data =
    (joinSep " " (toks.map qName)).data ++ [] from by simp]
  rw [editScan_qJoin toks [] htoks hne]
  rfl

/-! ### Entry folding over whole blocks -/

theorem foldl_congr_mem {α β : Type} (l : List β) (g h : α → β → α) (init : α)
    (hgh : ∀ a ∈ l, ∀ c, g c a = h c a) : l.foldl g init = l.foldl h init := by
  induction l generalizing init with
  | nil => rfl
  | cons x t ih =>
    rw [List.foldl_cons, List.foldl_cons, hgh x (List.mem_cons_self _ _)]
    exact ih _ (fun a ha c => hgh a (List.mem_cons_of_mem _ ha) c)

theorem foldl_dset_fresh {α β : Type} (f : String × β → α) (l : List (String × β)) :
    ∀ (init : Dict α), (∀ p ∈ l, p.1 ∉ dkeys init) → (l.map Prod.fst).Nodup →
    l.foldl (fun c nk => dset c nk.1 (f nk)) init = init ++ l.map (fun nk => (nk.1, f nk)) := by
  induction l with
  | nil => intro init _ _; simp
  | cons p t ih =>
    intro init hfresh hnodup
    rw [List.foldl_cons, dset_fresh init p.1 (f p) (hfresh p (List.mem_cons_self _ _))]
    rw [List.map_cons] at hnodup
    rw [ih (init ++ [(p.1, f p)]) ?_ (List.nodup_cons.mp hnodup).2]
    · simp
    · intro q hq
      rw [dkeys, List.map_append, List.mem_append]
      intro hmem
      rcases hmem with hmem | hmem
      · exact hfresh q (List.mem_cons_of_mem _ hq) hmem
      · simp at hmem
        exact (List.nodup_cons.mp hnodup).1 (hmem ▸ List.mem_map_of_mem Prod.fst hq)

/-- `_parse_table` over the concatenated emitted entries builds the
dict of entry dicts, in emission order. -/
theorem parseTableGo_entries (names : List String) (kvsOf : String → List (String × String)) :
    ∀ (res : Dict (Dict String)),
    (∀ nm ∈ names, CleanName nm) →
    (∀ nm ∈ names, ∀ kv ∈ kvsOf nm, SetOK kv) →
    (∀ nm ∈ names, nm ∉ dkeys res) →
    names.Nodup →
    parseTableGo (names.flatMap (fun nm => entryLines nm (kvsOf nm))) none res =
      res ++ names.map (fun nm => (nm, entryDict (kvsOf nm))) := by
  induction names with
  | nil =>
    intro res _ _ _ _
    simp [parseTableGo]
  | cons nm names ih =>
    intro res hclean hkvs hfresh hnodup
    rw [List.flatMap_cons]
    rw [parseTableGo_entry nm (kvsOf nm) _ none res (hclean nm (List.mem_cons_self _ _))
      (hkvs nm (List.mem_cons_self _ _))]
    rw [dset_fresh res nm _ (hfresh nm (List.mem_cons_self _ _))]
    rw [ih (res ++ [(nm, entryDict (kvsOf nm))])
      (fun x hx => hclean x (List.mem_cons_of_mem _ hx))
      (fun x hx => hkvs x (List.mem_cons_of_mem _ hx))
      ?_ (List.nodup_cons.mp hnodup).2]
    · simp
    · intro x hx
      rw [dkeys, List.map_append, List.mem_append]
      intro hmem
      rcases hmem with hmem | hmem
      · exact hfresh x (List.mem_cons_of_mem _ hx) hmem
      · simp at hmem
        exact (List.nodup_cons.mp hnodup).1 (hmem ▸ hx)

theorem editScan_walk_comment : ∀ (rest : List Char) (b : Bool),
    editScan (("set " ++ "comment" ++ " ").data ++ rest) b = editScan rest true := by
  intro rest b
  rw [show ("set " ++ "comment" ++ " " : String) = "set comment " from by decide]
  exact editScan_pfx_comment rest b

theorem editScan_walk_member : ∀ (rest : List Char) (b : Bool),
    editScan (("set " ++ "member" ++ " ").data ++ rest) b = editScan rest true := by
  intro rest b
  rw [show ("set " ++ "member" ++ " " : String) = "set member " from by decide]
  exact editScan_pfx_member rest b

theorem editScan_walk_mappedip : ∀ (rest : List Char) (b : Bool),
    editScan (("set " ++ "mappedip" ++ " ").data ++ rest) b = editScan rest true := by
  intro rest b
  rw [show ("set " ++ "mappedip" ++ " " : String) = "set mappedip " from by decide]
  exact editScan_pfx_mappedip rest b

theorem editScan_walk_extintf : ∀ (rest : List Char) (b : Bool),
    editScan (("set " ++ "extintf" ++ " ").data ++ rest) b = editScan rest true := by
  intro rest b
  rw [show ("set " ++ "extintf" ++ " " : String) = "set extintf " from by decide]
  exact editScan_pfx_extintf rest b

/-! ### Recovering values from parsed entries -/

theorem mem_of_head?_eq {α : Type} {l : List α} {a : α} (h : l.head? = some a) : a ∈ l := by
  cases l with
  | nil => exact absurd h (by simp)
  | cons x t =>
    injection h with h2
    exact h2 ▸ List.mem_cons_self _ _

theorem qName_length (c : String) (h : CleanName c) :
    (qName c).length = c.data.length + 2 := by
  have hq := qName_data c (fun x hx => (h.2 x hx).2)
  rw [show (qName c).length = (qName c).data.length from rfl, hq]
  simp

/-- `_strip_quotes` undoes `_q` on a clean name. -/
theorem stripQuotesStr_qName (c : String) (h : CleanName c) :
    stripQuotesStr (qName c) = c := by
  have hq := qName_data c (fun x hx => (h.2 x hx).2)
  have hlast : (qName c).data.getLast? = some '"' := by
    rw [hq, show ('"' :: c.data ++ ['"']) = ('"' :: c.data) ++ ['"'] from rfl]
    exact getLast?_concat_self _ _
  have hhead : (qName c).data.head? = some '"' := by rw [hq]; rfl
  have hstrip : pyStrip (qName c) = qName c := by
    apply pyStrip_id_of_ends
    · rw [hq]; simp
    · intro x hx
      rw [hhead] at hx
      injection hx with h2
      rw [← h2]
      rfl
    · intro x hx
      rw [hlast] at hx
      injection hx with h2
      rw [← h2]
      rfl
  rw [stripQuotesStr, hstrip]
  rw [if_pos ⟨hhead, hlast, by rw [qName_length c h]; omega⟩]
  rw [hq]
  rw [show ('"' :: c.data ++ ['"']).drop 1 = c.data ++ ['"'] from rfl]
  rw [List.dropLast_concat]

/-- `_strip_quotes` is the identity on a clean unquoted token. -/
theorem stripQuotesStr_clean (v : String) (h : CleanName v) : stripQuotesStr v = v := by
  rw [stripQuotesStr, pyStrip_clean_id v h]
  rw [if_neg ?_]
  intro ⟨h1, _, _⟩
  exact (h.2 '"' (mem_of_head?_eq h1)).2 rfl

theorem findQuotedAux_consume (t : List Char) :
    ∀ (rest acc : List Char), (∀ c ∈ t, c ≠ '"') → (acc ≠ [] ∨ t ≠ []) →
    findQuotedAux (t ++ '"' :: rest) (some acc) =
      (acc.reverse ++ t) :: findQuotedAux rest none := by
  induction t with
  | nil =>
    intro rest acc ht hne
    rcases hne with h | h
    · rw [List.nil_append]
      simp [findQuotedAux, h]
    · exact absurd rfl h
  | cons c t ih =>
    intro rest acc ht hne
    have hc : c ≠ '"' := ht c (List.mem_cons_self _ _)
    rw [List.cons_append]
    rw [show findQuotedAux (c :: (t ++ '"' :: rest)) (some acc) =
      findQuotedAux (t ++ '"' :: rest) (some (c :: acc)) from by simp [findQuotedAux, hc]]
    rw [ih rest (c :: acc) (fun d hd => ht d (List.mem_cons_of_mem _ hd)) (Or.inl (by simp))]
    simp [List.append_assoc]

/-- `re.findall` of quoted names undoes the space-join of `_q`-quoted
clean tokens. -/
theorem findQuoted_qJoin (toks : List String) (h : ∀ t ∈ toks, CleanName t) :
    toks ≠ [] → findQuoted ((joinSep " " (toks.map qName)).data) = toks.map String.data := by
  induction toks with
  | nil => intro hne; exact absurd rfl hne
  | cons t rest ih =>
    intro _
    have ht := h t (List.mem_cons_self _ _)
    have htq : ∀ c ∈ t.data, c ≠ '"' := fun c hc => (ht.2 c hc).2
    cases rest with
    | nil =>
      rw [show joinSep " " ([t].map qName) = qName t from rfl, qName_data t htq]
      rw [findQuoted]
      rw [show findQuotedAux ('"' :: t.data ++ ['"']) none =
        findQuotedAux (t.data ++ '"' :: []) (some []) from by simp [findQuotedAux]]
      rw [findQuotedAux_consume t.data [] [] htq (Or.inr ht.1)]
      simp [findQuotedAux]
    | cons t2 r2 =>
      rw [List.map_cons, List.map_cons, data_joinSep_space_cons_cons, qName_data t htq]
      rw [show ('"' :: t.data ++ ['"']) ++ ' ' :: (joinSep " " (qName t2 :: r2.map qName)).data =
        '"' :: (t.data ++ '"' :: (' ' :: (joinSep " " (qName t2 :: r2.map qName)).data)) from by
          simp]
      rw [findQuoted]
      rw [show findQuotedAux
        ('"' :: (t.data ++ '"' :: (' ' :: (joinSep " " (qName t2 :: r2.map qName)).data))) none =
        findQuotedAux (t.data ++ '"' :: (' ' :: (joinSep " " (qName t2 :: r2.map qName)).data))
          (some []) from by simp [findQuotedAux]]
      rw [findQuotedAux_consume t.data _ [] htq (Or.inr ht.1)]
      rw [show findQuotedAux (' ' :: (joinSep " " (qName t2 :: r2.map qName)).data) none =
        findQuotedAux ((joinSep " " (qName t2 :: r2.map qName)).data) none from by
          simp [findQuotedAux]]
      have ih2 := ih (fun u hu => h u (List.mem_cons_of_mem _ hu)) (by simp)
      rw [List.map_cons] at ih2
      rw [findQuoted] at ih2
      rw [ih2]
      simp

/-- `str.split()` of a joined clean pair. -/
theorem pySplit_pair (a b : String) (ha : CleanName a) (hb : CleanName b) :
    pySplit (a ++ " " ++ b) = [a, b] := by
  rw [pySplit]
  have h2 := wsTokens_join [a.data, b.data] (by
    intro t ht
    rcases List.mem_cons.mp ht with rfl | ht
    · exact ⟨ha.1, fun c hc => (ha.2 c hc).1⟩
    · rcases List.mem_cons.mp ht with rfl | ht
      · exact ⟨hb.1, fun c hc => (hb.2 c hc).1⟩
      · exact absurd ht (by simp))
  rw [show [a.data, b.data].map String.mk = [a, b] from by simp [strMk_data]] at h2
  rw [show joinSep " " [a, b] = a ++ " " ++ b from rfl] at h2
  rw [h2]
  simp [strMk_data]

/-- `str.split()` of a single clean token. -/
theorem pySplit_single (a : String) (ha : CleanName a) : pySplit a = [a] := by
  rw [pySplit]
  have h2 := wsTokens_join [a.data] (by
    intro t ht
    rcases List.mem_cons.mp ht with rfl | ht
    · exact ⟨ha.1, fun c hc => (ha.2 c hc).1⟩
    · exact absurd ht (by simp))
  rw [show [a.data].map String.mk = [a] from by simp [strMk_data]] at h2
  rw [show joinSep " " [a] = a from rfl] at h2
  rw [h2]
  simp [strMk_data]

/-! ### `_extract_blocks` on the generated line stream -/

theorem extractGo_skip (H : String) (ls : List String)
    (h : ∀ ln ∈ ls, pyStrip ln ≠ H) :
    ∀ (rest : List String) (sl : List String) (blocks : List (List String)),
    extractGo H (ls ++ rest) false sl blocks = extractGo H rest false sl blocks := by
  induction ls with
  | nil => intro rest sl blocks; rfl
  | cons ln t ih =>
    intro rest sl blocks
    rw [List.cons_append]
    rw [show extractGo H (ln :: (t ++ rest)) false sl blocks =
      extractGo H (t ++ rest) false sl blocks from by
        simp only [extractGo]
        rw [if_neg (h ln (List.mem_cons_self _ _))]
        rw [if_neg (by simp)]
        rw [if_neg (by simp)]]
    exact ih (fun x hx => h x (List.mem_cons_of_mem _ hx)) rest sl blocks

theorem extractGo_acc (H : String) (hHend : "end" ≠ H) (body : List String)
    (hbody : ∀ ln ∈ body, pyStrip ln ≠ H ∧ pyStrip ln ≠ "end") :
    ∀ (pre rest : List String) (blocks : List (List String)),
    extractGo H (body ++ "end" :: rest) true pre blocks =
      extractGo H rest false [] (blocks ++ [pre ++ body]) := by
  induction body with
  | nil =>
    intro pre rest blocks
    rw [List.nil_append]
    rw [show extractGo H ("end" :: rest) true pre blocks =
      extractGo H rest false [] (blocks ++ [pre]) from by
        simp only [extractGo]
        rw [show pyStrip "end" = "end" from by decide]
        rw [if_neg hHend]
        rw [if_pos ⟨trivial, rfl⟩]]
    rw [List.append_nil]
  | cons ln t ih =>
    intro pre rest blocks
    rw [List.cons_append]
    rw [show extractGo H (ln :: (t ++ "end" :: rest)) true pre blocks =
      extractGo H (t ++ "end" :: rest) true (pre ++ [ln]) blocks from by
        simp only [extractGo]
        rw [if_neg (hbody ln (List.mem_cons_self _ _)).1]
        rw [if_neg (by
          intro hand
          exact (hbody ln (List.mem_cons_self _ _)).2 hand.2)]
        rw [if_pos trivial]]
    rw [ih (fun x hx => hbody x (List.mem_cons_of_mem _ hx)) (pre ++ [ln]) rest blocks]
    rw [List.append_assoc]
    rfl

/-- A whole emitted block is consumed into one extracted body. -/
theorem extractGo_consume (H : String) (hH : pyStrip H = H) (hHend : "end" ≠ H)
    (body rest : List String)
    (hbody : ∀ ln ∈ body, pyStrip ln ≠ H ∧ pyStrip ln ≠ "end")
    (sl : List String) (blocks : List (List String)) :
    extractGo H ((H :: body ++ ["end"]) ++ rest) false sl blocks =
      extractGo H rest false [] (blocks ++ [body]) := by
  rw [show (H :: body ++ ["end"]) ++ rest = H :: (body ++ "end" :: rest) from by simp]
  rw [show extractGo H (H :: (body ++ "end" :: rest)) false sl blocks =
    extractGo H (body ++ "end" :: rest) true [] blocks from by
      simp only [extractGo]
      rw [if_pos hH]]
  rw [extractGo_acc H hHend body hbody [] rest blocks]
  rfl

/-! ### Catalog cleanliness for the round-trip -/

/-- An optional field is either absent or a clean token. -/
def OptClean : Option String → Prop
  | none => True
  | some t => CleanName t

instance (o : Option String) : Decidable (OptClean o) := by
  cases o with
  | none => exact isTrue trivial
  | some t => exact inferInstanceAs (Decidable (CleanName t))

def CleanAddresses (d : Dict Address) : Prop :=
  (dkeys d).Nodup ∧ ∀ kv ∈ d, kv.2.name = kv.1 ∧ CleanName kv.1 ∧
    CleanName kv.2.subnet.1 ∧ CleanName kv.2.subnet.2 ∧ OptClean kv.2.comment

def CleanGroups (d : Dict AddressGroup) : Prop :=
  (dkeys d).Nodup ∧ ∀ kv ∈ d, kv.2.name = kv.1 ∧ CleanName kv.1 ∧
    (∀ m ∈ kv.2.members, CleanName m) ∧ pySortedSet kv.2.members = kv.2.members ∧
    OptClean kv.2.comment

def CleanServices (d : Dict Service) : Prop :=
  (dkeys d).Nodup ∧ ∀ kv ∈ d, kv.2.name = kv.1 ∧ CleanName kv.1 ∧
    OptClean kv.2.tcp_portrange ∧ OptClean kv.2.udp_portrange ∧ OptClean kv.2.comment

def CleanSvcGroups (d : Dict ServiceGroup) : Prop :=
  (dkeys d).Nodup ∧ ∀ kv ∈ d, kv.2.name = kv.1 ∧ CleanName kv.1 ∧
    (∀ m ∈ kv.2.members, CleanName m) ∧ pySortedSet kv.2.members = kv.2.members ∧
    OptClean kv.2.comment

def CleanVips (d : Dict Vip) : Prop :=
  (dkeys d).Nodup ∧ ∀ kv ∈ d, kv.2.name = kv.1 ∧ CleanName kv.1 ∧
    CleanName kv.2.extip ∧ CleanName kv.2.mappedip ∧ OptClean kv.2.extintf ∧
    OptClean kv.2.extport ∧ OptClean kv.2.mappedport ∧ OptClean kv.2.comment

def CleanPools (d : Dict IpPool) : Prop :=
  (dkeys d).Nodup ∧ ∀ kv ∈ d, kv.2.name = kv.1 ∧ CleanName kv.1 ∧
    CleanName kv.2.startip ∧ CleanName kv.2.endip ∧ OptClean kv.2.pool_type ∧
    OptClean kv.2.comment

/-- The hypotheses of the amended round-trip claim. -/
def CleanCatalog (cat : ObjectCatalog) : Prop :=
  CleanAddresses cat.addresses ∧ CleanGroups cat.addr_groups ∧
  CleanServices cat.services ∧ CleanSvcGroups cat.service_groups ∧
  CleanVips cat.vips ∧ CleanPools cat.ippools

theorem dlookup_mem {α : Type} (d : Dict α) (k : String) (h : k ∈ dkeys d) :
    ∃ v, dlookup d k = some v ∧ (k, v) ∈ d := by
  induction d with
  | nil => simp [dkeys] at h
  | cons kv t ih =>
    obtain ⟨k2, v2⟩ := kv
    by_cases hk : k2 = k
    · subst hk
      exact ⟨v2, by rw [dlookup, if_pos rfl], List.mem_cons_self _ _⟩
    · have h2 : k ∈ dkeys t := by
        rcases List.mem_cons.mp h with heq | h2
        · exact absurd heq.symm hk
        · exact h2
      obtain ⟨v, hv, hmem⟩ := ih h2
      exact ⟨v, by rw [dlookup, if_neg hk]; exact hv, List.mem_cons_of_mem _ hmem⟩

theorem dlookup_of_mem_nodup {α : Type} (d : Dict α) (k : String) (v : α)
    (hmem : (k, v) ∈ d) (hnodup : (dkeys d).Nodup) : dlookup d k = some v := by
  induction d with
  | nil => simp at hmem
  | cons kv t ih =>
    obtain ⟨k2, v2⟩ := kv
    rcases List.mem_cons.mp hmem with heq | hmem2
    · injection heq with h1 h2
      rw [dlookup, if_pos h1.symm, h2]
    · have hk : ¬k2 = k := by
        intro heq
        subst heq
        have : k2 ∈ dkeys t := List.mem_map_of_mem Prod.fst hmem2
        exact (List.nodup_cons.mp hnodup).1 this
      rw [dlookup, if_neg hk]
      exact ih hmem2 (List.nodup_cons.mp hnodup).2

theorem dlookup_map_form {β : Type} (names : List String) (F : String → β) (nm : String)
    (hmem : nm ∈ names) (hnodup : names.Nodup) :
    dlookup (names.map (fun n => (n, F n))) nm = some (F nm) := by
  induction names with
  | nil => simp at hmem
  | cons n t ih =>
    rcases List.mem_cons.mp hmem with rfl | hmem2
    · rw [List.map_cons, dlookup, if_pos rfl]
    · have hn : ¬n = nm := by
        intro heq
        subst heq
        exact (List.nodup_cons.mp hnodup).1 hmem2
      rw [List.map_cons, dlookup, if_neg hn]
      exact ih hmem2 (List.nodup_cons.mp hnodup).2

theorem strne_empty_of_data (s : String) (h : s.data ≠ []) : s ≠ "" := by
  intro heq
  rw [heq] at h
  exact h rfl

theorem pySorted_nodup (l : List String) (h : l.Nodup) : (pySorted l).Nodup :=
  (sortLe_perm pyStrLe l).nodup_iff.mpr h

theorem mem_pySorted (l : List String) (x : String) : x ∈ pySorted l ↔ x ∈ l :=
  (sortLe_perm pyStrLe l).mem_iff

/-! ### The address block as emitted entries -/

def commentKVs : Option String → List (String × String)
  | some c => if c = "" then [] else [("comment", qName c)]
  | none => []

def addrKVs (a : Address) : List (String × String) :=
  ("subnet", a.subnet.1 ++ " " ++ a.subnet.2) :: commentKVs a.comment

def emitFM : List (Option String) → List String :=
  List.filterMap (fun s? =>
    match s? with
    | some s => if s ≠ "" then some ("        " ++ s) else none
    | none => none)

theorem emitFM_cons_some (s : String) (h : s ≠ "") (rest : List (Option String)) :
    emitFM (some s :: rest) = ("        " ++ s) :: emitFM rest := by
  rw [emitFM, List.filterMap_cons]
  rw [show (match some s with
    | some s => if s ≠ "" then some ("        " ++ s) else none
    | none => none) = (if s ≠ "" then some ("        " ++ s) else none) from rfl]
  rw [if_pos h]

theorem emitFM_cons_none (rest : List (Option String)) :
    emitFM (none :: rest) = emitFM rest := by
  rw [emitFM, List.filterMap_cons]

theorem optSetter_some_ne (c : String) (f : String → String) (h : ¬c = "") :
    optSetter (some c) f = some (f c) := by
  simp only [optSetter]
  rw [if_neg h]

theorem emitEditBlock_eq_emitFM (nm : String) (setters : List (Option String)) :
    emitEditBlock nm setters =
      ("    edit " ++ qName nm) :: emitFM setters ++ ["    next"] := rfl

theorem cleanName_ne_empty (c : String) (h : CleanName c) : ¬c = "" := by
  intro heq
  rw [heq] at h
  exact h.1 rfl

theorem comment_lines (o : Option String) (hc : OptClean o) :
    emitFM [optSetter o (fun c => "set comment " ++ qName c)] =
      (commentKVs o).map (fun kv => "        " ++ ("set " ++ kv.1 ++ " " ++ kv.2)) := by
  cases o with
  | none =>
    rw [show optSetter none (fun c => "set comment " ++ qName c) = none from rfl]
    rw [emitFM_cons_none]
    rfl
  | some c =>
    have hcc : CleanName c := hc
    have hcne : ¬c = "" := cleanName_ne_empty c hcc
    rw [optSetter_some_ne _ _ hcne]
    rw [emitFM_cons_some _ (by
      apply strne_empty_of_data
      simp [String.data_append])]
    rw [show commentKVs (some c) = [("comment", qName c)] from by
      rw [commentKVs, if_neg hcne]]
    rw [List.map_cons, List.map_nil]
    rw [show emitFM [] = [] from rfl]
    rw [show ("set comment " ++ qName c) = "set " ++ "comment" ++ " " ++ qName c from by
      apply strData_ext
      simp [String.data_append]]

theorem addr_entry_lines (a : Address) (hc : OptClean a.comment) :
    emitEditBlock a.name
      [some ("set subnet " ++ a.subnet.1 ++ " " ++ a.subnet.2),
       optSetter a.comment (fun c => "set comment " ++ qName c)] =
    entryLines a.name (addrKVs a) := by
  rw [emitEditBlock_eq_emitFM, entryLines]
  rw [emitFM_cons_some _ (by
    apply strne_empty_of_data
    simp [String.data_append])]
  rw [show ([optSetter a.comment (fun c => "set comment " ++ qName c)] :
    List (Option String)) = [optSetter a.comment (fun c => "set comment " ++ qName c)] from rfl]
  rw [comment_lines a.comment hc]
  rw [addrKVs, List.map_cons]
  rw [show ("set subnet " ++ a.subnet.1 ++ " " ++ a.subnet.2) =
    "set " ++ "subnet" ++ " " ++ (a.subnet.1 ++ " " ++ a.subnet.2) from by
      apply strData_ext
      simp [String.data_append]]

/-! ### Per-line facts for the extraction scan -/

def headersList : List String :=
  ["config firewall address", "config firewall addrgrp", "config firewall service custom",
   "config firewall service group", "config firewall vip", "config firewall ippool"]

/-- What the extraction scan needs of every entry line: newline-free,
and stripping yields neither `end` nor any section header. -/
def GoodLine (ln : String) : Prop :=
  ('\n' ∉ ln.data) ∧ pyStrip ln ≠ "end" ∧ ∀ H ∈ headersList, pyStrip ln ≠ H

theorem set_core_data (k v : String) :
    ("set " ++ k ++ " " ++ v).data = 's' :: 'e' :: 't' :: ' ' :: (k.data ++ ' ' :: v.data) := by
  simp only [String.data_append]
  simp [List.append_assoc]

theorem no_nl_clean (t : String) (h : CleanName t) : '\n' ∉ t.data := by
  intro hm
  have h2 := (h.2 '\n' hm).1
  rw [show isSpaceChar '\n' = true from rfl] at h2
  exact Bool.noConfusion h2

theorem no_nl_qName (t : String) (h : CleanName t) : '\n' ∉ (qName t).data := by
  rw [qName_data t (fun c hc => (h.2 c hc).2)]
  intro hm
  rcases List.mem_cons.mp hm with heq | hm2
  · exact absurd heq (by decide)
  · rcases List.mem_append.mp hm2 with hm3 | hm3
    · exact no_nl_clean t h hm3
    · exact absurd hm3 (by decide)

theorem no_nl_qJoin (toks : List String) (h : ∀ t ∈ toks, CleanName t) :
    '\n' ∉ (joinSep " " (toks.map qName)).data := by
  induction toks with
  | nil => simp [joinSep]
  | cons t rest ih =>
    cases rest with
    | nil =>
      rw [show joinSep " " ([t].map qName) = qName t from rfl]
      exact no_nl_qName t (h t (List.mem_cons_self _ _))
    | cons t2 r2 =>
      rw [List.map_cons, List.map_cons, data_joinSep_space_cons_cons]
      intro hm
      rcases List.mem_append.mp hm with hm2 | hm2
      · exact no_nl_qName t (h t (List.mem_cons_self _ _)) hm2
      · rcases List.mem_cons.mp hm2 with heq | hm3
        · exact absurd heq (by decide)
        · have ih2 := ih (fun u hu => h u (List.mem_cons_of_mem _ hu))
          rw [List.map_cons] at ih2
          exact ih2 hm3

theorem no_nl_pair (a b : String) (ha : CleanName a) (hb : CleanName b) :
    '\n' ∉ (a ++ " " ++ b).data := by
  rw [show (a ++ " " ++ b).data = a.data ++ (" " : String).data ++ b.data from by
    simp [String.data_append]]
  intro hm
  rcases List.mem_append.mp hm with hm2 | hm2
  · rcases List.mem_append.mp hm2 with hm3 | hm3
    · exact no_nl_clean a ha hm3
    · exact absurd hm3 (by decide)
  · exact no_nl_clean b hb hm2

theorem editline_good (nm : String) (h : CleanName nm) :
    GoodLine ("    edit " ++ qName nm) := by
  refine ⟨?_, ?_, ?_⟩
  · rw [show ("    edit " ++ qName nm).data =
      ("    edit " : String).data ++ (qName nm).data from by simp [String.data_append]]
    intro hm
    rcases List.mem_append.mp hm with hm2 | hm2
    · exact absurd hm2 (by decide)
    · exact no_nl_qName nm h hm2
  · rw [pyStrip_edit_line nm h]
    intro heq
    have h2 := congrArg String.data heq
    rw [edit_core_data nm h] at h2
    simp at h2
  · intro H hH
    rw [pyStrip_edit_line nm h]
    intro heq
    have h2 := congrArg String.data heq
    rw [edit_core_data nm h] at h2
    simp [headersList] at hH
    rcases hH with rfl | rfl | rfl | rfl | rfl | rfl
    · simp at h2
    · simp at h2
    · simp at h2
    · simp at h2
    · simp at h2
    · simp at h2

theorem setline_good (k v : String) (hstrip :
      pyStrip ("        " ++ ("set " ++ k ++ " " ++ v)) = "set " ++ k ++ " " ++ v)
    (hk : CleanName k) (hv : '\n' ∉ v.data) :
    GoodLine ("        " ++ ("set " ++ k ++ " " ++ v)) := by
  refine ⟨?_, ?_, ?_⟩
  · rw [show ("        " ++ ("set " ++ k ++ " " ++ v)).data =
      ("        " : String).data ++ ("set " ++ k ++ " " ++ v).data from by
        simp [String.data_append]]
    rw [set_core_data]
    intro hm
    rcases List.mem_append.mp hm with hm2 | hm2
    · exact absurd hm2 (by decide)
    · rcases List.mem_cons.mp hm2 with heq | hm3
      · exact absurd heq (by decide)
      · rcases List.mem_cons.mp hm3 with heq | hm4
        · exact absurd heq (by decide)
        · rcases List.mem_cons.mp hm4 with heq | hm5
          · exact absurd heq (by decide)
          · rcases List.mem_cons.mp hm5 with heq | hm6
            · exact absurd heq (by decide)
            · rcases List.mem_append.mp hm6 with hm7 | hm7
              · exact no_nl_clean k hk hm7
              · rcases List.mem_cons.mp hm7 with heq | hm8
                · exact absurd heq (by decide)
                · exact hv hm8
  · rw [hstrip]
    intro heq
    have h2 := congrArg String.data heq
    rw [set_core_data] at h2
    simp at h2
  · intro H hH
    rw [hstrip]
    intro heq
    have h2 := congrArg String.data heq
    rw [set_core_data] at h2
    simp [headersList] at hH
    rcases hH with rfl | rfl | rfl | rfl | rfl | rfl
    · simp at h2
    · simp at h2
    · simp at h2
    · simp at h2
    · simp at h2
    · simp at h2

theorem nextline_good : GoodLine "    next" := by
  refine ⟨by decide, by decide, ?_⟩
  intro H hH
  simp [headersList] at hH
  rcases hH with rfl | rfl | rfl | rfl | rfl | rfl
  · decide
  · decide
  · decide
  · decide
  · decide
  · decide

theorem entryLines_good (nm : String) (kvs : List (String × String))
    (hnm : CleanName nm)
    (hkvs : ∀ kv ∈ kvs, SetOK kv ∧ CleanName kv.1 ∧ '\n' ∉ kv.2.data) :
    ∀ ln ∈ entryLines nm kvs, GoodLine ln := by
  intro ln hln
  rw [entryLines] at hln
  rcases List.mem_cons.mp hln with rfl | hln2
  · exact editline_good nm hnm
  · rcases List.mem_append.mp hln2 with hln3 | hln3
    · obtain ⟨kv, hkv, rfl⟩ := List.mem_map.mp hln3
      obtain ⟨hOK, hkc, hvn⟩ := hkvs kv hkv
      exact setline_good kv.1 kv.2 hOK.1 hkc hvn
    · rw [List.mem_singleton.mp hln3]
      exact nextline_good

theorem pair_data (a b : String) : (a ++ " " ++ b).data = a.data ++ ' ' :: b.data := by
  simp [String.data_append]

theorem pair_clean_facts (a b : String) (ha : CleanName a) (hb : CleanName b) :
    (a ++ " " ++ b).data ≠ [] ∧ (∀ c ∈ (a ++ " " ++ b).data, c ≠ '"') ∧
    (∀ c, (a ++ " " ++ b).data.head? = some c → isSpaceChar c = false) ∧
    (∀ c, (a ++ " " ++ b).data.getLast? = some c → isSpaceChar c = false) := by
  refine ⟨?_, ?_, ?_, ?_⟩
  · rw [pair_data]
    simp
  · intro c hc
    rw [pair_data] at hc
    rcases List.mem_append.mp hc with hm | hm
    · exact (ha.2 c hm).2
    · rcases List.mem_cons.mp hm with rfl | hm2
      · decide
      · exact (hb.2 c hm2).2
  · intro c hc
    rw [pair_data, head?_append_ne _ _ ha.1] at hc
    exact (ha.2 c (mem_of_head?_eq hc)).1
  · intro c hc
    rw [pair_data] at hc
    rw [show (a.data ++ ' ' :: b.data) = (a.data ++ [' ']) ++ b.data from by simp] at hc
    rw [getLast?_append_ne _ _ hb.1] at hc
    exact (hb.2 c (mem_of_getLast?_eq hc)).1

/-- The comment pair, when present, is a well-behaved `set` line. -/
theorem commentKVs_ok (o : Option String) (hc : OptClean o) :
    ∀ kv ∈ commentKVs o, SetOK kv ∧ CleanName kv.1 ∧ '\n' ∉ kv.2.data := by
  intro kv hkv
  cases o with
  | none => exact absurd hkv (by simp [commentKVs])
  | some c =>
    have hcc : CleanName c := hc
    rw [commentKVs, if_neg (cleanName_ne_empty c hcc)] at hkv
    rw [List.mem_singleton.mp hkv]
    refine ⟨?_, show CleanName "comment" from by decide, no_nl_qName c hcc⟩
    have h2 := SetOK_quoted_of_walk "comment" [c] (by decide)
      (by intro t ht; rw [List.mem_singleton.mp ht]; exact hcc) (by simp)
      editScan_walk_comment
    rw [show joinSep " " ([c].map qName) = qName c from rfl] at h2
    exact h2

theorem addrKVs_ok (a : Address) (h1 : CleanName a.subnet.1) (h2 : CleanName a.subnet.2)
    (hc : OptClean a.comment) :
    ∀ kv ∈ addrKVs a, SetOK kv ∧ CleanName kv.1 ∧ '\n' ∉ kv.2.data := by
  intro kv hkv
  rw [addrKVs] at hkv
  rcases List.mem_cons.mp hkv with rfl | hkv2
  · obtain ⟨hne, hq, hh, hl⟩ := pair_clean_facts a.subnet.1 a.subnet.2 h1 h2
    exact ⟨SetOK_unquoted "subnet" _ (by decide) hne hq hh hl,
      show CleanName "subnet" from by decide, no_nl_pair _ _ h1 h2⟩
  · exact commentKVs_ok a.comment hc kv hkv2

/-- The emitted address section as abstract entry lines. -/
theorem generateAddresses_eq (d : Dict Address) (h : CleanAddresses d) (hne : ¬d = []) :
    generateAddresses d = "config firewall address" ::
      (pySorted (dkeys d)).flatMap (fun nm => entryLines nm (addrKVs (dgetD d nm default))) ++
      ["end"] := by
  rw [generateAddresses, if_neg hne, emitBlock]
  have hcong := flatMap_congr (pySorted (dkeys d))
    (fun name =>
      let a := dgetD d name default
      emitEditBlock a.name
        [some ("set subnet " ++ a.subnet.1 ++ " " ++ a.subnet.2),
         optSetter a.comment (fun c => "set comment " ++ qName c)])
    (fun nm => entryLines nm (addrKVs (dgetD d nm default)))
    ?_
  · rw [hcong]
  · intro nm hmem
    rw [mem_pySorted] at hmem
    obtain ⟨a, hl, hmem2⟩ := dlookup_mem d nm hmem
    have hget : dgetD d nm default = a := by
      rw [dgetD, hl]
      rfl
    obtain ⟨hname, _, _, _, hcom⟩ := h.2 (nm, a) hmem2
    show emitEditBlock (dgetD d nm default).name
      [some ("set subnet " ++ (dgetD d nm default).subnet.1 ++ " " ++
        (dgetD d nm default).subnet.2),
       optSetter (dgetD d nm default).comment (fun c => "set comment " ++ qName c)] =
      entryLines nm (addrKVs (dgetD d nm default))
    rw [hget]
    rw [addr_entry_lines a hcom]
    rw [hname]

/-- The total reconstruction function of the address section parser. -/
def addrRecF (nk : String × Dict String) : Address :=
  match pySplit (dgetD nk.2 "subnet" "") with
  | ip :: mask :: _ =>
    { name := nk.1, subnet := (ip, mask), comment := stripQuotes (dlookup nk.2 "comment") }
  | _ => default

theorem entryDict_subnet_none (v : String) :
    entryDict [("subnet", v)] = [("subnet", v)] := rfl

theorem entryDict_subnet_comment (v w : String) :
    entryDict [("subnet", v), ("comment", w)] = [("subnet", v), ("comment", w)] := by
  rw [entryDict]
  simp only [List.foldl_cons, List.foldl_nil]
  rw [show dset [] "subnet" v = [("subnet", v)] from rfl]
  rw [show dset [("subnet", v)] "comment" w = [("subnet", v), ("comment", w)] from by
    rw [dset, if_neg (by decide)]
    rfl]

/-- Parsing one emitted address entry rebuilds the record. -/
theorem addrRecF_entry (nm : String) (a : Address) (hname : a.name = nm)
    (h1 : CleanName a.subnet.1) (h2 : CleanName a.subnet.2) (hc : OptClean a.comment) :
    addrRecF (nm, entryDict (addrKVs a)) = a := by
  cases hcm : a.comment with
  | none =>
    have hkvs : addrKVs a = [("subnet", a.subnet.1 ++ " " ++ a.subnet.2)] := by
      rw [addrKVs, hcm]
      rfl
    rw [hkvs, entryDict_subnet_none, addrRecF]
    rw [show dgetD [("subnet", a.subnet.1 ++ " " ++ a.subnet.2)] "subnet" "" =
      a.subnet.1 ++ " " ++ a.subnet.2 from by rw [dgetD, dlookup, if_pos rfl]; rfl]
    rw [pySplit_pair _ _ h1 h2]
    rw [show dlookup [("subnet", a.subnet.1 ++ " " ++ a.subnet.2)] "comment" = none from by
      rw [dlookup, if_neg (by decide)]
      rfl]
    obtain ⟨an, ⟨ip, mask⟩, acom⟩ := a
    simp only at hname hcm ⊢
    rw [hname, hcm]
    rfl
  | some c =>
    have hcc : CleanName c := by
      rw [hcm] at hc
      exact hc
    have hkvs : addrKVs a = [("subnet", a.subnet.1 ++ " " ++ a.subnet.2),
        ("comment", qName c)] := by
      rw [addrKVs, hcm, commentKVs, if_neg (cleanName_ne_empty c hcc)]
    rw [hkvs, entryDict_subnet_comment, addrRecF]
    rw [show dgetD [("subnet", a.subnet.1 ++ " " ++ a.subnet.2), ("comment", qName c)]
      "subnet" "" = a.subnet.1 ++ " " ++ a.subnet.2 from by
        rw [dgetD, dlookup, if_pos rfl]
        rfl]
    rw [pySplit_pair _ _ h1 h2]
    rw [show dlookup [("subnet", a.subnet.1 ++ " " ++ a.subnet.2), ("comment", qName c)]
      "comment" = some (qName c) from by
        rw [dlookup, if_neg (by decide), dlookup, if_pos rfl]]
    rw [show stripQuotes (some (qName c)) = some (stripQuotesStr (qName c)) from rfl]
    rw [stripQuotesStr_qName c hcc]
    obtain ⟨an, ⟨ip, mask⟩, acom⟩ := a
    simp only at hname hcm ⊢
    rw [hname, hcm]

theorem addr_entry_subnet (a : Address) (h1 : CleanName a.subnet.1)
    (h2 : CleanName a.subnet.2) (hc : OptClean a.comment) :
    pySplit (dgetD (entryDict (addrKVs a)) "subnet" "") = [a.subnet.1, a.subnet.2] := by
  cases hcm : a.comment with
  | none =>
    rw [show addrKVs a = [("subnet", a.subnet.1 ++ " " ++ a.subnet.2)] from by
      rw [addrKVs, hcm]; rfl]
    rw [entryDict_subnet_none]
    rw [show dgetD [("subnet", a.subnet.1 ++ " " ++ a.subnet.2)] "subnet" "" =
      a.subnet.1 ++ " " ++ a.subnet.2 from by rw [dgetD, dlookup, if_pos rfl]; rfl]
    exact pySplit_pair _ _ h1 h2
  | some c =>
    have hcc : CleanName c := by rw [hcm] at hc; exact hc
    rw [show addrKVs a = [("subnet", a.subnet.1 ++ " " ++ a.subnet.2),
        ("comment", qName c)] from by
      rw [addrKVs, hcm, commentKVs, if_neg (cleanName_ne_empty c hcc)]]
    rw [entryDict_subnet_comment]
    rw [show dgetD [("subnet", a.subnet.1 ++ " " ++ a.subnet.2), ("comment", qName c)]
      "subnet" "" = a.subnet.1 ++ " " ++ a.subnet.2 from by
        rw [dgetD, dlookup, if_pos rfl]; rfl]
    exact pySplit_pair _ _ h1 h2

theorem addr_fold_agree (nk : String × Dict String) (c : Dict Address)
    (hsp : ∃ ip mask rest, pySplit (dgetD nk.2 "subnet" "") = ip :: mask :: rest) :
    (match pySplit (dgetD nk.2 "subnet" "") with
     | ip :: mask :: _ =>
       dset c nk.1 { name := nk.1, subnet := (ip, mask),
                     comment := stripQuotes (dlookup nk.2 "comment") }
     | _ => c) = dset c nk.1 (addrRecF nk) := by
  obtain ⟨ip, mask, rest, hsp⟩ := hsp
  rw [addrRecF, hsp]

/-- Reading back a dict emitted in sorted key order is `==`-equal to
the original dict. -/
theorem dictEqB_map_perm {α : Type} [DecidableEq α] [Inhabited α] (d : Dict α)
    (names : List String) (hperm : ∀ nm, nm ∈ names ↔ nm ∈ dkeys d)
    (hnodup_names : names.Nodup) (hnodup : (dkeys d).Nodup) :
    dictEqB (names.map (fun nm => (nm, dgetD d nm default))) d = true := by
  rw [dictEqB, Bool.and_eq_true]
  constructor
  · rw [List.all_eq_true]
    intro kv hkv
    obtain ⟨nm, hnm, rfl⟩ := List.mem_map.mp hkv
    simp only [decide_eq_true_eq]
    obtain ⟨v, hl, _⟩ := dlookup_mem d nm ((hperm nm).mp hnm)
    rw [dgetD, hl]
    rfl
  · rw [List.all_eq_true]
    intro kv hkv
    simp only [decide_eq_true_eq]
    have hk : kv.1 ∈ names := (hperm kv.1).mpr (List.mem_map_of_mem Prod.fst hkv)
    rw [dlookup_map_form names (fun nm => dgetD d nm default) kv.1 hk hnodup_names]
    obtain ⟨k, v⟩ := kv
    rw [dgetD, dlookup_of_mem_nodup d k v hkv hnodup]
    rfl

/-- Parsing the emitted address body reproduces the address dict. -/
theorem addr_parse_body (d : Dict Address) (h : CleanAddresses d) :
    dictEqB (parseAddressTable []
      (parseTable ((pySorted (dkeys d)).flatMap
        (fun nm => entryLines nm (addrKVs (dgetD d nm default)))))) d = true := by
  have hnames_nodup : (pySorted (dkeys d)).Nodup := pySorted_nodup _ h.1
  have hinfo : ∀ nm ∈ pySorted (dkeys d), ∃ a, dgetD d nm default = a ∧ a.name = nm ∧
      CleanName nm ∧ CleanName a.subnet.1 ∧ CleanName a.subnet.2 ∧ OptClean a.comment := by
    intro nm hmem
    rw [mem_pySorted] at hmem
    obtain ⟨a, hl, hmem2⟩ := dlookup_mem d nm hmem
    obtain ⟨hname, hk, h1, h2, hcom⟩ := h.2 (nm, a) hmem2
    exact ⟨a, by rw [dgetD, hl]; rfl, hname, hk, h1, h2, hcom⟩
  have htbl : parseTable ((pySorted (dkeys d)).flatMap
      (fun nm => entryLines nm (addrKVs (dgetD d nm default)))) =
      (pySorted (dkeys d)).map (fun nm => (nm, entryDict (addrKVs (dgetD d nm default)))) := by
    rw [parseTable]
    rw [parseTableGo_entries (pySorted (dkeys d))
      (fun nm => addrKVs (dgetD d nm default)) []
      (by
        intro nm hm
        obtain ⟨a, hget, hname, hck, h1, h2, hcom⟩ := hinfo nm hm
        exact hck)
      (by
        intro nm hm kv hkv
        obtain ⟨a, hget, hname, hck, h1, h2, hcom⟩ := hinfo nm hm
        have hkv2 : kv ∈ addrKVs (dgetD d nm default) := hkv
        rw [hget] at hkv2
        exact (addrKVs_ok a h1 h2 hcom kv hkv2).1)
      (by intro nm hm; simp [dkeys])
      hnames_nodup]
    rw [List.nil_append]
  rw [htbl]
  have hfold : parseAddressTable []
      ((pySorted (dkeys d)).map (fun nm => (nm, entryDict (addrKVs (dgetD d nm default))))) =
      ((pySorted (dkeys d)).map (fun nm => (nm, entryDict (addrKVs (dgetD d nm default))))).map
        (fun nk => (nk.1, addrRecF nk)) := by
    rw [parseAddressTable]
    rw [foldl_congr_mem _ _ (fun c nk => dset c nk.1 (addrRecF nk)) [] (by
      intro nk hnk c
      obtain ⟨nm, hm, rfl⟩ := List.mem_map.mp hnk
      obtain ⟨a, hget, hname, hck, h1, h2, hcom⟩ := hinfo nm hm
      apply addr_fold_agree
      rw [hget]
      exact ⟨a.subnet.1, a.subnet.2, [], by
        rw [addr_entry_subnet a h1 h2 hcom]⟩)]
    rw [foldl_dset_fresh addrRecF _ [] (by simp [dkeys]) (by
      rw [List.map_map]
      rw [show (Prod.fst ∘ fun nm =>
        (nm, entryDict (addrKVs (dgetD d nm default)))) = id from rfl]
      rw [List.map_id]
      exact hnames_nodup)]
    rw [List.nil_append]
  rw [hfold, List.map_map]
  have hvals : ((fun nk => ((nk : String × Dict String).1, addrRecF nk)) ∘
      (fun nm => (nm, entryDict (addrKVs (dgetD d nm default))))) =
      fun nm => (nm, addrRecF (nm, entryDict (addrKVs (dgetD d nm default)))) := rfl
  rw [hvals]
  have hmap : (pySorted (dkeys d)).map
      (fun nm => (nm, addrRecF (nm, entryDict (addrKVs (dgetD d nm default))))) =
      (pySorted (dkeys d)).map (fun nm => (nm, dgetD d nm default)) := by
    apply List.map_congr_left
    intro nm hm
    obtain ⟨a, hget, hname, hck, h1, h2, hcom⟩ := hinfo nm hm
    rw [hget, addrRecF_entry nm a hname h1 h2 hcom]
  rw [hmap]
  exact dictEqB_map_perm d (pySorted (dkeys d)) (fun nm => mem_pySorted _ nm)
    hnames_nodup h.1

/-! ### Generic optional-setter segments -/

/-- KV pairs of an optional unquoted setter. -/
def optKVs (k : String) : Option String → List (String × String)
  | some v => if v = "" then [] else [(k, v)]
  | none => []

/-- KV pairs of an optional quoted setter. -/
def qKVs (k : String) : Option String → List (String × String)
  | some x => if x = "" then [] else [(k, qName x)]
  | none => []

theorem dlookup_append_cases {α : Type} (a b : Dict α) (k : String) :
    dlookup (a ++ b) k = match dlookup a k with
      | some v => some v
      | none => dlookup b k := by
  induction a with
  | nil => rfl
  | cons kv t ih =>
    obtain ⟨k2, v2⟩ := kv
    by_cases hk : k2 = k
    · rw [List.cons_append, dlookup, if_pos hk, dlookup, if_pos hk]
    · rw [List.cons_append, dlookup, if_neg hk, ih, dlookup, if_neg hk]

theorem dkeys_optKVs (k : String) (o : Option String) :
    ∀ x ∈ dkeys (optKVs k o), x = k := by
  intro x hx
  cases o with
  | none => exact absurd hx (by simp [optKVs, dkeys])
  | some v =>
    rw [optKVs] at hx
    by_cases hv : v = ""
    · rw [if_pos hv] at hx
      exact absurd hx (by simp [dkeys])
    · rw [if_neg hv] at hx
      simp [dkeys] at hx
      exact hx

theorem dkeys_qKVs (k : String) (o : Option String) :
    ∀ x ∈ dkeys (qKVs k o), x = k := by
  intro x hx
  cases o with
  | none => exact absurd hx (by simp [qKVs, dkeys])
  | some v =>
    rw [qKVs] at hx
    by_cases hv : v = ""
    · rw [if_pos hv] at hx
      exact absurd hx (by simp [dkeys])
    · rw [if_neg hv] at hx
      simp [dkeys] at hx
      exact hx

theorem dlookup_optKVs_self (k : String) (o : Option String) (ho : OptClean o) :
    dlookup (optKVs k o) k = o := by
  cases o with
  | none => rfl
  | some v =>
    rw [optKVs, if_neg (cleanName_ne_empty v ho), dlookup, if_pos rfl]

theorem dlookup_qKVs_self (k : String) (o : Option String) (ho : OptClean o) :
    dlookup (qKVs k o) k = o.map qName := by
  cases o with
  | none => rfl
  | some v =>
    rw [qKVs, if_neg (cleanName_ne_empty v ho), dlookup, if_pos rfl]
    rfl

theorem dlookup_none_of_keys {α : Type} (d : Dict α) (k : String)
    (h : ∀ x ∈ dkeys d, x ≠ k) : dlookup d k = none := by
  induction d with
  | nil => rfl
  | cons kv t ih =>
    obtain ⟨k2, v2⟩ := kv
    rw [dlookup, if_neg (h k2 (List.mem_cons_self _ _))]
    exact ih (fun x hx => h x (List.mem_cons_of_mem _ hx))

theorem dlookup_skip_seg {α : Type} (seg rest : Dict α) (ks k : String)
    (hseg : ∀ x ∈ dkeys seg, x = ks) (hne : ks ≠ k) :
    dlookup (seg ++ rest) k = dlookup rest k := by
  rw [dlookup_append_cases]
  rw [dlookup_none_of_keys seg k (fun x hx => (hseg x hx) ▸ hne)]

theorem dlookup_in_seg {α : Type} (seg rest : Dict α) (k : String) (v : α)
    (h : dlookup seg k = some v) : dlookup (seg ++ rest) k = some v := by
  rw [dlookup_append_cases, h]

/-- `entryDict` of pairwise-distinct keys is the list itself. -/
theorem entryDict_pairwise (kvs : List (String × String))
    (h : (kvs.map Prod.fst).Nodup) : entryDict kvs = kvs := by
  rw [entryDict]
  have h2 := foldl_dset_fresh Prod.snd kvs [] (by simp [dkeys]) h
  rw [List.nil_append] at h2
  rw [h2]
  have : (fun nk : String × String => (nk.1, nk.2)) = id := by
    funext nk
    rfl
  rw [this, List.map_id]

theorem dkeys_append {α : Type} (a b : Dict α) : dkeys (a ++ b) = dkeys a ++ dkeys b :=
  List.map_append _ _ _

theorem sublist_keys_optKVs (k : String) (o : Option String) :
    List.Sublist (dkeys (optKVs k o)) [k] := by
  cases o with
  | none => exact List.nil_sublist _
  | some v =>
    rw [optKVs]
    by_cases hv : v = ""
    · rw [if_pos hv]
      exact List.nil_sublist _
    · rw [if_neg hv]
      exact List.Sublist.refl _

theorem sublist_keys_qKVs (k : String) (o : Option String) :
    List.Sublist (dkeys (qKVs k o)) [k] := by
  cases o with
  | none => exact List.nil_sublist _
  | some v =>
    rw [qKVs]
    by_cases hv : v = ""
    · rw [if_pos hv]
      exact List.nil_sublist _
    · rw [if_neg hv]
      exact List.Sublist.refl _

/-! ### Emitted lines of optional setters -/

theorem emitFM_opt_plain (kstr pre : String) (o : Option String) (ho : OptClean o)
    (hpre : ∀ v, pre ++ v = "set " ++ kstr ++ " " ++ v)
    (hprene : pre.data ≠ [])
    (rest : List (Option String)) :
    emitFM (optSetter o (fun v => pre ++ v) :: rest) =
      ((optKVs kstr o).map (fun kv => "        " ++ ("set " ++ kv.1 ++ " " ++ kv.2))) ++
        emitFM rest := by
  cases o with
  | none =>
    rw [show optSetter none (fun v => pre ++ v) = none from rfl, emitFM_cons_none]
    rfl
  | some v =>
    have hvne := cleanName_ne_empty v ho
    rw [optSetter_some_ne _ _ hvne]
    rw [emitFM_cons_some _ (by
      apply strne_empty_of_data
      rw [show (pre ++ v).data = pre.data ++ v.data from by simp [String.data_append]]
      intro heq
      rcases List.append_eq_nil.mp heq with ⟨h1, _⟩
      exact hprene h1)]
    rw [hpre v]
    rw [show optKVs kstr (some v) = [(kstr, v)] from by rw [optKVs, if_neg hvne]]
    rfl

theorem emitFM_opt_quoted (kstr pre : String) (o : Option String) (ho : OptClean o)
    (hpre : ∀ x, pre ++ qName x = "set " ++ kstr ++ " " ++ qName x)
    (hprene : pre.data ≠ [])
    (rest : List (Option String)) :
    emitFM (optSetter o (fun x => pre ++ qName x) :: rest) =
      ((qKVs kstr o).map (fun kv => "        " ++ ("set " ++ kv.1 ++ " " ++ kv.2))) ++
        emitFM rest := by
  cases o with
  | none =>
    rw [show optSetter none (fun x => pre ++ qName x) = none from rfl, emitFM_cons_none]
    rfl
  | some x =>
    have hvne := cleanName_ne_empty x ho
    rw [optSetter_some_ne _ _ hvne]
    rw [emitFM_cons_some _ (by
      apply strne_empty_of_data
      rw [show (pre ++ qName x).data = pre.data ++ (qName x).data from by
        simp [String.data_append]]
      intro heq
      rcases List.append_eq_nil.mp heq with ⟨h1, _⟩
      exact hprene h1)]
    rw [hpre x]
    rw [show qKVs kstr (some x) = [(kstr, qName x)] from by rw [qKVs, if_neg hvne]]
    rfl

/-! ### The address-group block -/

def grpKVs (g : AddressGroup) : List (String × String) :=
  (if g.members ≠ [] then
    [("member", joinSep " " ((pySortedSet g.members).map qName))] else []) ++
  qKVs "comment" g.comment

theorem clean_head_last (v : String) (h : CleanName v) :
    (∀ c, v.data.head? = some c → isSpaceChar c = false) ∧
    (∀ c, v.data.getLast? = some c → isSpaceChar c = false) :=
  ⟨fun c hc => (h.2 c (mem_of_head?_eq hc)).1,
   fun c hc => (h.2 c (mem_of_getLast?_eq hc)).1⟩

theorem optKVs_ok (kstr : String) (o : Option String) (ho : OptClean o)
    (hkc : CleanName kstr) :
    ∀ kv ∈ optKVs kstr o, SetOK kv ∧ CleanName kv.1 ∧ '\n' ∉ kv.2.data := by
  intro kv hkv
  cases o with
  | none => exact absurd hkv (by simp [optKVs])
  | some v =>
    have hvc : CleanName v := ho
    rw [optKVs, if_neg (cleanName_ne_empty v hvc)] at hkv
    rw [List.mem_singleton.mp hkv]
    obtain ⟨hh, hl⟩ := clean_head_last v hvc
    exact ⟨SetOK_unquoted kstr v hkc hvc.1 (fun c hc => (hvc.2 c hc).2) hh hl, hkc,
      no_nl_clean v hvc⟩

theorem qKVs_ok_of_walk (kstr : String) (o : Option String) (ho : OptClean o)
    (hkc : CleanName kstr)
    (hwalk : ∀ rest b, editScan (("set " ++ kstr ++ " ").data ++ rest) b = editScan rest true) :
    ∀ kv ∈ qKVs kstr o, SetOK kv ∧ CleanName kv.1 ∧ '\n' ∉ kv.2.data := by
  intro kv hkv
  cases o with
  | none => exact absurd hkv (by simp [qKVs])
  | some x =>
    have hxc : CleanName x := ho
    rw [qKVs, if_neg (cleanName_ne_empty x hxc)] at hkv
    rw [List.mem_singleton.mp hkv]
    refine ⟨?_, hkc, no_nl_qName x hxc⟩
    have h2 := SetOK_quoted_of_walk kstr [x] hkc
      (by intro t ht; rw [List.mem_singleton.mp ht]; exact hxc) (by simp) hwalk
    rw [show joinSep " " ([x].map qName) = qName x from rfl] at h2
    exact h2

theorem pySortedSet_ne_nil (l : List String) (h : l ≠ []) : pySortedSet l ≠ [] := by
  rw [pySortedSet]
  intro heq
  have hlen := (sortLe_perm pyStrLe (dedupFirst l)).length_eq
  rw [show pySorted (dedupFirst l) = sortLe pyStrLe (dedupFirst l) from rfl] at heq
  rw [heq] at hlen
  cases hl : l with
  | nil => exact h hl
  | cons x t =>
    rw [hl] at hlen
    have := dedupFirst_ne_nil x t
    cases hd : dedupFirst (x :: t) with
    | nil => exact this hd
    | cons y r =>
      rw [hd] at hlen
      simp at hlen

theorem mem_pySortedSet_clean (l : List String) (hm : ∀ m ∈ l, CleanName m) :
    ∀ t ∈ pySortedSet l, CleanName t := by
  intro t ht
  rw [pySortedSet, mem_pySorted] at ht
  exact hm t ((mem_dedupFirst l).mp ht)

theorem grpKVs_ok (g : AddressGroup) (hm : ∀ m ∈ g.members, CleanName m)
    (hc : OptClean g.comment) :
    ∀ kv ∈ grpKVs g, SetOK kv ∧ CleanName kv.1 ∧ '\n' ∉ kv.2.data := by
  intro kv hkv
  rw [grpKVs] at hkv
  rcases List.mem_append.mp hkv with hkv2 | hkv2
  · by_cases hmm : g.members = []
    · rw [if_neg (by simp [hmm])] at hkv2
      exact absurd hkv2 (by simp)
    · rw [if_pos hmm] at hkv2
      rw [List.mem_singleton.mp hkv2]
      have htoks := mem_pySortedSet_clean g.members hm
      have htne := pySortedSet_ne_nil g.members hmm
      exact ⟨SetOK_quoted_of_walk "member" (pySortedSet g.members)
          (show CleanName "member" from by decide) htoks htne editScan_walk_member,
        show CleanName "member" from by decide,
        no_nl_qJoin (pySortedSet g.members) htoks⟩
  · exact qKVs_ok_of_walk "comment" g.comment hc (show CleanName "comment" from by decide)
      editScan_walk_comment kv hkv2

theorem grp_entry_lines (g : AddressGroup) (hc : OptClean g.comment)
    (hm : ∀ m ∈ g.members, CleanName m) :
    emitEditBlock g.name
      [optSetter (if g.members ≠ [] then
          some (joinSep " " ((pySortedSet g.members).map qName)) else none)
        (fun m => "set member " ++ m),
       optSetter g.comment (fun c => "set comment " ++ qName c)] =
    entryLines g.name (grpKVs g) := by
  rw [emitEditBlock_eq_emitFM, entryLines, grpKVs]
  by_cases hmm : g.members = []
  · rw [if_neg (by simp [hmm]), if_neg (by simp [hmm])]
    rw [show optSetter none (fun m => "set member " ++ m) = none from rfl, emitFM_cons_none]
    rw [emitFM_opt_quoted "comment" "set comment " g.comment hc
      (fun x => by apply strData_ext; simp [String.data_append]) (by decide) []]
    rw [show emitFM [] = [] from rfl, List.append_nil, List.nil_append]
  · rw [if_pos hmm, if_pos hmm]
    have htoks := mem_pySortedSet_clean g.members hm
    have htne := pySortedSet_ne_nil g.members hmm
    have hjne : joinSep " " ((pySortedSet g.members).map qName) ≠ "" :=
      strne_empty_of_data _ (qJoin_data_ne _ htoks htne)
    rw [optSetter_some_ne _ _ hjne]
    rw [emitFM_cons_some _ (by
      apply strne_empty_of_data
      simp [String.data_append])]
    rw [emitFM_opt_quoted "comment" "set comment " g.comment hc
      (fun x => by apply strData_ext; simp [String.data_append]) (by decide) []]
    rw [show emitFM [] = [] from rfl, List.append_nil]
    rw [show ("set member " ++ joinSep " " ((pySortedSet g.members).map qName)) =
      "set " ++ "member" ++ " " ++ joinSep " " ((pySortedSet g.members).map qName) from by
        apply strData_ext
        simp [String.data_append]]
    rw [List.map_append]
    rfl

theorem generateAddressGroups_eq (d : Dict AddressGroup) (h : CleanGroups d)
    (hne : ¬d = []) :
    generateAddressGroups d = "config firewall addrgrp" ::
      (pySorted (dkeys d)).flatMap (fun nm => entryLines nm (grpKVs (dgetD d nm default))) ++
      ["end"] := by
  rw [generateAddressGroups, if_neg hne, emitBlock]
  have hcong := flatMap_congr (pySorted (dkeys d))
    (fun name =>
      let g := dgetD d name default
      let members : Option String :=
        if g.members ≠ [] then some (joinSep " " ((pySortedSet g.members).map qName)) else none
      emitEditBlock g.name
        [optSetter members (fun m => "set member " ++ m),
         optSetter g.comment (fun c => "set comment " ++ qName c)])
    (fun nm => entryLines nm (grpKVs (dgetD d nm default)))
    ?_
  · rw [hcong]
  · intro nm hmem
    rw [mem_pySorted] at hmem
    obtain ⟨g, hl, hmem2⟩ := dlookup_mem d nm hmem
    have hget : dgetD d nm default = g := by
      rw [dgetD, hl]
      rfl
    obtain ⟨hname, _, hmcl, _, hcom⟩ := h.2 (nm, g) hmem2
    show emitEditBlock (dgetD d nm default).name
      [optSetter (if (dgetD d nm default).members ≠ [] then
          some (joinSep " " ((pySortedSet (dgetD d nm default).members).map qName)) else none)
        (fun m => "set member " ++ m),
       optSetter (dgetD d nm default).comment (fun c => "set comment " ++ qName c)] =
      entryLines nm (grpKVs (dgetD d nm default))
    rw [hget]
    rw [grp_entry_lines g hcom hmcl]
    rw [hname]

def grpRecF (nk : String × Dict String) : AddressGroup :=
  { name := nk.1, members := splitMembers (dlookup nk.2 "member"),
    comment := stripQuotes (dlookup nk.2 "comment") }

theorem stripQuotes_qKVs (o : Option String) (ho : OptClean o) :
    stripQuotes (o.map qName) = o := by
  cases o with
  | none => rfl
  | some c =>
    rw [show (some c).map qName = some (qName c) from rfl]
    rw [show stripQuotes (some (qName c)) = some (stripQuotesStr (qName c)) from rfl]
    rw [stripQuotesStr_qName c ho]

theorem grpRecF_entry (nm : String) (g : AddressGroup) (hname : g.name = nm)
    (hm : ∀ m ∈ g.members, CleanName m) (hsorted : pySortedSet g.members = g.members)
    (hc : OptClean g.comment) :
    grpRecF (nm, entryDict (grpKVs g)) = g := by
  have hkeys : List.Sublist (dkeys (grpKVs g)) ["member", "comment"] := by
    rw [grpKVs, dkeys_append]
    rw [show (["member", "comment"] : List String) = ["member"] ++ ["comment"] from rfl]
    refine List.Sublist.append ?_ (sublist_keys_qKVs _ _)
    by_cases hmm : g.members = []
    · rw [if_neg (by simp [hmm])]
      exact List.nil_sublist _
    · rw [if_pos hmm]
      exact List.Sublist.refl _
  have hnodup : (dkeys (grpKVs g)).Nodup := hkeys.nodup (by decide)
  have hdict : entryDict (grpKVs g) = grpKVs g := entryDict_pairwise _ hnodup
  rw [hdict, grpRecF]
  simp only
  by_cases hmm : g.members = []
  · have hseg : grpKVs g = qKVs "comment" g.comment := by
      rw [grpKVs, if_neg (by simp [hmm]), List.nil_append]
    rw [hseg]
    rw [show dlookup (qKVs "comment" g.comment) "member" = none from
      dlookup_none_of_keys _ _ (fun x hx => (dkeys_qKVs _ _ x hx) ▸ (by decide))]
    rw [dlookup_qKVs_self _ _ hc, stripQuotes_qKVs _ hc]
    obtain ⟨gn, gm, gc⟩ := g
    simp only at hname hmm ⊢
    rw [hname, hmm]
    rfl
  · have hseg : grpKVs g =
        [("member", joinSep " " (g.members.map qName))] ++ qKVs "comment" g.comment := by
      rw [grpKVs, if_pos hmm, hsorted]
    rw [hseg]
    rw [dlookup_in_seg _ _ "member" _ (by rw [dlookup, if_pos rfl])]
    rw [dlookup_skip_seg _ _ "member" "comment"
      (by intro x hx; simp [dkeys] at hx; exact hx) (by decide)]
    rw [dlookup_qKVs_self _ _ hc, stripQuotes_qKVs _ hc]
    have htoks : ∀ t ∈ g.members, CleanName t := hm
    have hjne : joinSep " " (g.members.map qName) ≠ "" :=
      strne_empty_of_data _ (qJoin_data_ne _ htoks hmm)
    rw [splitMembers]
    rw [if_neg hjne]
    have hstrip : pyStrip (joinSep " " (g.members.map qName)) =
        joinSep " " (g.members.map qName) := by
      apply pyStrip_id_of_ends
      · exact qJoin_data_ne _ htoks hmm
      · intro c hcq
        rw [qJoin_data_head _ htoks hmm] at hcq
        injection hcq with h2
        rw [← h2]
        rfl
      · intro c hcq
        rw [qJoin_data_last _ htoks hmm] at hcq
        injection hcq with h2
        rw [← h2]
        rfl
    rw [hstrip]
    rw [findQuoted_qJoin g.members htoks hmm]
    rw [map_mk_map_data]
    obtain ⟨gn, gm, gc⟩ := g
    simp only at hname ⊢
    rw [hname]

theorem grp_parse_body (d : Dict AddressGroup) (h : CleanGroups d) :
    dictEqB (parseAddrGroupTable []
      (parseTable ((pySorted (dkeys d)).flatMap
        (fun nm => entryLines nm (grpKVs (dgetD d nm default)))))) d = true := by
  have hnames_nodup : (pySorted (dkeys d)).Nodup := pySorted_nodup _ h.1
  have hinfo : ∀ nm ∈ pySorted (dkeys d), ∃ g, dgetD d nm default = g ∧ g.name = nm ∧
      CleanName nm ∧ (∀ m ∈ g.members, CleanName m) ∧
      pySortedSet g.members = g.members ∧ OptClean g.comment := by
    intro nm hmem
    rw [mem_pySorted] at hmem
    obtain ⟨g, hl, hmem2⟩ := dlookup_mem d nm hmem
    obtain ⟨hname, hk, hmcl, hsort, hcom⟩ := h.2 (nm, g) hmem2
    exact ⟨g, by rw [dgetD, hl]; rfl, hname, hk, hmcl, hsort, hcom⟩
  have htbl : parseTable ((pySorted (dkeys d)).flatMap
      (fun nm => entryLines nm (grpKVs (dgetD d nm default)))) =
      (pySorted (dkeys d)).map (fun nm => (nm, entryDict (grpKVs (dgetD d nm default)))) := by
    rw [parseTable]
    rw [parseTableGo_entries (pySorted (dkeys d))
      (fun nm => grpKVs (dgetD d nm default)) []
      (by
        intro nm hm
        obtain ⟨g, hget, hname, hck, hmcl, hsort, hcom⟩ := hinfo nm hm
        exact hck)
      (by
        intro nm hm kv hkv
        obtain ⟨g, hget, hname, hck, hmcl, hsort, hcom⟩ := hinfo nm hm
        have hkv2 : kv ∈ grpKVs (dgetD d nm default) := hkv
        rw [hget] at hkv2
        exact (grpKVs_ok g hmcl hcom kv hkv2).1)
      (by intro nm hm; simp [dkeys])
      hnames_nodup]
    rw [List.nil_append]
  rw [htbl]
  have hfold : parseAddrGroupTable []
      ((pySorted (dkeys d)).map (fun nm => (nm, entryDict (grpKVs (dgetD d nm default))))) =
      ((pySorted (dkeys d)).map
        (fun nm => (nm, entryDict (grpKVs (dgetD d nm default))))).map
        (fun nk => (nk.1, grpRecF nk)) := by
    rw [parseAddrGroupTable]
    rw [foldl_congr_mem _ _ (fun c nk => dset c nk.1 (grpRecF nk)) [] (by
      intro nk hnk c
      rfl)]
    rw [foldl_dset_fresh grpRecF _ [] (by simp [dkeys]) (by
      rw [List.map_map]
      rw [show (Prod.fst ∘ fun nm =>
        (nm, entryDict (grpKVs (dgetD d nm default)))) = id from rfl]
      rw [List.map_id]
      exact hnames_nodup)]
    rw [List.nil_append]
  rw [hfold, List.map_map]
  have hvals : ((fun nk => ((nk : String × Dict String).1, grpRecF nk)) ∘
      (fun nm => (nm, entryDict (grpKVs (dgetD d nm default))))) =
      fun nm => (nm, grpRecF (nm, entryDict (grpKVs (dgetD d nm default)))) := rfl
  rw [hvals]
  have hmap : (pySorted (dkeys d)).map
      (fun nm => (nm, grpRecF (nm, entryDict (grpKVs (dgetD d nm default))))) =
      (pySorted (dkeys d)).map (fun nm => (nm, dgetD d nm default)) := by
    apply List.map_congr_left
    intro nm hm
    obtain ⟨g, hget, hname, hck, hmcl, hsort, hcom⟩ := hinfo nm hm
    rw [hget, grpRecF_entry nm g hname hmcl hsort hcom]
  rw [hmap]
  exact dictEqB_map_perm d (pySorted (dkeys d)) (fun nm => mem_pySorted _ nm)
    hnames_nodup h.1

/-! ### The service-group block (mirroring the address-group block) -/

def sgrpKVs (g : ServiceGroup) : List (String × String) :=
  (if g.members ≠ [] then
    [("member", joinSep " " ((pySortedSet g.members).map qName))] else []) ++
  qKVs "comment" g.comment

theorem sgrpKVs_ok (g : ServiceGroup) (hm : ∀ m ∈ g.members, CleanName m)
    (hc : OptClean g.comment) :
    ∀ kv ∈ sgrpKVs g, SetOK kv ∧ CleanName kv.1 ∧ '\n' ∉ kv.2.data := by
  intro kv hkv
  rw [sgrpKVs] at hkv
  rcases List.mem_append.mp hkv with hkv2 | hkv2
  · by_cases hmm : g.members = []
    · rw [if_neg (by simp [hmm])] at hkv2
      exact absurd hkv2 (by simp)
    · rw [if_pos hmm] at hkv2
      rw [List.mem_singleton.mp hkv2]
      have htoks := mem_pySortedSet_clean g.members hm
      have htne := pySortedSet_ne_nil g.members hmm
      exact ⟨SetOK_quoted_of_walk "member" (pySortedSet g.members)
          (show CleanName "member" from by decide) htoks htne editScan_walk_member,
        show CleanName "member" from by decide,
        no_nl_qJoin (pySortedSet g.members) htoks⟩
  · exact qKVs_ok_of_walk "comment" g.comment hc (show CleanName "comment" from by decide)
      editScan_walk_comment kv hkv2

theorem sgrp_entry_lines (g : ServiceGroup) (hc : OptClean g.comment)
    (hm : ∀ m ∈ g.members, CleanName m) :
    emitEditBlock g.name
      [optSetter (if g.members ≠ [] then
          some (joinSep " " ((pySortedSet g.members).map qName)) else none)
        (fun m => "set member " ++ m),
       optSetter g.comment (fun c => "set comment " ++ qName c)] =
    entryLines g.name (sgrpKVs g) := by
  rw [emitEditBlock_eq_emitFM, entryLines, sgrpKVs]
  by_cases hmm : g.members = []
  · rw [if_neg (by simp [hmm]), if_neg (by simp [hmm])]
    rw [show optSetter none (fun m => "set member " ++ m) = none from rfl, emitFM_cons_none]
    rw [emitFM_opt_quoted "comment" "set comment " g.comment hc
      (fun x => by apply strData_ext; simp [String.data_append]) (by decide) []]
    rw [show emitFM [] = [] from rfl, List.append_nil, List.nil_append]
  · rw [if_pos hmm, if_pos hmm]
    have htoks := mem_pySortedSet_clean g.members hm
    have htne := pySortedSet_ne_nil g.members hmm
    have hjne : joinSep " " ((pySortedSet g.members).map qName) ≠ "" :=
      strne_empty_of_data _ (qJoin_data_ne _ htoks htne)
    rw [optSetter_some_ne _ _ hjne]
    rw [emitFM_cons_some _ (by
      apply strne_empty_of_data
      simp [String.data_append])]
    rw [emitFM_opt_quoted "comment" "set comment " g.comment hc
      (fun x => by apply strData_ext; simp [String.data_append]) (by decide) []]
    rw [show emitFM [] = [] from rfl, List.append_nil]
    rw [show ("set member " ++ joinSep " " ((pySortedSet g.members).map qName)) =
      "set " ++ "member" ++ " " ++ joinSep " " ((pySortedSet g.members).map qName) from by
        apply strData_ext
        simp [String.data_append]]
    rw [List.map_append]
    rfl

theorem generateServiceGroups_eq (d : Dict ServiceGroup) (h : CleanSvcGroups d)
    (hne : ¬d = []) :
    generateServiceGroups d = "config firewall service group" ::
      (pySorted (dkeys d)).flatMap (fun nm => entryLines nm (sgrpKVs (dgetD d nm default))) ++
      ["end"] := by
  rw [generateServiceGroups, if_neg hne, emitBlock]
  have hcong := flatMap_congr (pySorted (dkeys d))
    (fun name =>
      let g := dgetD d name default
      let members : Option String :=
        if g.members ≠ [] then some (joinSep " " ((pySortedSet g.members).map qName)) else none
      emitEditBlock g.name
        [optSetter members (fun m => "set member " ++ m),
         optSetter g.comment (fun c => "set comment " ++ qName c)])
    (fun nm => entryLines nm (sgrpKVs (dgetD d nm default)))
    ?_
  · rw [hcong]
  · intro nm hmem
    rw [mem_pySorted] at hmem
    obtain ⟨g, hl, hmem2⟩ := dlookup_mem d nm hmem
    have hget : dgetD d nm default = g := by
      rw [dgetD, hl]
      rfl
    obtain ⟨hname, _, hmcl, _, hcom⟩ := h.2 (nm, g) hmem2
    show emitEditBlock (dgetD d nm default).name
      [optSetter (if (dgetD d nm default).members ≠ [] then
          some (joinSep " " ((pySortedSet (dgetD d nm default).members).map qName)) else none)
        (fun m => "set member " ++ m),
       optSetter (dgetD d nm default).comment (fun c => "set comment " ++ qName c)] =
      entryLines nm (sgrpKVs (dgetD d nm default))
    rw [hget]
    rw [sgrp_entry_lines g hcom hmcl]
    rw [hname]

def sgrpRecF (nk : String × Dict String) : ServiceGroup :=
  { name := nk.1, members := splitMembers (dlookup nk.2 "member"),
    comment := stripQuotes (dlookup nk.2 "comment") }

theorem sgrpRecF_entry (nm : String) (g : ServiceGroup) (hname : g.name = nm)
    (hm : ∀ m ∈ g.members, CleanName m) (hsorted : pySortedSet g.members = g.members)
    (hc : OptClean g.comment) :
    sgrpRecF (nm, entryDict (sgrpKVs g)) = g := by
  have hkeys : List.Sublist (dkeys (sgrpKVs g)) ["member", "comment"] := by
    rw [sgrpKVs, dkeys_append]
    rw [show (["member", "comment"] : List String) = ["member"] ++ ["comment"] from rfl]
    refine List.Sublist.append ?_ (sublist_keys_qKVs _ _)
    by_cases hmm : g.members = []
    · rw [if_neg (by simp [hmm])]
      exact List.nil_sublist _
    · rw [if_pos hmm]
      exact List.Sublist.refl _
  have hnodup : (dkeys (sgrpKVs g)).Nodup := hkeys.nodup (by decide)
  have hdict : entryDict (sgrpKVs g) = sgrpKVs g := entryDict_pairwise _ hnodup
  rw [hdict, sgrpRecF]
  simp only
  by_cases hmm : g.members = []
  · have hseg : sgrpKVs g = qKVs "comment" g.comment := by
      rw [sgrpKVs, if_neg (by simp [hmm]), List.nil_append]
    rw [hseg]
    rw [show dlookup (qKVs "comment" g.comment) "member" = none from
      dlookup_none_of_keys _ _ (fun x hx => (dkeys_qKVs _ _ x hx) ▸ (by decide))]
    rw [dlookup_qKVs_self _ _ hc, stripQuotes_qKVs _ hc]
    obtain ⟨gn, gm, gc⟩ := g
    simp only at hname hmm ⊢
    rw [hname, hmm]
    rfl
  · have hseg : sgrpKVs g =
        [("member", joinSep " " (g.members.map qName))] ++ qKVs "comment" g.comment := by
      rw [sgrpKVs, if_pos hmm, hsorted]
    rw [hseg]
    rw [dlookup_in_seg _ _ "member" _ (by rw [dlookup, if_pos rfl])]
    rw [dlookup_skip_seg _ _ "member" "comment"
      (by intro x hx; simp [dkeys] at hx; exact hx) (by decide)]
    rw [dlookup_qKVs_self _ _ hc, stripQuotes_qKVs _ hc]
    have htoks : ∀ t ∈ g.members, CleanName t := hm
    have hjne : joinSep " " (g.members.map qName) ≠ "" :=
      strne_empty_of_data _ (qJoin_data_ne _ htoks hmm)
    rw [splitMembers]
    rw [if_neg hjne]
    have hstrip : pyStrip (joinSep " " (g.members.map qName)) =
        joinSep " " (g.members.map qName) := by
      apply pyStrip_id_of_ends
      · exact qJoin_data_ne _ htoks hmm
      · intro c hcq
        rw [qJoin_data_head _ htoks hmm] at hcq
        injection hcq with h2
        rw [← h2]
        rfl
      · intro c hcq
        rw [qJoin_data_last _ htoks hmm] at hcq
        injection hcq with h2
        rw [← h2]
        rfl
    rw [hstrip]
    rw [findQuoted_qJoin g.members htoks hmm]
    rw [map_mk_map_data]
    obtain ⟨gn, gm, gc⟩ := g
    simp only at hname ⊢
    rw [hname]

theorem sgrp_parse_body (d : Dict ServiceGroup) (h : CleanSvcGroups d) :
    dictEqB (parseServiceGroupTable []
      (parseTable ((pySorted (dkeys d)).flatMap
        (fun nm => entryLines nm (sgrpKVs (dgetD d nm default)))))) d = true := by
  have hnames_nodup : (pySorted (dkeys d)).Nodup := pySorted_nodup _ h.1
  have hinfo : ∀ nm ∈ pySorted (dkeys d), ∃ g, dgetD d nm default = g ∧ g.name = nm ∧
      CleanName nm ∧ (∀ m ∈ g.members, CleanName m) ∧
      pySortedSet g.members = g.members ∧ OptClean g.comment := by
    intro nm hmem
    rw [mem_pySorted] at hmem
    obtain ⟨g, hl, hmem2⟩ := dlookup_mem d nm hmem
    obtain ⟨hname, hk, hmcl, hsort, hcom⟩ := h.2 (nm, g) hmem2
    exact ⟨g, by rw [dgetD, hl]; rfl, hname, hk, hmcl, hsort, hcom⟩
  have htbl : parseTable ((pySorted (dkeys d)).flatMap
      (fun nm => entryLines nm (sgrpKVs (dgetD d nm default)))) =
      (pySorted (dkeys d)).map (fun nm => (nm, entryDict (sgrpKVs (dgetD d nm default)))) := by
    rw [parseTable]
    rw [parseTableGo_entries (pySorted (dkeys d))
      (fun nm => sgrpKVs (dgetD d nm default)) []
      (by
        intro nm hm
        obtain ⟨g, hget, hname, hck, hmcl, hsort, hcom⟩ := hinfo nm hm
        exact hck)
      (by
        intro nm hm kv hkv
        obtain ⟨g, hget, hname, hck, hmcl, hsort, hcom⟩ := hinfo nm hm
        have hkv2 : kv ∈ sgrpKVs (dgetD d nm default) := hkv
        rw [hget] at hkv2
        exact (sgrpKVs_ok g hmcl hcom kv hkv2).1)
      (by intro nm hm; simp [dkeys])
      hnames_nodup]
    rw [List.nil_append]
  rw [htbl]
  have hfold : parseServiceGroupTable []
      ((pySorted (dkeys d)).map (fun nm => (nm, entryDict (sgrpKVs (dgetD d nm default))))) =
      ((pySorted (dkeys d)).map
        (fun nm => (nm, entryDict (sgrpKVs (dgetD d nm default))))).map
        (fun nk => (nk.1, sgrpRecF nk)) := by
    rw [parseServiceGroupTable]
    rw [foldl_congr_mem _ _ (fun c nk => dset c nk.1 (sgrpRecF nk)) [] (by
      intro nk hnk c
      rfl)]
    rw [foldl_dset_fresh sgrpRecF _ [] (by simp [dkeys]) (by
      rw [List.map_map]
      rw [show (Prod.fst ∘ fun nm =>
        (nm, entryDict (sgrpKVs (dgetD d nm default)))) = id from rfl]
      rw [List.map_id]
      exact hnames_nodup)]
    rw [List.nil_append]
  rw [hfold, List.map_map]
  have hvals : ((fun nk => ((nk : String × Dict String).1, sgrpRecF nk)) ∘
      (fun nm => (nm, entryDict (sgrpKVs (dgetD d nm default))))) =
      fun nm => (nm, sgrpRecF (nm, entryDict (sgrpKVs (dgetD d nm default)))) := rfl
  rw [hvals]
  have hmap : (pySorted (dkeys d)).map
      (fun nm => (nm, sgrpRecF (nm, entryDict (sgrpKVs (dgetD d nm default))))) =
      (pySorted (dkeys d)).map (fun nm => (nm, dgetD d nm default)) := by
    apply List.map_congr_left
    intro nm hm
    obtain ⟨g, hget, hname, hck, hmcl, hsort, hcom⟩ := hinfo nm hm
    rw [hget, sgrpRecF_entry nm g hname hmcl hsort hcom]
  rw [hmap]
  exact dictEqB_map_perm d (pySorted (dkeys d)) (fun nm => mem_pySorted _ nm)
    hnames_nodup h.1

/-! ### The service block -/

theorem stripQuotes_optClean (o : Option String) (ho : OptClean o) :
    stripQuotes o = o := by
  cases o with
  | none => rfl
  | some v =>
    rw [show stripQuotes (some v) = some (stripQuotesStr v) from rfl]
    rw [stripQuotesStr_clean v ho]

theorem dlookup_optKVs_append (k : String) (o : Option String) (ho : OptClean o)
    (rest : Dict String) (hrest : ∀ x ∈ dkeys rest, x ≠ k) :
    dlookup (optKVs k o ++ rest) k = o := by
  rw [dlookup_append_cases, dlookup_optKVs_self k o ho]
  cases o with
  | none => exact dlookup_none_of_keys rest k hrest
  | some v => rfl

theorem dlookup_qKVs_append (k : String) (o : Option String) (ho : OptClean o)
    (rest : Dict String) (hrest : ∀ x ∈ dkeys rest, x ≠ k) :
    dlookup (qKVs k o ++ rest) k = o.map qName := by
  rw [dlookup_append_cases, dlookup_qKVs_self k o ho]
  cases o with
  | none => exact dlookup_none_of_keys rest k hrest
  | some v => rfl

def svcKVs (sv : Service) : List (String × String) :=
  optKVs "tcp-portrange" sv.tcp_portrange ++
    (optKVs "udp-portrange" sv.udp_portrange ++ qKVs "comment" sv.comment)

theorem svcKVs_ok (sv : Service) (ht : OptClean sv.tcp_portrange)
    (hu : OptClean sv.udp_portrange) (hc : OptClean sv.comment) :
    ∀ kv ∈ svcKVs sv, SetOK kv ∧ CleanName kv.1 ∧ '\n' ∉ kv.2.data := by
  intro kv hkv
  rw [svcKVs] at hkv
  rcases List.mem_append.mp hkv with hkv2 | hkv2
  · exact optKVs_ok "tcp-portrange" _ ht (show CleanName "tcp-portrange" from by decide)
      kv hkv2
  · rcases List.mem_append.mp hkv2 with hkv3 | hkv3
    · exact optKVs_ok "udp-portrange" _ hu (show CleanName "udp-portrange" from by decide)
        kv hkv3
    · exact qKVs_ok_of_walk "comment" _ hc (show CleanName "comment" from by decide)
        editScan_walk_comment kv hkv3

theorem svc_entry_lines (sv : Service) (ht : OptClean sv.tcp_portrange)
    (hu : OptClean sv.udp_portrange) (hc : OptClean sv.comment) :
    emitEditBlock sv.name
      [optSetter sv.tcp_portrange (fun v => "set tcp-portrange " ++ v),
       optSetter sv.udp_portrange (fun v => "set udp-portrange " ++ v),
       optSetter sv.comment (fun c => "set comment " ++ qName c)] =
    entryLines sv.name (svcKVs sv) := by
  rw [emitEditBlock_eq_emitFM, entryLines, svcKVs]
  rw [emitFM_opt_plain "tcp-portrange" "set tcp-portrange " _ ht
    (fun v => by apply strData_ext; simp [String.data_append]) (by decide) _]
  rw [emitFM_opt_plain "udp-portrange" "set udp-portrange " _ hu
    (fun v => by apply strData_ext; simp [String.data_append]) (by decide) _]
  rw [emitFM_opt_quoted "comment" "set comment " _ hc
    (fun x => by apply strData_ext; simp [String.data_append]) (by decide) []]
  rw [show emitFM [] = [] from rfl, List.append_nil]
  rw [List.map_append, List.map_append]

def svcRecF (nk : String × Dict String) : Service :=
  { name := nk.1,
    tcp_portrange := stripQuotes (dlookup nk.2 "tcp-portrange"),
    udp_portrange := stripQuotes (dlookup nk.2 "udp-portrange"),
    comment := stripQuotes (dlookup nk.2 "comment") }

theorem svcRecF_entry (nm : String) (sv : Service) (hname : sv.name = nm)
    (ht : OptClean sv.tcp_portrange) (hu : OptClean sv.udp_portrange)
    (hc : OptClean sv.comment) :
    svcRecF (nm, entryDict (svcKVs sv)) = sv := by
  have hkeys : List.Sublist (dkeys (svcKVs sv))
      ["tcp-portrange", "udp-portrange", "comment"] := by
    rw [svcKVs, dkeys_append, dkeys_append]
    rw [show (["tcp-portrange", "udp-portrange", "comment"] : List String) =
      ["tcp-portrange"] ++ (["udp-portrange"] ++ ["comment"]) from rfl]
    exact List.Sublist.append (sublist_keys_optKVs _ _)
      (List.Sublist.append (sublist_keys_optKVs _ _) (sublist_keys_qKVs _ _))
  have hnodup : (dkeys (svcKVs sv)).Nodup := hkeys.nodup (by decide)
  have hdict : entryDict (svcKVs sv) = svcKVs sv := entryDict_pairwise _ hnodup
  rw [hdict, svcRecF, svcKVs]
  simp only
  rw [dlookup_optKVs_append "tcp-portrange" _ ht _ (by
    intro x hx
    rcases List.mem_append.mp (by rw [← dkeys_append]; exact hx) with hx2 | hx2
    · exact (dkeys_optKVs _ _ x hx2) ▸ (by decide)
    · exact (dkeys_qKVs _ _ x hx2) ▸ (by decide))]
  rw [dlookup_skip_seg _ _ "tcp-portrange" "udp-portrange" (dkeys_optKVs _ _) (by decide)]
  rw [dlookup_optKVs_append "udp-portrange" _ hu _ (fun x hx =>
    (dkeys_qKVs _ _ x hx) ▸ (by decide))]
  rw [dlookup_skip_seg _ _ "tcp-portrange" "comment" (dkeys_optKVs _ _) (by decide)]
  rw [dlookup_skip_seg _ _ "udp-portrange" "comment" (dkeys_optKVs _ _) (by decide)]
  rw [dlookup_qKVs_self _ _ hc]
  rw [stripQuotes_optClean _ ht, stripQuotes_optClean _ hu, stripQuotes_qKVs _ hc]
  obtain ⟨sn, st, su, sc⟩ := sv
  simp only at hname ⊢
  rw [hname]

theorem generateServices_eq (d : Dict Service) (h : CleanServices d) (hne : ¬d = []) :
    generateServices d = "config firewall service custom" ::
      (pySorted (dkeys d)).flatMap (fun nm => entryLines nm (svcKVs (dgetD d nm default))) ++
      ["end"] := by
  rw [generateServices, if_neg hne, emitBlock]
  have hcong := flatMap_congr (pySorted (dkeys d))
    (fun name =>
      let s := dgetD d name default
      emitEditBlock s.name
        [optSetter s.tcp_portrange (fun v => "set tcp-portrange " ++ v),
         optSetter s.udp_portrange (fun v => "set udp-portrange " ++ v),
         optSetter s.comment (fun c => "set comment " ++ qName c)])
    (fun nm => entryLines nm (svcKVs (dgetD d nm default)))
    ?_
  · rw [hcong]
  · intro nm hmem
    rw [mem_pySorted] at hmem
    obtain ⟨sv, hl, hmem2⟩ := dlookup_mem d nm hmem
    have hget : dgetD d nm default = sv := by
      rw [dgetD, hl]
      rfl
    obtain ⟨hname, _, ht, hu, hcom⟩ := h.2 (nm, sv) hmem2
    show emitEditBlock (dgetD d nm default).name
      [optSetter (dgetD d nm default).tcp_portrange (fun v => "set tcp-portrange " ++ v),
       optSetter (dgetD d nm default).udp_portrange (fun v => "set udp-portrange " ++ v),
       optSetter (dgetD d nm default).comment (fun c => "set comment " ++ qName c)] =
      entryLines nm (svcKVs (dgetD d nm default))
    rw [hget]
    rw [svc_entry_lines sv ht hu hcom]
    rw [hname]

theorem svc_parse_body (d : Dict Service) (h : CleanServices d) :
    dictEqB (parseServiceTable []
      (parseTable ((pySorted (dkeys d)).flatMap
        (fun nm => entryLines nm (svcKVs (dgetD d nm default)))))) d = true := by
  have hnames_nodup : (pySorted (dkeys d)).Nodup := pySorted_nodup _ h.1
  have hinfo : ∀ nm ∈ pySorted (dkeys d), ∃ sv, dgetD d nm default = sv ∧ sv.name = nm ∧
      CleanName nm ∧ OptClean sv.tcp_portrange ∧ OptClean sv.udp_portrange ∧
      OptClean sv.comment := by
    intro nm hmem
    rw [mem_pySorted] at hmem
    obtain ⟨sv, hl, hmem2⟩ := dlookup_mem d nm hmem
    obtain ⟨hname, hk, ht, hu, hcom⟩ := h.2 (nm, sv) hmem2
    exact ⟨sv, by rw [dgetD, hl]; rfl, hname, hk, ht, hu, hcom⟩
  have htbl : parseTable ((pySorted (dkeys d)).flatMap
      (fun nm => entryLines nm (svcKVs (dgetD d nm default)))) =
      (pySorted (dkeys d)).map (fun nm => (nm, entryDict (svcKVs (dgetD d nm default)))) := by
    rw [parseTable]
    rw [parseTableGo_entries (pySorted (dkeys d))
      (fun nm => svcKVs (dgetD d nm default)) []
      (by
        intro nm hm
        obtain ⟨sv, hget, hname, hck, ht, hu, hcom⟩ := hinfo nm hm
        exact hck)
      (by
        intro nm hm kv hkv
        obtain ⟨sv, hget, hname, hck, ht, hu, hcom⟩ := hinfo nm hm
        have hkv2 : kv ∈ svcKVs (dgetD d nm default) := hkv
        rw [hget] at hkv2
        exact (svcKVs_ok sv ht hu hcom kv hkv2).1)
      (by intro nm hm; simp [dkeys])
      hnames_nodup]
    rw [List.nil_append]
  rw [htbl]
  have hfold : parseServiceTable []
      ((pySorted (dkeys d)).map (fun nm => (nm, entryDict (svcKVs (dgetD d nm default))))) =
      ((pySorted (dkeys d)).map
        (fun nm => (nm, entryDict (svcKVs (dgetD d nm default))))).map
        (fun nk => (nk.1, svcRecF nk)) := by
    rw [parseServiceTable]
    rw [foldl_congr_mem _ _ (fun c nk => dset c nk.1 (svcRecF nk)) [] (by
      intro nk hnk c
      rfl)]
    rw [foldl_dset_fresh svcRecF _ [] (by simp [dkeys]) (by
      rw [List.map_map]
      rw [show (Prod.fst ∘ fun nm =>
        (nm, entryDict (svcKVs (dgetD d nm default)))) = id from rfl]
      rw [List.map_id]
      exact hnames_nodup)]
    rw [List.nil_append]
  rw [hfold, List.map_map]
  have hvals : ((fun nk => ((nk : String × Dict String).1, svcRecF nk)) ∘
      (fun nm => (nm, entryDict (svcKVs (dgetD d nm default))))) =
      fun nm => (nm, svcRecF (nm, entryDict (svcKVs (dgetD d nm default)))) := rfl
  rw [hvals]
  have hmap : (pySorted (dkeys d)).map
      (fun nm => (nm, svcRecF (nm, entryDict (svcKVs (dgetD d nm default))))) =
      (pySorted (dkeys d)).map (fun nm => (nm, dgetD d nm default)) := by
    apply List.map_congr_left
    intro nm hm
    obtain ⟨sv, hget, hname, hck, ht, hu, hcom⟩ := hinfo nm hm
    rw [hget, svcRecF_entry nm sv hname ht hu hcom]
  rw [hmap]
  exact dictEqB_map_perm d (pySorted (dkeys d)) (fun nm => mem_pySorted _ nm)
    hnames_nodup h.1

/-! ### The ippool block -/

def poolKVs (p : IpPool) : List (String × String) :=
  ("startip", p.startip) :: ("endip", p.endip) ::
    (optKVs "type" p.pool_type ++ qKVs "comment" p.comment)

theorem poolKVs_ok (p : IpPool) (hs : CleanName p.startip) (he : CleanName p.endip)
    (htp : OptClean p.pool_type) (hc : OptClean p.comment) :
    ∀ kv ∈ poolKVs p, SetOK kv ∧ CleanName kv.1 ∧ '\n' ∉ kv.2.data := by
  intro kv hkv
  rw [poolKVs] at hkv
  rcases List.mem_cons.mp hkv with rfl | hkv2
  · obtain ⟨hh, hl⟩ := clean_head_last p.startip hs
    exact ⟨SetOK_unquoted "startip" _ (show CleanName "startip" from by decide) hs.1
        (fun c hc2 => (hs.2 c hc2).2) hh hl,
      show CleanName "startip" from by decide, no_nl_clean _ hs⟩
  · rcases List.mem_cons.mp hkv2 with rfl | hkv3
    · obtain ⟨hh, hl⟩ := clean_head_last p.endip he
      exact ⟨SetOK_unquoted "endip" _ (show CleanName "endip" from by decide) he.1
          (fun c hc2 => (he.2 c hc2).2) hh hl,
        show CleanName "endip" from by decide, no_nl_clean _ he⟩
    · rcases List.mem_append.mp hkv3 with hkv4 | hkv4
      · exact optKVs_ok "type" _ htp (show CleanName "type" from by decide) kv hkv4
      · exact qKVs_ok_of_walk "comment" _ hc (show CleanName "comment" from by decide)
          editScan_walk_comment kv hkv4

theorem pool_entry_lines (p : IpPool) (hs : CleanName p.startip) (he : CleanName p.endip)
    (htp : OptClean p.pool_type) (hc : OptClean p.comment) :
    emitEditBlock p.name
      [some ("set startip " ++ p.startip),
       some ("set endip " ++ p.endip),
       optSetter p.pool_type (fun t => "set type " ++ t),
       optSetter p.comment (fun c => "set comment " ++ qName c)] =
    entryLines p.name (poolKVs p) := by
  rw [emitEditBlock_eq_emitFM, entryLines, poolKVs]
  rw [emitFM_cons_some _ (by
    apply strne_empty_of_data
    simp [String.data_append])]
  rw [emitFM_cons_some _ (by
    apply strne_empty_of_data
    simp [String.data_append])]
  rw [emitFM_opt_plain "type" "set type " _ htp
    (fun v => by apply strData_ext; simp [String.data_append]) (by decide) _]
  rw [emitFM_opt_quoted "comment" "set comment " _ hc
    (fun x => by apply strData_ext; simp [String.data_append]) (by decide) []]
  rw [show emitFM [] = [] from rfl, List.append_nil]
  rw [List.map_cons, List.map_cons, List.map_append]
  rw [show ("set startip " ++ p.startip) = "set " ++ "startip" ++ " " ++ p.startip from by
    apply strData_ext
    simp [String.data_append]]
  rw [show ("set endip " ++ p.endip) = "set " ++ "endip" ++ " " ++ p.endip from by
    apply strData_ext
    simp [String.data_append]]

def ippoolRecF (nk : String × Dict String) : IpPool :=
  { name := nk.1,
    startip := stripQuotesStr (dgetD nk.2 "startip" ""),
    endip := stripQuotesStr (dgetD nk.2 "endip" ""),
    pool_type :=
      match stripQuotes (dlookup nk.2 "type") with
      | some t => if t = "" then none else some t
      | none => none,
    comment := stripQuotes (dlookup nk.2 "comment") }

theorem ippoolRecF_entry (nm : String) (p : IpPool) (hname : p.name = nm)
    (hs : CleanName p.startip) (he : CleanName p.endip)
    (htp : OptClean p.pool_type) (hc : OptClean p.comment) :
    ippoolRecF (nm, entryDict (poolKVs p)) = p := by
  have hkeys : List.Sublist (dkeys (poolKVs p))
      ["startip", "endip", "type", "comment"] := by
    rw [poolKVs]
    rw [show dkeys (("startip", p.startip) :: ("endip", p.endip) ::
      (optKVs "type" p.pool_type ++ qKVs "comment" p.comment)) =
      "startip" :: "endip" :: dkeys (optKVs "type" p.pool_type ++ qKVs "comment" p.comment)
      from rfl]
    rw [show (["startip", "endip", "type", "comment"] : List String) =
      "startip" :: "endip" :: (["type"] ++ ["comment"]) from rfl]
    refine List.Sublist.cons₂ _ (List.Sublist.cons₂ _ ?_)
    rw [dkeys_append]
    exact List.Sublist.append (sublist_keys_optKVs _ _) (sublist_keys_qKVs _ _)
  have hnodup : (dkeys (poolKVs p)).Nodup := hkeys.nodup (by decide)
  have hdict : entryDict (poolKVs p) = poolKVs p := entryDict_pairwise _ hnodup
  rw [hdict, ippoolRecF, poolKVs]
  simp only
  rw [show dgetD (("startip", p.startip) :: ("endip", p.endip) ::
    (optKVs "type" p.pool_type ++ qKVs "comment" p.comment)) "startip" "" = p.startip from by
      rw [dgetD, dlookup, if_pos rfl]
      rfl]
  rw [show dgetD (("startip", p.startip) :: ("endip", p.endip) ::
    (optKVs "type" p.pool_type ++ qKVs "comment" p.comment)) "endip" "" = p.endip from by
      rw [dgetD, dlookup, if_neg (by decide), dlookup, if_pos rfl]
      rfl]
  rw [show dlookup (("startip", p.startip) :: ("endip", p.endip) ::
    (optKVs "type" p.pool_type ++ qKVs "comment" p.comment)) "type" =
    dlookup (optKVs "type" p.pool_type ++ qKVs "comment" p.comment) "type" from by
      rw [dlookup, if_neg (by decide), dlookup, if_neg (by decide)]]
  rw [show dlookup (("startip", p.startip) :: ("endip", p.endip) ::
    (optKVs "type" p.pool_type ++ qKVs "comment" p.comment)) "comment" =
    dlookup (optKVs "type" p.pool_type ++ qKVs "comment" p.comment) "comment" from by
      rw [dlookup, if_neg (by decide), dlookup, if_neg (by decide)]]
  rw [dlookup_optKVs_append "type" _ htp _ (fun x hx => (dkeys_qKVs _ _ x hx) ▸ (by decide))]
  rw [dlookup_skip_seg _ _ "type" "comment" (dkeys_optKVs _ _) (by decide)]
  rw [dlookup_qKVs_self _ _ hc]
  rw [stripQuotesStr_clean _ hs, stripQuotesStr_clean _ he]
  rw [stripQuotes_optClean _ htp, stripQuotes_qKVs _ hc]
  have hpt : (match p.pool_type with
      | some t => if t = "" then none else some t
      | none => none) = p.pool_type := by
    cases hptc : p.pool_type with
    | none => rfl
    | some t =>
      have htc : CleanName t := by rw [hptc] at htp; exact htp
      rw [show (match some t with
        | some t => if t = "" then none else some t
        | none => none) = (if t = "" then none else some t) from rfl]
      rw [if_neg (cleanName_ne_empty t htc)]
  rw [hpt]
  obtain ⟨pn, ps, pe, pt, pc⟩ := p
  simp only at hname ⊢
  rw [hname]

theorem generateIppools_eq (d : Dict IpPool) (h : CleanPools d) (hne : ¬d = []) :
    generateIppools d = "config firewall ippool" ::
      (pySorted (dkeys d)).flatMap (fun nm => entryLines nm (poolKVs (dgetD d nm default))) ++
      ["end"] := by
  rw [generateIppools, if_neg hne, emitBlock]
  have hcong := flatMap_congr (pySorted (dkeys d))
    (fun name =>
      let p := dgetD d name default
      emitEditBlock p.name
        [some ("set startip " ++ p.startip),
         some ("set endip " ++ p.endip),
         optSetter p.pool_type (fun t => "set type " ++ t),
         optSetter p.comment (fun c => "set comment " ++ qName c)])
    (fun nm => entryLines nm (poolKVs (dgetD d nm default)))
    ?_
  · rw [hcong]
  · intro nm hmem
    rw [mem_pySorted] at hmem
    obtain ⟨p, hl, hmem2⟩ := dlookup_mem d nm hmem
    have hget : dgetD d nm default = p := by
      rw [dgetD, hl]
      rfl
    obtain ⟨hname, _, hs, he2, htp, hcom⟩ := h.2 (nm, p) hmem2
    show emitEditBlock (dgetD d nm default).name
      [some ("set startip " ++ (dgetD d nm default).startip),
       some ("set endip " ++ (dgetD d nm default).endip),
       optSetter (dgetD d nm default).pool_type (fun t => "set type " ++ t),
       optSetter (dgetD d nm default).comment (fun c => "set comment " ++ qName c)] =
      entryLines nm (poolKVs (dgetD d nm default))
    rw [hget]
    rw [pool_entry_lines p hs he2 htp hcom]
    rw [hname]

theorem pool_parse_body (d : Dict IpPool) (h : CleanPools d) :
    dictEqB (parseIppoolTable []
      (parseTable ((pySorted (dkeys d)).flatMap
        (fun nm => entryLines nm (poolKVs (dgetD d nm default)))))) d = true := by
  have hnames_nodup : (pySorted (dkeys d)).Nodup := pySorted_nodup _ h.1
  have hinfo : ∀ nm ∈ pySorted (dkeys d), ∃ p, dgetD d nm default = p ∧ p.name = nm ∧
      CleanName nm ∧ CleanName p.startip ∧ CleanName p.endip ∧ OptClean p.pool_type ∧
      OptClean p.comment := by
    intro nm hmem
    rw [mem_pySorted] at hmem
    obtain ⟨p, hl, hmem2⟩ := dlookup_mem d nm hmem
    obtain ⟨hname, hk, hs, he2, htp, hcom⟩ := h.2 (nm, p) hmem2
    exact ⟨p, by rw [dgetD, hl]; rfl, hname, hk, hs, he2, htp, hcom⟩
  have htbl : parseTable ((pySorted (dkeys d)).flatMap
      (fun nm => entryLines nm (poolKVs (dgetD d nm default)))) =
      (pySorted (dkeys d)).map (fun nm => (nm, entryDict (poolKVs (dgetD d nm default)))) := by
    rw [parseTable]
    rw [parseTableGo_entries (pySorted (dkeys d))
      (fun nm => poolKVs (dgetD d nm default)) []
      (by
        intro nm hm
        obtain ⟨p, hget, hname, hck, hs, he2, htp, hcom⟩ := hinfo nm hm
        exact hck)
      (by
        intro nm hm kv hkv
        obtain ⟨p, hget, hname, hck, hs, he2, htp, hcom⟩ := hinfo nm hm
        have hkv2 : kv ∈ poolKVs (dgetD d nm default) := hkv
        rw [hget] at hkv2
        exact (poolKVs_ok p hs he2 htp hcom kv hkv2).1)
      (by intro nm hm; simp [dkeys])
      hnames_nodup]
    rw [List.nil_append]
  rw [htbl]
  have hfold : parseIppoolTable []
      ((pySorted (dkeys d)).map (fun nm => (nm, entryDict (poolKVs (dgetD d nm default))))) =
      ((pySorted (dkeys d)).map
        (fun nm => (nm, entryDict (poolKVs (dgetD d nm default))))).map
        (fun nk => (nk.1, ippoolRecF nk)) := by
    rw [parseIppoolTable]
    rw [foldl_congr_mem _ _ (fun c nk => dset c nk.1 (ippoolRecF nk)) [] (by
      intro nk hnk c
      rfl)]
    rw [foldl_dset_fresh ippoolRecF _ [] (by simp [dkeys]) (by
      rw [List.map_map]
      rw [show (Prod.fst ∘ fun nm =>
        (nm, entryDict (poolKVs (dgetD d nm default)))) = id from rfl]
      rw [List.map_id]
      exact hnames_nodup)]
    rw [List.nil_append]
  rw [hfold, List.map_map]
  have hvals : ((fun nk => ((nk : String × Dict String).1, ippoolRecF nk)) ∘
      (fun nm => (nm, entryDict (poolKVs (dgetD d nm default))))) =
      fun nm => (nm, ippoolRecF (nm, entryDict (poolKVs (dgetD d nm default)))) := rfl
  rw [hvals]
  have hmap : (pySorted (dkeys d)).map
      (fun nm => (nm, ippoolRecF (nm, entryDict (poolKVs (dgetD d nm default))))) =
      (pySorted (dkeys d)).map (fun nm => (nm, dgetD d nm default)) := by
    apply List.map_congr_left
    intro nm hm
    obtain ⟨p, hget, hname, hck, hs, he2, htp, hcom⟩ := hinfo nm hm
    rw [hget, ippoolRecF_entry nm p hname hs he2 htp hcom]
  rw [hmap]
  exact dictEqB_map_perm d (pySorted (dkeys d)) (fun nm => mem_pySorted _ nm)
    hnames_nodup h.1

/-! ### The vip block -/

def vipKVs (v : Vip) : List (String × String) :=
  ("extip", v.extip) :: ("mappedip", qName v.mappedip) ::
    (qKVs "extintf" v.extintf ++
      ((if v.portforward then [("portforward", "enable")] else []) ++
        (optKVs "extport" v.extport ++
          (optKVs "mappedport" v.mappedport ++ qKVs "comment" v.comment))))

theorem dkeys_pf (b : Bool) :
    ∀ x ∈ dkeys (if b then [(("portforward" : String), ("enable" : String))] else []),
      x = "portforward" := by
  cases b with
  | false => simp [dkeys]
  | true => simp [dkeys]

theorem emitFM_pf (b : Bool) (rest : List (Option String)) :
    emitFM ((if b then some "set portforward enable" else none) :: rest) =
      ((if b then [(("portforward" : String), ("enable" : String))] else []).map
        (fun kv => "        " ++ ("set " ++ kv.1 ++ " " ++ kv.2))) ++ emitFM rest := by
  cases b with
  | false =>
    rw [if_neg (by simp), if_neg (by simp)]
    rw [emitFM_cons_none]
    rfl
  | true =>
    rw [if_pos rfl, if_pos rfl]
    rw [emitFM_cons_some _ (by decide)]
    rw [show ("set portforward enable" : String) =
      "set " ++ "portforward" ++ " " ++ "enable" from by decide]
    rfl

theorem vipKVs_ok (v : Vip) (hext : CleanName v.extip) (hmap : CleanName v.mappedip)
    (hintf : OptClean v.extintf) (hport : OptClean v.extport)
    (hmport : OptClean v.mappedport) (hc : OptClean v.comment) :
    ∀ kv ∈ vipKVs v, SetOK kv ∧ CleanName kv.1 ∧ '\n' ∉ kv.2.data := by
  intro kv hkv
  rw [vipKVs] at hkv
  rcases List.mem_cons.mp hkv with rfl | hkv2
  · obtain ⟨hh, hl⟩ := clean_head_last v.extip hext
    exact ⟨SetOK_unquoted "extip" _ (show CleanName "extip" from by decide) hext.1
        (fun c hc2 => (hext.2 c hc2).2) hh hl,
      show CleanName "extip" from by decide, no_nl_clean _ hext⟩
  · rcases List.mem_cons.mp hkv2 with rfl | hkv3
    · refine ⟨?_, show CleanName "mappedip" from by decide, no_nl_qName _ hmap⟩
      have h2 := SetOK_quoted_of_walk "mappedip" [v.mappedip]
        (show CleanName "mappedip" from by decide)
        (by intro t ht; rw [List.mem_singleton.mp ht]; exact hmap) (by simp)
        editScan_walk_mappedip
      rw [show joinSep " " ([v.mappedip].map qName) = qName v.mappedip from rfl] at h2
      exact h2
    · rcases List.mem_append.mp hkv3 with hkv4 | hkv4
      · exact qKVs_ok_of_walk "extintf" _ hintf (show CleanName "extintf" from by decide)
          editScan_walk_extintf kv hkv4
      · rcases List.mem_append.mp hkv4 with hkv5 | hkv5
        · cases hb : v.portforward with
          | false => rw [hb] at hkv5; exact absurd hkv5 (by simp)
          | true =>
            rw [hb] at hkv5
            have hkv6 : kv = ("portforward", "enable") := by simpa using hkv5
            subst hkv6
            exact ⟨SetOK_unquoted "portforward" "enable" (by decide) (by decide)
              (by decide) (by decide) (by decide),
              show CleanName "portforward" from by decide, by decide⟩
        · rcases List.mem_append.mp hkv5 with hkv6 | hkv6
          · exact optKVs_ok "extport" _ hport (show CleanName "extport" from by decide)
              kv hkv6
          · rcases List.mem_append.mp hkv6 with hkv7 | hkv7
            · exact optKVs_ok "mappedport" _ hmport
                (show CleanName "mappedport" from by decide) kv hkv7
            · exact qKVs_ok_of_walk "comment" _ hc (show CleanName "comment" from by decide)
                editScan_walk_comment kv hkv7

theorem vip_entry_lines (v : Vip) (hmap : CleanName v.mappedip)
    (hintf : OptClean v.extintf) (hport : OptClean v.extport)
    (hmport : OptClean v.mappedport) (hc : OptClean v.comment) :
    emitEditBlock v.name
      [some ("set extip " ++ v.extip),
       some ("set mappedip " ++ qName v.mappedip),
       optSetter v.extintf (fun x => "set extintf " ++ qName x),
       (if v.portforward then some "set portforward enable" else none),
       optSetter v.extport (fun x => "set extport " ++ x),
       optSetter v.mappedport (fun x => "set mappedport " ++ x),
       optSetter v.comment (fun c => "set comment " ++ qName c)] =
    entryLines v.name (vipKVs v) := by
  rw [emitEditBlock_eq_emitFM, entryLines, vipKVs]
  rw [emitFM_cons_some _ (by
    apply strne_empty_of_data
    simp [String.data_append])]
  rw [emitFM_cons_some _ (by
    apply strne_empty_of_data
    rw [show ("set mappedip " ++ qName v.mappedip).data =
      ("set mappedip " : String).data ++ (qName v.mappedip).data from by
        simp [String.data_append]]
    simp)]
  rw [emitFM_opt_quoted "extintf" "set extintf " _ hintf
    (fun x => by apply strData_ext; simp [String.data_append]) (by decide) _]
  rw [emitFM_pf]
  rw [emitFM_opt_plain "extport" "set extport " _ hport
    (fun x => by apply strData_ext; simp [String.data_append]) (by decide) _]
  rw [emitFM_opt_plain "mappedport" "set mappedport " _ hmport
    (fun x => by apply strData_ext; simp [String.data_append]) (by decide) _]
  rw [emitFM_opt_quoted "comment" "set comment " _ hc
    (fun x => by apply strData_ext; simp [String.data_append]) (by decide) []]
  rw [show emitFM [] = [] from rfl, List.append_nil]
  rw [List.map_cons, List.map_cons, List.map_append, List.map_append, List.map_append,
    List.map_append]
  rw [show ("set extip " ++ v.extip) = "set " ++ "extip" ++ " " ++ v.extip from by
    apply strData_ext
    simp [String.data_append]]
  rw [show ("set mappedip " ++ qName v.mappedip) =
    "set " ++ "mappedip" ++ " " ++ qName v.mappedip from by
      apply strData_ext
      simp [String.data_append]]

def vipRecF (nk : String × Dict String) : Vip :=
  { name := nk.1,
    extip := stripQuotesStr (dgetD nk.2 "extip" ""),
    mappedip := stripQuotesStr (dgetD nk.2 "mappedip" ""),
    extintf := stripQuotes (dlookup nk.2 "extintf"),
    portforward := pyLower (pyStrip (dgetD nk.2 "portforward" "")) = "enable",
    extport := stripQuotes (dlookup nk.2 "extport"),
    mappedport := stripQuotes (dlookup nk.2 "mappedport"),
    comment := stripQuotes (dlookup nk.2 "comment") }

theorem sublist_keys_pf (b : Bool) :
    List.Sublist (dkeys (if b then [(("portforward" : String), ("enable" : String))] else []))
      ["portforward"] := by
  cases b with
  | false => exact List.nil_sublist _
  | true => exact List.Sublist.refl _

theorem vipRecF_entry (nm : String) (v : Vip) (hname : v.name = nm)
    (hext : CleanName v.extip) (hmap : CleanName v.mappedip)
    (hintf : OptClean v.extintf) (hport : OptClean v.extport)
    (hmport : OptClean v.mappedport) (hc : OptClean v.comment) :
    vipRecF (nm, entryDict (vipKVs v)) = v := by
  have hkeys : List.Sublist (dkeys (vipKVs v))
      ["extip", "mappedip", "extintf", "portforward", "extport", "mappedport", "comment"] := by
    rw [vipKVs]
    rw [show ∀ (L : Dict String), dkeys (("extip", v.extip) :: ("mappedip", qName v.mappedip) ::
      L) = "extip" :: "mappedip" :: dkeys L from fun L => rfl]
    rw [show (["extip", "mappedip", "extintf", "portforward", "extport", "mappedport",
      "comment"] : List String) = "extip" :: "mappedip" ::
      (["extintf"] ++ (["portforward"] ++ (["extport"] ++ (["mappedport"] ++ ["comment"]))))
      from rfl]
    refine List.Sublist.cons₂ _ (List.Sublist.cons₂ _ ?_)
    rw [dkeys_append, dkeys_append, dkeys_append, dkeys_append]
    exact List.Sublist.append (sublist_keys_qKVs _ _)
      (List.Sublist.append (sublist_keys_pf _)
        (List.Sublist.append (sublist_keys_optKVs _ _)
          (List.Sublist.append (sublist_keys_optKVs _ _) (sublist_keys_qKVs _ _))))
  have hnodup : (dkeys (vipKVs v)).Nodup := hkeys.nodup (by decide)
  have hdict : entryDict (vipKVs v) = vipKVs v := entryDict_pairwise _ hnodup
  rw [hdict, vipRecF, vipKVs]
  simp only
  have hintf_look : dlookup (("extip", v.extip) :: ("mappedip", qName v.mappedip) ::
    (qKVs "extintf" v.extintf ++
      ((if v.portforward then [("portforward", "enable")] else []) ++
        (optKVs "extport" v.extport ++
          (optKVs "mappedport" v.mappedport ++ qKVs "comment" v.comment))))) "extintf" = v.extintf.map qName := by
    rw [dlookup, if_neg (by decide), dlookup, if_neg (by decide)]
    apply dlookup_qKVs_append "extintf" _ hintf
    intro x hx
    rw [dkeys_append] at hx
    rcases List.mem_append.mp hx with h1 | h2
    · exact (dkeys_pf v.portforward x h1) ▸ (by decide)
    · rw [dkeys_append] at h2
      rcases List.mem_append.mp h2 with h3 | h4
      · exact (dkeys_optKVs _ _ x h3) ▸ (by decide)
      · rw [dkeys_append] at h4
        rcases List.mem_append.mp h4 with h5 | h6
        · exact (dkeys_optKVs _ _ x h5) ▸ (by decide)
        · exact (dkeys_qKVs _ _ x h6) ▸ (by decide)
  have hpf_look : dlookup (("extip", v.extip) :: ("mappedip", qName v.mappedip) ::
    (qKVs "extintf" v.extintf ++
      ((if v.portforward then [("portforward", "enable")] else []) ++
        (optKVs "extport" v.extport ++
          (optKVs "mappedport" v.mappedport ++ qKVs "comment" v.comment))))) "portforward" =
      (if v.portforward then some "enable" else none) := by
    rw [dlookup, if_neg (by decide), dlookup, if_neg (by decide)]
    rw [dlookup_skip_seg _ _ "extintf" "portforward" (dkeys_qKVs _ _) (by decide)]
    cases hb : v.portforward with
    | true =>
      rw [if_pos rfl, if_pos rfl]
      exact dlookup_in_seg _ _ _ _ (by rw [dlookup, if_pos rfl])
    | false =>
      rw [if_neg (by simp), if_neg (by simp)]
      rw [List.nil_append]
      rw [dlookup_skip_seg _ _ "extport" "portforward" (dkeys_optKVs _ _) (by decide)]
      rw [dlookup_skip_seg _ _ "mappedport" "portforward" (dkeys_optKVs _ _) (by decide)]
      exact dlookup_none_of_keys _ _ (fun x hx => (dkeys_qKVs _ _ x hx) ▸ (by decide))
  have hport_look : dlookup (("extip", v.extip) :: ("mappedip", qName v.mappedip) ::
    (qKVs "extintf" v.extintf ++
      ((if v.portforward then [("portforward", "enable")] else []) ++
        (optKVs "extport" v.extport ++
          (optKVs "mappedport" v.mappedport ++ qKVs "comment" v.comment))))) "extport" = v.extport := by
    rw [dlookup, if_neg (by decide), dlookup, if_neg (by decide)]
    rw [dlookup_skip_seg _ _ "extintf" "extport" (dkeys_qKVs _ _) (by decide)]
    rw [dlookup_skip_seg _ _ "portforward" "extport" (dkeys_pf v.portforward) (by decide)]
    apply dlookup_optKVs_append "extport" _ hport
    intro x hx
    rw [dkeys_append] at hx
    rcases List.mem_append.mp hx with h1 | h2
    · exact (dkeys_optKVs _ _ x h1) ▸ (by decide)
    · exact (dkeys_qKVs _ _ x h2) ▸ (by decide)
  have hmport_look : dlookup (("extip", v.extip) :: ("mappedip", qName v.mappedip) ::
    (qKVs "extintf" v.extintf ++
      ((if v.portforward then [("portforward", "enable")] else []) ++
        (optKVs "extport" v.extport ++
          (optKVs "mappedport" v.mappedport ++ qKVs "comment" v.comment))))) "mappedport" = v.mappedport := by
    rw [dlookup, if_neg (by decide), dlookup, if_neg (by decide)]
    rw [dlookup_skip_seg _ _ "extintf" "mappedport" (dkeys_qKVs _ _) (by decide)]
    rw [dlookup_skip_seg _ _ "portforward" "mappedport" (dkeys_pf v.portforward) (by decide)]
    rw [dlookup_skip_seg _ _ "extport" "mappedport" (dkeys_optKVs _ _) (by decide)]
    apply dlookup_optKVs_append "mappedport" _ hmport
    intro x hx
    exact (dkeys_qKVs _ _ x hx) ▸ (by decide)
  have hcom_look : dlookup (("extip", v.extip) :: ("mappedip", qName v.mappedip) ::
    (qKVs "extintf" v.extintf ++
      ((if v.portforward then [("portforward", "enable")] else []) ++
        (optKVs "extport" v.extport ++
          (optKVs "mappedport" v.mappedport ++ qKVs "comment" v.comment))))) "comment" = v.comment.map qName := by
    rw [dlookup, if_neg (by decide), dlookup, if_neg (by decide)]
    rw [dlookup_skip_seg _ _ "extintf" "comment" (dkeys_qKVs _ _) (by decide)]
    rw [dlookup_skip_seg _ _ "portforward" "comment" (dkeys_pf v.portforward) (by decide)]
    rw [dlookup_skip_seg _ _ "extport" "comment" (dkeys_optKVs _ _) (by decide)]
    rw [dlookup_skip_seg _ _ "mappedport" "comment" (dkeys_optKVs _ _) (by decide)]
    exact dlookup_qKVs_self _ _ hc
  have hpf_field : decide (pyLower (pyStrip (dgetD (("extip", v.extip) :: ("mappedip", qName v.mappedip) ::
    (qKVs "extintf" v.extintf ++
      ((if v.portforward then [("portforward", "enable")] else []) ++
        (optKVs "extport" v.extport ++
          (optKVs "mappedport" v.mappedport ++ qKVs "comment" v.comment))))) "portforward" "")) = "enable") =
      v.portforward := by
    rw [dgetD, hpf_look]
    cases v.portforward with
    | true => decide
    | false => decide
  rw [show dgetD (("extip", v.extip) :: ("mappedip", qName v.mappedip) ::
    (qKVs "extintf" v.extintf ++
      ((if v.portforward then [("portforward", "enable")] else []) ++
        (optKVs "extport" v.extport ++
          (optKVs "mappedport" v.mappedport ++ qKVs "comment" v.comment))))) "extip" "" = v.extip from by
    rw [dgetD, dlookup, if_pos rfl]
    rfl]
  rw [show dgetD (("extip", v.extip) :: ("mappedip", qName v.mappedip) ::
    (qKVs "extintf" v.extintf ++
      ((if v.portforward then [("portforward", "enable")] else []) ++
        (optKVs "extport" v.extport ++
          (optKVs "mappedport" v.mappedport ++ qKVs "comment" v.comment))))) "mappedip" "" = qName v.mappedip from by
    rw [dgetD, dlookup, if_neg (by decide), dlookup, if_pos rfl]
    rfl]
  rw [hpf_field, hintf_look, hport_look, hmport_look, hcom_look]
  rw [stripQuotesStr_clean _ hext, stripQuotesStr_qName _ hmap]
  rw [stripQuotes_qKVs _ hintf, stripQuotes_optClean _ hport, stripQuotes_optClean _ hmport]
  rw [show stripQuotes (v.comment.map qName) = v.comment from stripQuotes_qKVs _ hc]
  obtain ⟨vn, ve, vm, vi, vpf, vp, vmp, vc⟩ := v
  simp only at hname ⊢
  rw [hname]

theorem generateVips_eq (d : Dict Vip) (h : CleanVips d) (hne : ¬d = []) :
    generateVips d = "config firewall vip" ::
      (pySorted (dkeys d)).flatMap (fun nm => entryLines nm (vipKVs (dgetD d nm default))) ++
      ["end"] := by
  rw [generateVips, if_neg hne, emitBlock]
  have hcong := flatMap_congr (pySorted (dkeys d))
    (fun name =>
      let v := dgetD d name default
      emitEditBlock v.name
        [some ("set extip " ++ v.extip),
         some ("set mappedip " ++ qName v.mappedip),
         optSetter v.extintf (fun x => "set extintf " ++ qName x),
         (if v.portforward then some "set portforward enable" else none),
         optSetter v.extport (fun x => "set extport " ++ x),
         optSetter v.mappedport (fun x => "set mappedport " ++ x),
         optSetter v.comment (fun c => "set comment " ++ qName c)])
    (fun nm => entryLines nm (vipKVs (dgetD d nm default)))
    ?_
  · rw [hcong]
  · intro nm hmem
    rw [mem_pySorted] at hmem
    obtain ⟨v, hl, hmem2⟩ := dlookup_mem d nm hmem
    have hget : dgetD d nm default = v := by
      rw [dgetD, hl]
      rfl
    obtain ⟨hname, _, hext, hmap2, hintf, hport, hmport, hcom⟩ := h.2 (nm, v) hmem2
    show emitEditBlock (dgetD d nm default).name
      [some ("set extip " ++ (dgetD d nm default).extip),
       some ("set mappedip " ++ qName (dgetD d nm default).mappedip),
       optSetter (dgetD d nm default).extintf (fun x => "set extintf " ++ qName x),
       (if (dgetD d nm default).portforward then some "set portforward enable" else none),
       optSetter (dgetD d nm default).extport (fun x => "set extport " ++ x),
       optSetter (dgetD d nm default).mappedport (fun x => "set mappedport " ++ x),
       optSetter (dgetD d nm default).comment (fun c => "set comment " ++ qName c)] =
      entryLines nm (vipKVs (dgetD d nm default))
    rw [hget]
    rw [vip_entry_lines v hmap2 hintf hport hmport hcom]
    rw [hname]

theorem vip_parse_body (d : Dict Vip) (h : CleanVips d) :
    dictEqB (parseVipTable []
      (parseTable ((pySorted (dkeys d)).flatMap
        (fun nm => entryLines nm (vipKVs (dgetD d nm default)))))) d = true := by
  have hnames_nodup : (pySorted (dkeys d)).Nodup := pySorted_nodup _ h.1
  have hinfo : ∀ nm ∈ pySorted (dkeys d), ∃ v, dgetD d nm default = v ∧ v.name = nm ∧
      CleanName nm ∧ CleanName v.extip ∧ CleanName v.mappedip ∧ OptClean v.extintf ∧
      OptClean v.extport ∧ OptClean v.mappedport ∧ OptClean v.comment := by
    intro nm hmem
    rw [mem_pySorted] at hmem
    obtain ⟨v, hl, hmem2⟩ := dlookup_mem d nm hmem
    obtain ⟨hname, hk, hext, hmap2, hintf, hport, hmport, hcom⟩ := h.2 (nm, v) hmem2
    exact ⟨v, by rw [dgetD, hl]; rfl, hname, hk, hext, hmap2, hintf, hport, hmport, hcom⟩
  have htbl : parseTable ((pySorted (dkeys d)).flatMap
      (fun nm => entryLines nm (vipKVs (dgetD d nm default)))) =
      (pySorted (dkeys d)).map (fun nm => (nm, entryDict (vipKVs (dgetD d nm default)))) := by
    rw [parseTable]
    rw [parseTableGo_entries (pySorted (dkeys d))
      (fun nm => vipKVs (dgetD d nm default)) []
      (by
        intro nm hm
        obtain ⟨v, hget, hname, hck, hext, hmap2, hintf, hport, hmport, hcom⟩ := hinfo nm hm
        exact hck)
      (by
        intro nm hm kv hkv
        obtain ⟨v, hget, hname, hck, hext, hmap2, hintf, hport, hmport, hcom⟩ := hinfo nm hm
        have hkv2 : kv ∈ vipKVs (dgetD d nm default) := hkv
        rw [hget] at hkv2
        exact (vipKVs_ok v hext hmap2 hintf hport hmport hcom kv hkv2).1)
      (by intro nm hm; simp [dkeys])
      hnames_nodup]
    rw [List.nil_append]
  rw [htbl]
  have hfold : parseVipTable []
      ((pySorted (dkeys d)).map (fun nm => (nm, entryDict (vipKVs (dgetD d nm default))))) =
      ((pySorted (dkeys d)).map
        (fun nm => (nm, entryDict (vipKVs (dgetD d nm default))))).map
        (fun nk => (nk.1, vipRecF nk)) := by
    rw [parseVipTable]
    rw [foldl_congr_mem _ _ (fun c nk => dset c nk.1 (vipRecF nk)) [] (by
      intro nk hnk c
      rfl)]
    rw [foldl_dset_fresh vipRecF _ [] (by simp [dkeys]) (by
      rw [List.map_map]
      rw [show (Prod.fst ∘ fun nm =>
        (nm, entryDict (vipKVs (dgetD d nm default)))) = id from rfl]
      rw [List.map_id]
      exact hnames_nodup)]
    rw [List.nil_append]
  rw [hfold, List.map_map]
  have hvals : ((fun nk => ((nk : String × Dict String).1, vipRecF nk)) ∘
      (fun nm => (nm, entryDict (vipKVs (dgetD d nm default))))) =
      fun nm => (nm, vipRecF (nm, entryDict (vipKVs (dgetD d nm default)))) := rfl
  rw [hvals]
  have hmap : (pySorted (dkeys d)).map
      (fun nm => (nm, vipRecF (nm, entryDict (vipKVs (dgetD d nm default))))) =
      (pySorted (dkeys d)).map (fun nm => (nm, dgetD d nm default)) := by
    apply List.map_congr_left
    intro nm hm
    obtain ⟨v, hget, hname, hck, hext, hmap2, hintf, hport, hmport, hcom⟩ := hinfo nm hm
    rw [hget, vipRecF_entry nm v hname hext hmap2 hintf hport hmport hcom]
  rw [hmap]
  exact dictEqB_map_perm d (pySorted (dkeys d)) (fun nm => mem_pySorted _ nm)
    hnames_nodup h.1

/-! ### Assembling the whole generated text -/

def bannerLines : List String := ["# Generated by Policy Merger", "# Version: 1.0.0"]

theorem bannerSection_eq : bannerSection = joinSep "\n" bannerLines ++ "\n" := by decide

/-- The entry body of one section, as emitted by the generator. -/
def bodyOf {α : Type} [Inhabited α] (KVs : α → List (String × String)) (d : Dict α) :
    List String :=
  (pySorted (dkeys d)).flatMap (fun nm => entryLines nm (KVs (dgetD d nm default)))

/-- The (header, body) segments a nonempty section contributes. -/
def segsOf {α : Type} [DecidableEq α] [Inhabited α] (H : String)
    (KVs : α → List (String × String)) (d : Dict α) : List (String × List String) :=
  if d = [] then [] else [(H, bodyOf KVs d)]

def toBlock (s : String × List String) : List String := s.1 :: s.2 ++ ["end"]

theorem segs_block {α : Type} [DecidableEq α] [Inhabited α] (g : List String → String)
    (H : String) (KVs : α → List (String × String)) (d : Dict α) (b : List String)
    (hempty : d = [] → b = [])
    (hfull : ¬d = [] → b = (H :: bodyOf KVs d) ++ ["end"]) :
    List.filterMap (fun b2 => if b2 ≠ [] then some (g b2) else none) [b] =
      ((segsOf H KVs d).map toBlock).map g := by
  by_cases hd : d = []
  · rw [segsOf, if_pos hd, hempty hd]
    rw [show List.filterMap (fun b2 => if b2 ≠ [] then some (g b2) else none)
      [([] : List String)] = [] from by simp]
    rfl
  · rw [segsOf, if_neg hd, hfull hd]
    rw [show List.filterMap (fun b2 => if b2 ≠ [] then some (g b2) else none)
      [(H :: bodyOf KVs d) ++ ["end"]] = [g ((H :: bodyOf KVs d) ++ ["end"])] from by simp]
    rfl

theorem flatMap_map_blocks (segs : List (String × List String)) :
    ((segs.map toBlock).flatMap (fun b => ("" : String) :: b)) =
      segs.flatMap (fun s => "" :: toBlock s) := by
  induction segs with
  | nil => rfl
  | cons s t ih => simp [List.map_cons, List.flatMap_cons, ih]

theorem extractGo_skip_one (H ln : String) (h : pyStrip ln ≠ H)
    (rest : List String) (sl : List String) (blocks : List (List String)) :
    extractGo H (ln :: rest) false sl blocks = extractGo H rest false sl blocks := by
  simp only [extractGo]
  rw [if_neg h, if_neg (by simp), if_neg (by simp)]

theorem extractGo_segs (H : String) (hH : pyStrip H = H) (hHend : "end" ≠ H)
    (hHne : H ≠ "") (segs : List (String × List String)) :
    ∀ (hheads : ∀ s ∈ segs, pyStrip s.1 = s.1)
      (hbodies : ∀ s ∈ segs, ∀ ln ∈ s.2, pyStrip ln ≠ H ∧ pyStrip ln ≠ "end")
      (blocks : List (List String)),
    extractGo H (segs.flatMap (fun s => "" :: toBlock s)) false [] blocks =
      blocks ++ (segs.filter (fun s => s.1 = H)).map Prod.snd := by
  induction segs with
  | nil =>
    intro _ _ blocks
    rw [List.filter_nil, List.map_nil, List.append_nil]
    rfl
  | cons s t ih =>
    intro hheads hbodies blocks
    rw [List.flatMap_cons]
    rw [List.cons_append]
    rw [extractGo_skip_one H ""
      (fun hc => hHne (((show pyStrip "" = "" from by decide).symm.trans hc).symm))]
    by_cases hs : s.1 = H
    · rw [toBlock, hs]
      rw [extractGo_consume H hH hHend s.2 _
        (hbodies s (List.mem_cons_self _ _)) [] blocks]
      rw [ih (fun x hx => hheads x (List.mem_cons_of_mem _ hx))
        (fun x hx => hbodies x (List.mem_cons_of_mem _ hx)) (blocks ++ [s.2])]
      have hfil : (s :: t).filter (fun s2 => s2.1 = H) =
          s :: t.filter (fun s2 => s2.1 = H) := by
        simp [List.filter_cons, hs]
      rw [hfil, List.map_cons]
      simp
    · rw [toBlock]
      rw [List.append_assoc, List.cons_append]
      rw [extractGo_skip_one H s.1
        (fun hc => hs ((hheads s (List.mem_cons_self _ _)).symm.trans hc))]
      rw [extractGo_skip H s.2
        (fun ln hln => (hbodies s (List.mem_cons_self _ _) ln hln).1)]
      rw [show (["end"] : List String) ++ t.flatMap (fun s2 => "" :: toBlock s2) =
        "end" :: t.flatMap (fun s2 => "" :: toBlock s2) from rfl]
      rw [extractGo_skip_one H "end"
        (fun hc => hHend ((show pyStrip "end" = "end" from by decide).symm.trans hc))]
      rw [ih (fun x hx => hheads x (List.mem_cons_of_mem _ hx))
        (fun x hx => hbodies x (List.mem_cons_of_mem _ hx)) blocks]
      have hfil : (s :: t).filter (fun s2 => s2.1 = H) =
          t.filter (fun s2 => s2.1 = H) := by
        simp [List.filter_cons, hs]
      rw [hfil]

theorem filter_segsOf_self {α : Type} [DecidableEq α] [Inhabited α] (H : String)
    (KVs : α → List (String × String)) (d : Dict α) :
    (segsOf H KVs d).filter (fun s => s.1 = H) = segsOf H KVs d := by
  rw [segsOf]
  by_cases hd : d = []
  · rw [if_pos hd]
    rfl
  · rw [if_neg hd]
    simp

theorem filter_segsOf_other {α : Type} [DecidableEq α] [Inhabited α] (H H2 : String)
    (KVs : α → List (String × String)) (d : Dict α) (hne : ¬H = H2) :
    (segsOf H KVs d).filter (fun s => s.1 = H2) = [] := by
  rw [segsOf]
  by_cases hd : d = []
  · rw [if_pos hd]
    rfl
  · rw [if_neg hd]
    simp [hne]

theorem bodyOf_good {α : Type} [Inhabited α] (KVs : α → List (String × String)) (d : Dict α)
    (hinfo : ∀ nm ∈ pySorted (dkeys d), CleanName nm ∧
      ∀ kv ∈ KVs (dgetD d nm default), SetOK kv ∧ CleanName kv.1 ∧ '\n' ∉ kv.2.data) :
    ∀ ln ∈ bodyOf KVs d, GoodLine ln := by
  intro ln hln
  rw [bodyOf] at hln
  obtain ⟨nm, hnm, hl⟩ := List.mem_flatMap.mp hln
  exact entryLines_good nm _ (hinfo nm hnm).1 (hinfo nm hnm).2 ln hl

theorem addrBody_good (d : Dict Address) (h : CleanAddresses d) :
    ∀ ln ∈ bodyOf addrKVs d, GoodLine ln := by
  apply bodyOf_good
  intro nm hmem
  rw [mem_pySorted] at hmem
  obtain ⟨a, hl, hmem2⟩ := dlookup_mem d nm hmem
  have hget : dgetD d nm default = a := by
    rw [dgetD, hl]
    rfl
  obtain ⟨hname, hk, h1, h2, hcom⟩ := h.2 (nm, a) hmem2
  refine ⟨hk, ?_⟩
  intro kv hkv
  have hkv2 : kv ∈ addrKVs (dgetD d nm default) := hkv
  rw [hget] at hkv2
  exact addrKVs_ok a h1 h2 hcom kv hkv2

theorem grpBody_good (d : Dict AddressGroup) (h : CleanGroups d) :
    ∀ ln ∈ bodyOf grpKVs d, GoodLine ln := by
  apply bodyOf_good
  intro nm hmem
  rw [mem_pySorted] at hmem
  obtain ⟨g, hl, hmem2⟩ := dlookup_mem d nm hmem
  have hget : dgetD d nm default = g := by
    rw [dgetD, hl]
    rfl
  obtain ⟨hname, hk, hm, hsort, hcom⟩ := h.2 (nm, g) hmem2
  refine ⟨hk, ?_⟩
  intro kv hkv
  have hkv2 : kv ∈ grpKVs (dgetD d nm default) := hkv
  rw [hget] at hkv2
  exact grpKVs_ok g hm hcom kv hkv2

theorem svcBody_good (d : Dict Service) (h : CleanServices d) :
    ∀ ln ∈ bodyOf svcKVs d, GoodLine ln := by
  apply bodyOf_good
  intro nm hmem
  rw [mem_pySorted] at hmem
  obtain ⟨sv, hl, hmem2⟩ := dlookup_mem d nm hmem
  have hget : dgetD d nm default = sv := by
    rw [dgetD, hl]
    rfl
  obtain ⟨hname, hk, ht, hu, hcom⟩ := h.2 (nm, sv) hmem2
  refine ⟨hk, ?_⟩
  intro kv hkv
  have hkv2 : kv ∈ svcKVs (dgetD d nm default) := hkv
  rw [hget] at hkv2
  exact svcKVs_ok sv ht hu hcom kv hkv2

theorem sgrpBody_good (d : Dict ServiceGroup) (h : CleanSvcGroups d) :
    ∀ ln ∈ bodyOf sgrpKVs d, GoodLine ln := by
  apply bodyOf_good
  intro nm hmem
  rw [mem_pySorted] at hmem
  obtain ⟨g, hl, hmem2⟩ := dlookup_mem d nm hmem
  have hget : dgetD d nm default = g := by
    rw [dgetD, hl]
    rfl
  obtain ⟨hname, hk, hm, hsort, hcom⟩ := h.2 (nm, g) hmem2
  refine ⟨hk, ?_⟩
  intro kv hkv
  have hkv2 : kv ∈ sgrpKVs (dgetD d nm default) := hkv
  rw [hget] at hkv2
  exact sgrpKVs_ok g hm hcom kv hkv2

theorem vipBody_good (d : Dict Vip) (h : CleanVips d) :
    ∀ ln ∈ bodyOf vipKVs d, GoodLine ln := by
  apply bodyOf_good
  intro nm hmem
  rw [mem_pySorted] at hmem
  obtain ⟨v, hl, hmem2⟩ := dlookup_mem d nm hmem
  have hget : dgetD d nm default = v := by
    rw [dgetD, hl]
    rfl
  obtain ⟨hname, hk, hext, hmap2, hintf, hport, hmport, hcom⟩ := h.2 (nm, v) hmem2
  refine ⟨hk, ?_⟩
  intro kv hkv
  have hkv2 : kv ∈ vipKVs (dgetD d nm default) := hkv
  rw [hget] at hkv2
  exact vipKVs_ok v hext hmap2 hintf hport hmport hcom kv hkv2

theorem poolBody_good (d : Dict IpPool) (h : CleanPools d) :
    ∀ ln ∈ bodyOf poolKVs d, GoodLine ln := by
  apply bodyOf_good
  intro nm hmem
  rw [mem_pySorted] at hmem
  obtain ⟨p, hl, hmem2⟩ := dlookup_mem d nm hmem
  have hget : dgetD d nm default = p := by
    rw [dgetD, hl]
    rfl
  obtain ⟨hname, hk, hs, he2, htp, hcom⟩ := h.2 (nm, p) hmem2
  refine ⟨hk, ?_⟩
  intro kv hkv
  have hkv2 : kv ∈ poolKVs (dgetD d nm default) := hkv
  rw [hget] at hkv2
  exact poolKVs_ok p hs he2 htp hcom kv hkv2

/-- The segments of the six object sections, in emission order. -/
def segsFor (cat : ObjectCatalog) : List (String × List String) :=
  segsOf "config firewall address" addrKVs cat.addresses ++
  (segsOf "config firewall addrgrp" grpKVs cat.addr_groups ++
  (segsOf "config firewall service custom" svcKVs cat.services ++
  (segsOf "config firewall service group" sgrpKVs cat.service_groups ++
  (segsOf "config firewall vip" vipKVs cat.vips ++
   segsOf "config firewall ippool" poolKVs cat.ippools))))

theorem segsOf_facts {α : Type} [DecidableEq α] [Inhabited α] (H : String)
    (KVs : α → List (String × String)) (d : Dict α)
    (hH : H ∈ headersList)
    (hgood : ∀ ln ∈ bodyOf KVs d, GoodLine ln) :
    ∀ s ∈ segsOf H KVs d, s.1 ∈ headersList ∧ pyStrip s.1 = s.1 ∧
      ∀ ln ∈ s.2, GoodLine ln := by
  intro s hs
  rw [segsOf] at hs
  by_cases hd : d = []
  · rw [if_pos hd] at hs
    exact absurd hs (by simp)
  · rw [if_neg hd] at hs
    rw [List.mem_singleton.mp hs]
    refine ⟨hH, ?_, hgood⟩
    rcases List.mem_cons.mp hH with rfl | hH2
    · exact show pyStrip "config firewall address" = "config firewall address" from by decide
    · rcases List.mem_cons.mp hH2 with rfl | hH3
      · exact show pyStrip "config firewall addrgrp" = "config firewall addrgrp" from by decide
      · rcases List.mem_cons.mp hH3 with rfl | hH4
        · exact show pyStrip "config firewall service custom" =
            "config firewall service custom" from by decide
        · rcases List.mem_cons.mp hH4 with rfl | hH5
          · exact show pyStrip "config firewall service group" =
              "config firewall service group" from by decide
          · rcases List.mem_cons.mp hH5 with rfl | hH6
            · exact show pyStrip "config firewall vip" = "config firewall vip" from by decide
            · rcases List.mem_cons.mp hH6 with rfl | hH7
              · exact show pyStrip "config firewall ippool" =
                  "config firewall ippool" from by decide
              · exact absurd hH7 (by simp)

theorem segsFor_facts (cat : ObjectCatalog) (h : CleanCatalog cat) :
    ∀ s ∈ segsFor cat, s.1 ∈ headersList ∧ pyStrip s.1 = s.1 ∧
      ∀ ln ∈ s.2, GoodLine ln := by
  obtain ⟨hA, hG, hS, hSG, hV, hP⟩ := h
  intro s hs
  rw [segsFor] at hs
  rcases List.mem_append.mp hs with h1 | h2
  · exact segsOf_facts _ _ _ (by decide) (addrBody_good _ hA) s h1
  · rcases List.mem_append.mp h2 with h3 | h4
    · exact segsOf_facts _ _ _ (by decide) (grpBody_good _ hG) s h3
    · rcases List.mem_append.mp h4 with h5 | h6
      · exact segsOf_facts _ _ _ (by decide) (svcBody_good _ hS) s h5
      · rcases List.mem_append.mp h6 with h7 | h8
        · exact segsOf_facts _ _ _ (by decide) (sgrpBody_good _ hSG) s h7
        · rcases List.mem_append.mp h8 with h9 | h10
          · exact segsOf_facts _ _ _ (by decide) (vipBody_good _ hV) s h9
          · exact segsOf_facts _ _ _ (by decide) (poolBody_good _ hP) s h10

theorem generateFgtCli_objects (cat : ObjectCatalog) :
    generateFgtCli [] (some cat) true none =
      joinSep "\n" (bannerSection ::
        ([generateAddresses cat.addresses, generateAddressGroups cat.addr_groups,
          generateServices cat.services, generateServiceGroups cat.service_groups,
          generateVips cat.vips, generateIppools cat.ippools].filterMap
          (fun b => if b ≠ [] then some (joinSep "\n" b ++ "\n") else none))) := rfl

theorem generated_text_eq (cat : ObjectCatalog) (h : CleanCatalog cat) :
    generateFgtCli [] (some cat) true none =
      joinSep "\n" (bannerLines ++ (segsFor cat).flatMap (fun s => "" :: toBlock s)) ++ "\n" := by
  obtain ⟨hA, hG, hS, hSG, hV, hP⟩ := h
  rw [generateFgtCli_objects]
  rw [show ([generateAddresses cat.addresses, generateAddressGroups cat.addr_groups,
      generateServices cat.services, generateServiceGroups cat.service_groups,
      generateVips cat.vips, generateIppools cat.ippools] : List (List String)) =
    [generateAddresses cat.addresses] ++ ([generateAddressGroups cat.addr_groups] ++
    ([generateServices cat.services] ++ ([generateServiceGroups cat.service_groups] ++
    ([generateVips cat.vips] ++ [generateIppools cat.ippools])))) from rfl]
  rw [List.filterMap_append, List.filterMap_append, List.filterMap_append,
    List.filterMap_append, List.filterMap_append]
  rw [segs_block _ "config firewall address" addrKVs cat.addresses _
    (fun hd => by rw [generateAddresses, if_pos hd])
    (fun hd => by rw [generateAddresses_eq cat.addresses hA hd]; rfl)]
  rw [segs_block _ "config firewall addrgrp" grpKVs cat.addr_groups _
    (fun hd => by rw [generateAddressGroups, if_pos hd])
    (fun hd => by rw [generateAddressGroups_eq cat.addr_groups hG hd]; rfl)]
  rw [segs_block _ "config firewall service custom" svcKVs cat.services _
    (fun hd => by rw [generateServices, if_pos hd])
    (fun hd => by rw [generateServices_eq cat.services hS hd]; rfl)]
  rw [segs_block _ "config firewall service group" sgrpKVs cat.service_groups _
    (fun hd => by rw [generateServiceGroups, if_pos hd])
    (fun hd => by rw [generateServiceGroups_eq cat.service_groups hSG hd]; rfl)]
  rw [segs_block _ "config firewall vip" vipKVs cat.vips _
    (fun hd => by rw [generateVips, if_pos hd])
    (fun hd => by rw [generateVips_eq cat.vips hV hd]; rfl)]
  rw [segs_block _ "config firewall ippool" poolKVs cat.ippools _
    (fun hd => by rw [generateIppools, if_pos hd])
    (fun hd => by rw [generateIppools_eq cat.ippools hP hd]; rfl)]
  simp only [← List.map_append]
  rw [show segsOf "config firewall address" addrKVs cat.addresses ++
    (segsOf "config firewall addrgrp" grpKVs cat.addr_groups ++
    (segsOf "config firewall service custom" svcKVs cat.services ++
    (segsOf "config firewall service group" sgrpKVs cat.service_groups ++
    (segsOf "config firewall vip" vipKVs cat.vips ++
     segsOf "config firewall ippool" poolKVs cat.ippools)))) = segsFor cat from rfl]
  rw [bannerSection_eq]
  rw [sections_flatten bannerLines ((segsFor cat).map toBlock) (by simp [bannerLines])
    (by
      intro x hx
      obtain ⟨s, hs, rfl⟩ := List.mem_map.mp hx
      rw [toBlock]
      simp)]
  rw [flatMap_map_blocks]

theorem headers_no_nl : ∀ H ∈ headersList, (Char.ofNat 10) ∉ H.data := by decide

theorem extractBlocks_banner (H : String) (hH : pyStrip H = H) (hHend : "end" ≠ H)
    (hHne : H ≠ "") (hban : ∀ ln ∈ bannerLines, pyStrip ln ≠ H)
    (segs : List (String × List String))
    (hheads : ∀ s ∈ segs, pyStrip s.1 = s.1)
    (hbodies : ∀ s ∈ segs, ∀ ln ∈ s.2, pyStrip ln ≠ H ∧ pyStrip ln ≠ "end") :
    extractBlocks (bannerLines ++ segs.flatMap (fun s => "" :: toBlock s)) H =
      (segs.filter (fun s => s.1 = H)).map Prod.snd := by
  rw [extractBlocks]
  rw [extractGo_skip H bannerLines hban]
  rw [extractGo_segs H hH hHend hHne segs hheads hbodies []]
  rw [List.nil_append]

theorem banner_avoids_headers : ∀ H ∈ headersList, ∀ ln ∈ bannerLines, pyStrip ln ≠ H := by
  decide

theorem parse_generate_roundtrip (cat : ObjectCatalog) (h : CleanCatalog cat) :
    catalogEqB (parseFgtConfigText (generateFgtCli [] (some cat) true none)) cat = true := by
  have hfacts := segsFor_facts cat h
  obtain ⟨hA, hG, hS, hSG, hV, hP⟩ := h
  have hheads : ∀ s ∈ segsFor cat, pyStrip s.1 = s.1 := fun s hs => (hfacts s hs).2.1
  have hbodies : ∀ (H : String), H ∈ headersList →
      ∀ s ∈ segsFor cat, ∀ ln ∈ s.2, pyStrip ln ≠ H ∧ pyStrip ln ≠ "end" :=
    fun H hHmem s hs ln hln =>
      ⟨((hfacts s hs).2.2 ln hln).2.2 H hHmem, ((hfacts s hs).2.2 ln hln).2.1⟩
  have hlines : pySplitlines (generateFgtCli [] (some cat) true none) =
      bannerLines ++ (segsFor cat).flatMap (fun s => "" :: toBlock s) := by
    rw [generated_text_eq cat ⟨hA, hG, hS, hSG, hV, hP⟩]
    apply pySplitlines_join
    · simp [bannerLines]
    · intro l hl
      rcases List.mem_append.mp hl with h1 | h2
      · rw [bannerLines] at h1
        rcases List.mem_cons.mp h1 with rfl | h1b
        · decide
        · rcases List.mem_cons.mp h1b with rfl | h1c
          · decide
          · exact absurd h1c (by simp)
      · obtain ⟨s, hs, hl2⟩ := List.mem_flatMap.mp h2
        rcases List.mem_cons.mp hl2 with rfl | hl3
        · decide
        · rw [toBlock] at hl3
          rcases List.mem_append.mp hl3 with hl4 | hl5
          · rcases List.mem_cons.mp hl4 with rfl | hl6
            · exact headers_no_nl s.1 (hfacts s hs).1
            · exact ((hfacts s hs).2.2 l hl6).1
          · rw [List.mem_singleton.mp hl5]
            decide
  have hfieldA : dictEqB ((extractBlocks (bannerLines ++ (segsFor cat).flatMap
      (fun s => "" :: toBlock s)) "config firewall address").foldl
      (fun c block => parseAddressTable c (parseTable block)) []) cat.addresses = true := by
    rw [extractBlocks_banner _ (by decide) (by decide) (by decide)
      (banner_avoids_headers _ (by decide)) _ hheads (hbodies _ (by decide))]
    rw [show (segsFor cat).filter (fun s => s.1 = "config firewall address") =
        segsOf "config firewall address" addrKVs cat.addresses from by
      rw [segsFor]
      rw [List.filter_append, List.filter_append, List.filter_append, List.filter_append,
        List.filter_append]
      rw [filter_segsOf_self "config firewall address" addrKVs cat.addresses]
      rw [filter_segsOf_other "config firewall addrgrp" _ grpKVs cat.addr_groups (by decide)]
      rw [filter_segsOf_other "config firewall service custom" _ svcKVs
        cat.services (by decide)]
      rw [filter_segsOf_other "config firewall service group" _ sgrpKVs
        cat.service_groups (by decide)]
      rw [filter_segsOf_other "config firewall vip" _ vipKVs cat.vips (by decide)]
      rw [filter_segsOf_other "config firewall ippool" _ poolKVs cat.ippools (by decide)]
      simp]
    rw [segsOf]
    by_cases hd : cat.addresses = []
    · rw [if_pos hd, hd]
      rfl
    · rw [if_neg hd]
      rw [List.map_cons, List.map_nil]
      rw [List.foldl_cons, List.foldl_nil]
      exact addr_parse_body cat.addresses hA
  have hfieldG : dictEqB ((extractBlocks (bannerLines ++ (segsFor cat).flatMap
      (fun s => "" :: toBlock s)) "config firewall addrgrp").foldl
      (fun c block => parseAddrGroupTable c (parseTable block)) []) cat.addr_groups = true := by
    rw [extractBlocks_banner _ (by decide) (by decide) (by decide)
      (banner_avoids_headers _ (by decide)) _ hheads (hbodies _ (by decide))]
    rw [show (segsFor cat).filter (fun s => s.1 = "config firewall addrgrp") =
        segsOf "config firewall addrgrp" grpKVs cat.addr_groups from by
      rw [segsFor]
      rw [List.filter_append, List.filter_append, List.filter_append, List.filter_append,
        List.filter_append]
      rw [filter_segsOf_self "config firewall addrgrp" grpKVs cat.addr_groups]
      rw [filter_segsOf_other "config firewall address" _ addrKVs cat.addresses (by decide)]
      rw [filter_segsOf_other "config firewall service custom" _ svcKVs
        cat.services (by decide)]
      rw [filter_segsOf_other "config firewall service group" _ sgrpKVs
        cat.service_groups (by decide)]
      rw [filter_segsOf_other "config firewall vip" _ vipKVs cat.vips (by decide)]
      rw [filter_segsOf_other "config firewall ippool" _ poolKVs cat.ippools (by decide)]
      simp]
    rw [segsOf]
    by_cases hd : cat.addr_groups = []
    · rw [if_pos hd, hd]
      rfl
    · rw [if_neg hd]
      rw [List.map_cons, List.map_nil]
      rw [List.foldl_cons, List.foldl_nil]
      exact grp_parse_body cat.addr_groups hG
  have hfieldS : dictEqB ((extractBlocks (bannerLines ++ (segsFor cat).flatMap
      (fun s => "" :: toBlock s)) "config firewall service custom").foldl
      (fun c block => parseServiceTable c (parseTable block)) []) cat.services = true := by
    rw [extractBlocks_banner _ (by decide) (by decide) (by decide)
      (banner_avoids_headers _ (by decide)) _ hheads (hbodies _ (by decide))]
    rw [show (segsFor cat).filter (fun s => s.1 = "config firewall service custom") =
        segsOf "config firewall service custom" svcKVs cat.services from by
      rw [segsFor]
      rw [List.filter_append, List.filter_append, List.filter_append, List.filter_append,
        List.filter_append]
      rw [filter_segsOf_self "config firewall service custom" svcKVs cat.services]
      rw [filter_segsOf_other "config firewall address" _ addrKVs cat.addresses (by decide)]
      rw [filter_segsOf_other "config firewall addrgrp" _ grpKVs cat.addr_groups (by decide)]
      rw [filter_segsOf_other "config firewall service group" _ sgrpKVs
        cat.service_groups (by decide)]
      rw [filter_segsOf_other "config firewall vip" _ vipKVs cat.vips (by decide)]
      rw [filter_segsOf_other "config firewall ippool" _ poolKVs cat.ippools (by decide)]
      simp]
    rw [segsOf]
    by_cases hd : cat.services = []
    · rw [if_pos hd, hd]
      rfl
    · rw [if_neg hd]
      rw [List.map_cons, List.map_nil]
      rw [List.foldl_cons, List.foldl_nil]
      exact svc_parse_body cat.services hS
  have hfieldSG : dictEqB ((extractBlocks (bannerLines ++ (segsFor cat).flatMap
      (fun s => "" :: toBlock s)) "config firewall service group").foldl
      (fun c block => parseServiceGroupTable c (parseTable block)) [])
      cat.service_groups = true := by
    rw [extractBlocks_banner _ (by decide) (by decide) (by decide)
      (banner_avoids_headers _ (by decide)) _ hheads (hbodies _ (by decide))]
    rw [show (segsFor cat).filter (fun s => s.1 = "config firewall service group") =
        segsOf "config firewall service group" sgrpKVs cat.service_groups from by
      rw [segsFor]
      rw [List.filter_append, List.filter_append, List.filter_append, List.filter_append,
        List.filter_append]
      rw [filter_segsOf_self "config firewall service group" sgrpKVs cat.service_groups]
      rw [filter_segsOf_other "config firewall address" _ addrKVs cat.addresses (by decide)]
      rw [filter_segsOf_other "config firewall addrgrp" _ grpKVs cat.addr_groups (by decide)]
      rw [filter_segsOf_other "config firewall service custom" _ svcKVs
        cat.services (by decide)]
      rw [filter_segsOf_other "config firewall vip" _ vipKVs cat.vips (by decide)]
      rw [filter_segsOf_other "config firewall ippool" _ poolKVs cat.ippools (by decide)]
      simp]
    rw [segsOf]
    by_cases hd : cat.service_groups = []
    · rw [if_pos hd, hd]
      rfl
    · rw [if_neg hd]
      rw [List.map_cons, List.map_nil]
      rw [List.foldl_cons, List.foldl_nil]
      exact sgrp_parse_body cat.service_groups hSG
  have hfieldV : dictEqB ((extractBlocks (bannerLines ++ (segsFor cat).flatMap
      (fun s => "" :: toBlock s)) "config firewall vip").foldl
      (fun c block => parseVipTable c (parseTable block)) []) cat.vips = true := by
    rw [extractBlocks_banner _ (by decide) (by decide) (by decide)
      (banner_avoids_headers _ (by decide)) _ hheads (hbodies _ (by decide))]
    rw [show (segsFor cat).filter (fun s => s.1 = "config firewall vip") =
        segsOf "config firewall vip" vipKVs cat.vips from by
      rw [segsFor]
      rw [List.filter_append, List.filter_append, List.filter_append, List.filter_append,
        List.filter_append]
      rw [filter_segsOf_self "config firewall vip" vipKVs cat.vips]
      rw [filter_segsOf_other "config firewall address" _ addrKVs cat.addresses (by decide)]
      rw [filter_segsOf_other "config firewall addrgrp" _ grpKVs cat.addr_groups (by decide)]
      rw [filter_segsOf_other "config firewall service custom" _ svcKVs
        cat.services (by decide)]
      rw [filter_segsOf_other "config firewall service group" _ sgrpKVs
        cat.service_groups (by decide)]
      rw [filter_segsOf_other "config firewall ippool" _ poolKVs cat.ippools (by decide)]
      simp]
    rw [segsOf]
    by_cases hd : cat.vips = []
    · rw [if_pos hd, hd]
      rfl
    · rw [if_neg hd]
      rw [List.map_cons, List.map_nil]
      rw [List.foldl_cons, List.foldl_nil]
      exact vip_parse_body cat.vips hV
  have hfieldP : dictEqB ((extractBlocks (bannerLines ++ (segsFor cat).flatMap
      (fun s => "" :: toBlock s)) "config firewall ippool").foldl
      (fun c block => parseIppoolTable c (parseTable block)) []) cat.ippools = true := by
    rw [extractBlocks_banner _ (by decide) (by decide) (by decide)
      (banner_avoids_headers _ (by decide)) _ hheads (hbodies _ (by decide))]
    rw [show (segsFor cat).filter (fun s => s.1 = "config firewall ippool") =
        segsOf "config firewall ippool" poolKVs cat.ippools from by
      rw [segsFor]
      rw [List.filter_append, List.filter_append, List.filter_append, List.filter_append,
        List.filter_append]
      rw [filter_segsOf_self "config firewall ippool" poolKVs cat.ippools]
      rw [filter_segsOf_other "config firewall address" _ addrKVs cat.addresses (by decide)]
      rw [filter_segsOf_other "config firewall addrgrp" _ grpKVs cat.addr_groups (by decide)]
      rw [filter_segsOf_other "config firewall service custom" _ svcKVs
        cat.services (by decide)]
      rw [filter_segsOf_other "config firewall service group" _ sgrpKVs
        cat.service_groups (by decide)]
      rw [filter_segsOf_other "config firewall vip" _ vipKVs cat.vips (by decide)]
      simp]
    rw [segsOf]
    by_cases hd : cat.ippools = []
    · rw [if_pos hd, hd]
      rfl
    · rw [if_neg hd]
      rw [List.map_cons, List.map_nil]
      rw [List.foldl_cons, List.foldl_nil]
      exact pool_parse_body cat.ippools hP
  show (dictEqB ((extractBlocks (pySplitlines (generateFgtCli [] (some cat) true none)) "config firewall address").foldl
      (fun c block => parseAddressTable c (parseTable block)) []) cat.addresses &&
    dictEqB ((extractBlocks (pySplitlines (generateFgtCli [] (some cat) true none)) "config firewall addrgrp").foldl
      (fun c block => parseAddrGroupTable c (parseTable block)) []) cat.addr_groups &&
    dictEqB ((extractBlocks (pySplitlines (generateFgtCli [] (some cat) true none)) "config firewall service custom").foldl
      (fun c block => parseServiceTable c (parseTable block)) []) cat.services &&
    dictEqB ((extractBlocks (pySplitlines (generateFgtCli [] (some cat) true none)) "config firewall service group").foldl
      (fun c block => parseServiceGroupTable c (parseTable block)) []) cat.service_groups &&
    dictEqB ((extractBlocks (pySplitlines (generateFgtCli [] (some cat) true none)) "config firewall vip").foldl
      (fun c block => parseVipTable c (parseTable block)) []) cat.vips &&
    dictEqB ((extractBlocks (pySplitlines (generateFgtCli [] (some cat) true none)) "config firewall ippool").foldl
      (fun c block => parseIppoolTable c (parseTable block)) []) cat.ippools) = true
  rw [hlines]
  rw [hfieldA, hfieldG, hfieldS, hfieldSG, hfieldV, hfieldP]
  rfl

instance (d : Dict Address) : Decidable (CleanAddresses d) :=
  inferInstanceAs (Decidable ((dkeys d).Nodup ∧ ∀ kv ∈ d, kv.2.name = kv.1 ∧ CleanName kv.1 ∧
    CleanName kv.2.subnet.1 ∧ CleanName kv.2.subnet.2 ∧ OptClean kv.2.comment))

instance (d : Dict AddressGroup) : Decidable (CleanGroups d) :=
  inferInstanceAs (Decidable ((dkeys d).Nodup ∧ ∀ kv ∈ d, kv.2.name = kv.1 ∧ CleanName kv.1 ∧
    (∀ m ∈ kv.2.members, CleanName m) ∧ pySortedSet kv.2.members = kv.2.members ∧
    OptClean kv.2.comment))

instance (d : Dict Service) : Decidable (CleanServices d) :=
  inferInstanceAs (Decidable ((dkeys d).Nodup ∧ ∀ kv ∈ d, kv.2.name = kv.1 ∧ CleanName kv.1 ∧
    OptClean kv.2.tcp_portrange ∧ OptClean kv.2.udp_portrange ∧ OptClean kv.2.comment))

instance (d : Dict ServiceGroup) : Decidable (CleanSvcGroups d) :=
  inferInstanceAs (Decidable ((dkeys d).Nodup ∧ ∀ kv ∈ d, kv.2.name = kv.1 ∧ CleanName kv.1 ∧
    (∀ m ∈ kv.2.members, CleanName m) ∧ pySortedSet kv.2.members = kv.2.members ∧
    OptClean kv.2.comment))

instance (d : Dict Vip) : Decidable (CleanVips d) :=
  inferInstanceAs (Decidable ((dkeys d).Nodup ∧ ∀ kv ∈ d, kv.2.name = kv.1 ∧ CleanName kv.1 ∧
    CleanName kv.2.extip ∧ CleanName kv.2.mappedip ∧ OptClean kv.2.extintf ∧
    OptClean kv.2.extport ∧ OptClean kv.2.mappedport ∧ OptClean kv.2.comment))

instance (d : Dict IpPool) : Decidable (CleanPools d) :=
  inferInstanceAs (Decidable ((dkeys d).Nodup ∧ ∀ kv ∈ d, kv.2.name = kv.1 ∧ CleanName kv.1 ∧
    CleanName kv.2.startip ∧ CleanName kv.2.endip ∧ OptClean kv.2.pool_type ∧
    OptClean kv.2.comment))

instance (cat : ObjectCatalog) : Decidable (CleanCatalog cat) :=
  inferInstanceAs (Decidable (CleanAddresses cat.addresses ∧ CleanGroups cat.addr_groups ∧
    CleanServices cat.services ∧ CleanSvcGroups cat.service_groups ∧
    CleanVips cat.vips ∧ CleanPools cat.ippools))

/-! ### The round-trip claim -/

/-- A concrete clean catalog exercising all six object kinds. -/
def catW : ObjectCatalog :=
  { addresses := [("host1",
      { name := "host1", subnet := ("10.0.0.1", "255.255.255.255"), comment := some "web" })],
    addr_groups := [("grp1", { name := "grp1", members := ["host1"], comment := none })],
    services := [("svc1",
      { name := "svc1", tcp_portrange := some "80", udp_portrange := none, comment := none })],
    service_groups := [("sgrp1", { name := "sgrp1", members := ["svc1"], comment := none })],
    vips := [("vip1",
      { name := "vip1", extip := "1.2.3.4", mappedip := "10.0.0.2", extintf := some "wan1",
        portforward := true, extport := some "8080", mappedport := some "80",
        comment := none })],
    ippools := [("pool1",
      { name := "pool1", startip := "10.0.1.1", endip := "10.0.1.9",
        pool_type := some "overload", comment := none })] }

/-- A catalog whose only flaw against the original claim is the member
order of its single address group. -/
def catX : ObjectCatalog :=
  { addresses := [],
    addr_groups := [("g", { name := "g", members := ["b", "a"], comment := none })],
    services := [], service_groups := [], vips := [], ippools := [] }

/-- **C2.** For every catalog whose per-kind names are unique and clean, whose
stored values are clean tokens (nonempty, no whitespace, no embedded double
quotes), and whose group member lists are canonical (lexicographically sorted
with duplicates removed), parsing the config text produced by the generator
with objects included yields a catalog equal to the original for every
supported object kind, including the member lists of groups. -/
theorem C2_objects_roundtrip (cat : ObjectCatalog) (h : CleanCatalog cat) :
    catalogEqB (parseFgtConfigText (generateFgtCli [] (some cat) true none)) cat = true :=
  parse_generate_roundtrip cat h

theorem C2_objects_roundtrip_witness :
    CleanCatalog catW ∧
    catalogEqB (parseFgtConfigText (generateFgtCli [] (some catW) true none)) catW = true :=
  ⟨by decide, C2_objects_roundtrip catW (by decide)⟩

/-- The original claim fails: `catX` has unique names in every kind and no
embedded double quote in any value, yet the round trip does not reproduce it —
the generator sorts and deduplicates group members, so the member list
`["b", "a"]` comes back as `["a", "b"]`. -/
theorem C2_member_order_counterexample :
    (dkeys catX.addresses).Nodup ∧ (dkeys catX.addr_groups).Nodup ∧
    (dkeys catX.services).Nodup ∧ (dkeys catX.service_groups).Nodup ∧
    (dkeys catX.vips).Nodup ∧ (dkeys catX.ippools).Nodup ∧
    (∀ kv ∈ catX.addr_groups, kv.2.name = kv.1 ∧ ('"' ∉ kv.2.name.data) ∧
      ∀ m ∈ kv.2.members, '"' ∉ m.data) ∧
    catalogEqB (parseFgtConfigText (generateFgtCli [] (some catX) true none)) catX = false := by
  decide

end PolicyMerger
